import Mathlib

/-!
# Hypertexture: planet renderer

A shallow embedding of `src/main.cpp` (frame loop, start-up and shutdown order,
tweak variables) and of `src/render.cpp` (`Geom::Render`,
`render_GenerateSphereGeom`), with the properties of the specification stated
over it.

Conventions.
* A C++ function that only calls other functions is embedded as the list of
  calls it makes, in order (`List Call`).  A callee whose body is not part of
  the sources appears as one event carrying its arguments.
* `int` values are `Int`; `float` values that are only stored and compared are
  rationals (`Rat`).
* The quadtree of the planet tessellation is not part of the sources; its model
  follows the specification and says so.
-/

namespace Hypertexture

/-! ## Planet tessellation quadtree (specification model) -/

/-- The six states of a tile node (spec section 4.1). -/
inductive TileState where
  | Unloaded
  | Requested
  | Generating
  | Resident
  | Splitting
  | Merging
deriving DecidableEq, Repr

/-- Identifier of a quadtree node: cube face, level and integer grid coordinates. -/
structure TileKey where
  face : Nat
  level : Nat
  u : Nat
  v : Nat
deriving DecidableEq, Repr

/-- Modelled from the spec: the TileNode of the planet quadtree (planet.hh / planet.cpp are
not under src/).  A node owns a key, a state, a failure counter for the bounded retry and a
list of exclusively owned children. -/
inductive TileNode where
  | mk (key : TileKey) (state : TileState) (failures : Nat) (children : List TileNode)
deriving Repr

/-- Key of a node. -/
def TileNode.key : TileNode → TileKey
  | .mk k _ _ _ => k

/-- State of a node. -/
def TileNode.state : TileNode → TileState
  | .mk _ s _ _ => s

/-- Failure counter of a node. -/
def TileNode.failures : TileNode → Nat
  | .mk _ _ n _ => n

/-- Children of a node. -/
def TileNode.children : TileNode → List TileNode
  | .mk _ _ _ cs => cs

/-- What the scheduler reports for the job of a tile in one frame. -/
inductive JobOutcome where
  | Pending
  | Completed
  | Failed
deriving DecidableEq, Repr

/-- Everything one call of `PlanetTessellation::Update` reads besides the tree: the projected
screen-space error of each tile, the draw error threshold, the deepest allowed level, the retry
bound and the completions polled this frame. -/
structure TessInput where
  error : TileKey → Nat
  threshold : Nat
  maxLevel : Nat
  retryBound : Nat
  poll : TileKey → JobOutcome

/-- Key of the i-th child (i in 0..3) of the node with key k. -/
def childKey (k : TileKey) (i : Nat) : TileKey :=
  { face := k.face, level := k.level + 1, u := 2 * k.u + i % 2, v := 2 * k.v + i / 2 }

/-- Modelled from the spec: split (section 4.1) -- the node goes to `Splitting` and gets
four children in state `Requested`. -/
def TileNode.split : TileNode → TileNode
  | .mk k _ n _ =>
    .mk k .Splitting n ((List.range 4).map fun i => .mk (childKey k i) .Requested 0 [])

/-- Modelled from the spec: first half of a merge -- the node enters `Merging`. -/
def TileNode.beginMerge : TileNode → TileNode
  | .mk k _ n cs => .mk k .Merging n cs

/-- Modelled from the spec: second half of a merge -- the children are collapsed (destroyed,
their geometry released) and the node reverts to a `Resident` leaf. -/
def TileNode.collapse : TileNode → TileNode
  | .mk k _ n _ => .mk k .Resident n []

/-- Modelled from the spec: a whole merge, as one Update performs it. -/
def TileNode.merge (t : TileNode) : TileNode :=
  t.beginMerge.collapse

/-- Modelled from the spec: a `Requested` node is submitted as a job and becomes
`Generating`. -/
def TileNode.submit : TileNode → TileNode
  | .mk k _ n cs => .mk k .Generating n cs

/-- Modelled from the spec: the completion callback makes the node `Resident`. -/
def TileNode.complete : TileNode → TileNode
  | .mk k _ n cs => .mk k .Resident n cs

/-- Modelled from the spec: a failed job reverts the node to `Requested`, and to a permanent
`Unloaded` once the retry bound is reached. -/
def TileNode.fail (retryBound : Nat) : TileNode → TileNode
  | .mk k _ n cs =>
    if retryBound ≤ n + 1 then .mk k .Unloaded (n + 1) cs else .mk k .Requested (n + 1) cs

/-- The merge condition of the spec: four children, all of them `Resident`, and an error well
below the threshold (below half of it). -/
def mergeWanted (inp : TessInput) (k : TileKey) (cs : List TileNode) : Bool :=
  cs.length == 4 && cs.all (fun c => c.state == .Resident) &&
    decide (2 * inp.error k < inp.threshold)

/-- The split condition of the spec: a `Resident` leaf at an allowable depth whose error exceeds
the threshold. -/
def splitWanted (inp : TessInput) (k : TileKey) (s : TileState) (cs : List TileNode) : Bool :=
  s == .Resident && cs.isEmpty && decide (inp.threshold < inp.error k) &&
    decide (k.level < inp.maxLevel)

/-- The transition of a node's own state that does not touch its children. -/
def ownStep (inp : TessInput) (t : TileNode) : TileNode :=
  match t.state with
  | .Requested => t.submit
  | .Generating =>
    match inp.poll t.key with
    | .Pending => t
    | .Completed => t.complete
    | .Failed => t.fail inp.retryBound
  | .Merging => t.collapse
  | _ => t

mutual
/-- Modelled from the spec: what `PlanetTessellation::Update` does to one node, depth first
from the root to the leaves. -/
def TileNode.update (inp : TessInput) : TileNode → TileNode
  | .mk k s n cs =>
    if mergeWanted inp k cs then (TileNode.mk k s n cs).merge
    else if splitWanted inp k s cs then (TileNode.mk k s n cs).split
    else
      match ownStep inp (.mk k s n []) with
      | .mk k1 s1 n1 _ =>
        if s == .Merging then .mk k1 s1 n1 [] else .mk k1 s1 n1 (updateList inp cs)
/-- The update of a list of siblings, in order. -/
def updateList (inp : TessInput) : List TileNode → List TileNode
  | [] => []
  | c :: cs => c.update inp :: updateList inp cs
end

mutual
/-- All nodes of the subtree of a node, the node itself first. -/
def TileNode.nodes : TileNode → List TileNode
  | .mk k s n cs => .mk k s n cs :: nodesList cs
/-- All nodes of the subtrees of a list of nodes. -/
def nodesList : List TileNode → List TileNode
  | [] => []
  | c :: cs => c.nodes ++ nodesList cs
end

/-- The invariant of one node: its state is one of the six and it has no child or four. -/
def TileNode.ok (t : TileNode) : Prop :=
  t.state ∈ [TileState.Unloaded, .Requested, .Generating, .Resident, .Splitting, .Merging] ∧
    (t.children.length = 0 ∨ t.children.length = 4)

instance (t : TileNode) : Decidable t.ok := by
  unfold TileNode.ok; exact inferInstance

/-- Modelled from the spec: the planet tessellation, six cube-sphere root faces. -/
structure PlanetTessellation where
  roots : List TileNode

/-- The six root faces, `Requested` at start-up. -/
def PlanetTessellation.initial : PlanetTessellation :=
  { roots := (List.range 6).map fun f => .mk ⟨f, 0, 0, 0⟩ .Requested 0 [] }

/-- Modelled from the spec: `PlanetTessellation::Update`, the root faces in the fixed order
0..5. -/
def PlanetTessellation.Update (inp : TessInput) (ts : PlanetTessellation) : PlanetTessellation :=
  { roots := updateList inp ts.roots }

/-- Every node of the quadtree. -/
def PlanetTessellation.allNodes (ts : PlanetTessellation) : List TileNode :=
  nodesList ts.roots

/-- The invariant of the whole quadtree, at an observation point. -/
def PlanetTessellation.WellFormed (ts : PlanetTessellation) : Prop :=
  ∀ t ∈ ts.allNodes, t.ok

instance (ts : PlanetTessellation) : Decidable ts.WellFormed := by
  unfold PlanetTessellation.WellFormed; exact inferInstance

/-- The quadtree after a sequence of frames, one input per frame. -/
def PlanetTessellation.runFrames (ts : PlanetTessellation) : List TessInput → PlanetTessellation
  | [] => ts
  | inp :: rest => (ts.Update inp).runFrames rest

/-! ## Calls and handles of `main.cpp` -/

/-- A `Framedata*` returned by `frame_New`: the value of the frame arena's reset counter at the
time of the allocation.  The pointer is valid as long as the arena has not been reset again. -/
structure FrameRef where
  gen : Nat
deriving DecidableEq, Repr

/-- The two lists of tweak variables of `main.cpp`. -/
inductive VarList where
  | g_tweakVars
  | g_settingsVars
deriving DecidableEq, Repr

/-- The three objects `g_world` holds through `std::shared_ptr`. -/
inductive Obj where
  | Planet
  | Sky
  | PlanetTessellation
deriving DecidableEq, Repr

/-- The calls made by the functions of `main.cpp`, as they appear in a call trace.  Calls that
no property looks at carry their name as a string; pure getters and vector arithmetic are not
recorded. -/
inductive Call where
  | sdl (name : String)
  | gl (name : String)
  | checkGlError (tag : String)
  | startup (name : String)
  | task_Startup (workers : Nat)
  | task_Shutdown
  | task_Update
  | task_RenderProgress
  | gputask_Join
  | gputask_Kick
  | construct (o : Obj)
  | destroy (o : Obj)
  | tweaker_LoadVars (file : String) (vars : VarList)
  | tweaker_SaveVars (file : String) (vars : VarList)
  | camera (method : String)
  | sky (method : String)
  | terrain (method : String)
  | menu (name : String)
  | menu_Key (sym : Nat) (mods : Nat)
  | menu_Update
  | menu_Draw
  | dbgdraw_Clear
  | dbgdraw_Render
  | drawDebugTexture
  | font_Print
  | framemem_Clear
  | frame_New (f : FrameRef)
  | update (f : FrameRef)
  | draw (f : FrameRef)
  | clock_gettime
  | PlanetTessellation_Update (f : FrameRef)
  | PlanetTessellation_Render (f : FrameRef)
  | Planet_Update
deriving DecidableEq, Repr

/-- Whether the constructors of `Sky` and `PlanetTessellation` (not under src/) keep the
`std::shared_ptr<Planet>` they are given. -/
structure Retains where
  sky : Bool
  planetTs : Bool
deriving DecidableEq, Repr

/-- The global `g_world`: its three shared pointers (true when non-empty), the use counts of
the objects they point to, and whether the sky and the tessellation hold a reference to the
planet.  `main.cpp` makes no other copy of the three pointers: the closures of the tweak
variables and of the menus capture `g_world.m_sky` and `g_world` by reference. -/
structure World where
  m_planet : Bool
  m_sky : Bool
  m_planetTs : Bool
  planetRefs : Nat
  skyRefs : Nat
  tsRefs : Nat
  skyHoldsPlanet : Bool
  tsHoldsPlanet : Bool
deriving DecidableEq, Repr

/-- The world before `createWorldObjects`. -/
def World.empty : World :=
  { m_planet := false, m_sky := false, m_planetTs := false, planetRefs := 0, skyRefs := 0,
    tsRefs := 0, skyHoldsPlanet := false, tsHoldsPlanet := false }

/-- One owner of the Planet lets go: the planet is destroyed when that was the last one. -/
def World.releasePlanet (w : World) : World × List Call :=
  if w.planetRefs = 1 then ({ w with planetRefs := 0 }, [Call.destroy .Planet])
  else ({ w with planetRefs := w.planetRefs - 1 }, [])

/-- The statement `g_world.m_planet.reset()`. -/
def World.resetPlanet (w : World) : World × List Call :=
  if w.m_planet then
    let r := w.releasePlanet
    ({ r.1 with m_planet := false }, r.2)
  else (w, [])

/-- The statement `g_world.m_planetTs.reset()`: when the last owner lets go the tessellation is
destroyed, and its members with it, among them its reference to the planet. -/
def World.resetPlanetTs (w : World) : World × List Call :=
  if w.m_planetTs then
    if w.tsRefs = 1 then
      let r := if w.tsHoldsPlanet then w.releasePlanet else (w, [])
      ({ r.1 with m_planetTs := false, tsRefs := 0, tsHoldsPlanet := false },
        r.2 ++ [Call.destroy .PlanetTessellation])
    else ({ w with m_planetTs := false, tsRefs := w.tsRefs - 1 }, [])
  else (w, [])

/-- The statement `g_world.m_sky.reset()`. -/
def World.resetSky (w : World) : World × List Call :=
  if w.m_sky then
    if w.skyRefs = 1 then
      let r := if w.skyHoldsPlanet then w.releasePlanet else (w, [])
      ({ r.1 with m_sky := false, skyRefs := 0, skyHoldsPlanet := false },
        r.2 ++ [Call.destroy .Sky])
    else ({ w with m_sky := false, skyRefs := w.skyRefs - 1 }, [])
  else (w, [])

/-- The function `createWorldObjects`: the planet, then the sky built from the planet. -/
def createWorldObjects (ret : Retains) (w : World) : World × List Call :=
  let w1 := { w with m_planet := true, planetRefs := 1 }
  let w2 := { w1 with m_sky := true, skyRefs := 1, skyHoldsPlanet := ret.sky,
                      planetRefs := w1.planetRefs + (if ret.sky then 1 else 0) }
  (w2, [Call.construct .Planet, Call.construct .Sky, Call.menu "MakeWorldMenu",
        Call.menu "AppendChild"])

/-- The function `setupWorldTerrain`: one ridged multifractal stroke, then the tessellation built
from the planet. -/
def setupWorldTerrain (ret : Retains) (w : World) : World × List Call :=
  let w1 := { w with m_planetTs := true, tsRefs := 1, tsHoldsPlanet := ret.planetTs,
                     planetRefs := w.planetRefs + (if ret.planetTs then 1 else 0) }
  (w1, [Call.terrain "CreateBrush", Call.terrain "GetTerrain", Call.terrain "AddStroke",
        Call.construct .PlanetTessellation])

/-- The function `InitializeShaders`. -/
def InitializeShaders : List Call :=
  [Call.startup "render_CompileShader", Call.checkGlError "InitializeShaders"]

/-- The start-up function of `main.cpp` (its name there is a reserved word here). -/
def initApp (ret : Retains) (w : World) : World × List Call :=
  let c := createWorldObjects ret w
  let t := setupWorldTerrain ret c.1
  (t.1,
    [Call.task_Startup 3, Call.startup "dbgdraw_Init"] ++ InitializeShaders ++
    [Call.startup "framemem_Init", Call.startup "font_Init", Call.startup "glslnoise_Init",
     Call.startup "sky_Init", Call.startup "terrain_Init", Call.startup "planet_Init",
     Call.menu "MakeMenu", Call.menu "menu_SetTop", Call.startup "ui_Init"] ++
    c.2 ++ t.2 ++
    [Call.camera "Camera", Call.camera "Camera",
     Call.tweaker_LoadVars "tweaker.txt" .g_tweakVars,
     Call.camera "LookAt", Call.sky "RecomputeTextures",
     Call.tweaker_LoadVars ".settings" .g_settingsVars])

/-! ## The frame loop of `main` -/

/-- The events `main` tells apart in its `switch(event.type)`. -/
inductive SDLEvent where
  | KEYDOWN (sym : Nat) (mods : Nat)
  | MOUSEBUTTONDOWN
  | MOUSEBUTTONUP
  | KEYUP
  | QUIT
  | other
deriving DecidableEq, Repr

/-- SDL 1.2 key code of the escape key. -/
def SDLK_ESCAPE : Nat := 27
/-- SDL 1.2 key code of the space bar. -/
def SDLK_SPACE : Nat := 32
/-- SDL 1.2 key code of keypad minus. -/
def SDLK_KP_MINUS : Nat := 269
/-- SDL 1.2 key code of keypad plus. -/
def SDLK_KP_PLUS : Nat := 270
/-- SDL 1.2 key code of keypad enter. -/
def SDLK_KP_ENTER : Nat := 271
/-- SDL 1.2 key code of page up. -/
def SDLK_PAGEUP : Nat := 280
/-- SDL 1.2 key code of page down. -/
def SDLK_PAGEDOWN : Nat := 281
/-- SDL 1.2 key code of the letter w. -/
def SDLK_w : Nat := 119
/-- SDL 1.2 key code of the letter a. -/
def SDLK_a : Nat := 97
/-- SDL 1.2 key code of the letter s. -/
def SDLK_s : Nat := 115
/-- SDL 1.2 key code of the letter d. -/
def SDLK_d : Nat := 100
/-- Number of SDL 1.2 key codes. -/
def SDLK_LAST : Nat := 323

/-- What one iteration of the frame loop reads from outside: the polled event, the mouse and
keyboard state, the monotonic clock, and the flags that menu items may have written through the
pointers they were given (`g_skyEnabled`, the current camera). -/
structure FrameInput where
  event : Option SDLEvent
  buttonState : Nat
  xPos : Int
  yPos : Int
  heldKeys : List Nat
  mods : Nat
  tv_sec : Nat
  tv_nsec : Nat
  debugCamera : Bool
  skyEnabled : Bool
deriving Repr

/-- The file-scope globals of `main.cpp` and the locals of `main` that live across iterations.
`arenaGen` counts the resets of the frame arena. -/
structure MainState where
  world : World
  arenaGen : Nat
  g_menuEnabled : Nat
  g_debugTexture : Nat
  g_debugTextureSplit : Nat
  g_dt : Rat
  g_lastTime : Nat
  g_frameCount : Int
  g_frameSampleCount : Int
  g_frameSampleTime : Nat
  g_fpsDisplay : Rat
  done : Nat
  keyRepeatTimer : Rat
  nextKeyTimer : Rat
  turning : Nat
  rolling : Nat
  xTurnCenter : Int
  yTurnCenter : Int
deriving Repr

/-- The state when the frame loop is entered: zero-initialised globals and the locals as `main`
declares them. -/
def MainState.start (w : World) : MainState :=
  { world := w, arenaGen := 0, g_menuEnabled := 0, g_debugTexture := 0, g_debugTextureSplit := 0,
    g_dt := 0, g_lastTime := 0, g_frameCount := 0, g_frameSampleCount := 0,
    g_frameSampleTime := 0, g_fpsDisplay := 0, done := 0, keyRepeatTimer := 0,
    nextKeyTimer := 0, turning := 0, rolling := 0, xTurnCenter := 0, yTurnCenter := 0 }

/-- The function `update(Framedata&)`: frame timing, then the per-frame calls. -/
def update (st : MainState) (inp : FrameInput) (f : FrameRef) : MainState × List Call :=
  let timeUsec : Nat := (inp.tv_sec * 1000000 + inp.tv_nsec / 1000) % 2 ^ 64
  let diffTime : Nat := (timeUsec + 2 ^ 64 - st.g_lastTime) % 2 ^ 64
  let st1 : MainState :=
    if diffTime > 16000 then { st with g_lastTime := timeUsec, g_dt := (diffTime : Rat) / 1000000 }
    else { st with g_dt := 0 }
  let st2 : MainState :=
    if st1.g_frameCount - st1.g_frameSampleCount > 30 * 5 then
      let diffTime2 : Nat := (timeUsec + 2 ^ 64 - st1.g_frameSampleTime) % 2 ^ 64
      let delta : Rat := (diffTime2 : Rat) / 1000000
      { st1 with g_frameSampleTime := timeUsec,
                 g_fpsDisplay := ((st1.g_frameCount - st1.g_frameSampleCount : Int) : Rat) / delta,
                 g_frameSampleCount := st1.g_frameCount }
    else st1
  (st2, [Call.clock_gettime, Call.camera "Compute", Call.PlanetTessellation_Update f,
         Call.Planet_Update, Call.menu_Update, Call.gputask_Join, Call.gputask_Kick,
         Call.task_Update])

/-- The function `draw(Framedata&)`.  The frame is read once, for the tile list handed to
`PlanetTessellation::Render`. -/
def draw (st : MainState) (inp : FrameInput) (f : FrameRef) : List Call :=
  [Call.gl "glBindFramebuffer", Call.gl "glDisable", Call.gl "glClearColor", Call.gl "glClear",
   Call.gl "glEnable", Call.gl "glScissor"] ++
  (if inp.debugCamera then [] else [Call.gl "glEnable"]) ++
  [Call.gl "glPolygonMode", Call.sky "SkyParams::Update", Call.checkGlError "draw(): pre planet",
   Call.PlanetTessellation_Render f, Call.checkGlError "draw(): post planet"] ++
  (if inp.skyEnabled then [Call.sky "Render", Call.checkGlError "draw(): post sky"] else []) ++
  (if inp.debugCamera then [] else [Call.gl "glEnable"]) ++
  [Call.gl "glEnable", Call.dbgdraw_Render, Call.checkGlError "draw(): post dbgdraw",
   Call.gl "glDisable", Call.gl "glDisable", Call.gl "glPolygonMode", Call.drawDebugTexture] ++
  (if st.g_menuEnabled ≠ 0 then [Call.menu_Draw] else []) ++
  [Call.checkGlError "draw(): post menu", Call.font_Print, Call.font_Print, Call.font_Print,
   Call.task_RenderProgress, Call.checkGlError "end draw", Call.sdl "SDL_GL_SwapBuffers",
   Call.checkGlError "swap"]

/-- The function `move_camera`. -/
def move_camera (_dir : Nat) : List Call :=
  [Call.sdl "SDL_GetModState", Call.camera "MoveBy"]

/-- The `SDL_KEYDOWN` case of the event switch. -/
def onKeyDown (st : MainState) (sym mods : Nat) : MainState × List Call :=
  let st1 := { st with keyRepeatTimer := 0, nextKeyTimer := 0 }
  if st1.g_menuEnabled ≠ 0 then
    if sym = SDLK_SPACE then ({ st1 with g_menuEnabled := 1 ^^^ st1.g_menuEnabled }, [])
    else (st1, [Call.menu_Key sym mods])
  else if sym = SDLK_ESCAPE then ({ st1 with done := 1 }, [])
  else if sym = SDLK_SPACE then
    ({ st1 with g_menuEnabled := 1 ^^^ st1.g_menuEnabled }, [Call.sdl "SDL_ShowCursor"])
  else if sym = SDLK_KP_PLUS then
    ({ st1 with g_debugTexture := (st1.g_debugTexture + 1) % 2 ^ 32 }, [])
  else if sym = SDLK_KP_MINUS then
    (if st1.g_debugTexture > 0 then { st1 with g_debugTexture := st1.g_debugTexture - 1 } else st1,
      [])
  else if sym = SDLK_KP_ENTER then
    ({ st1 with g_debugTextureSplit := 1 ^^^ st1.g_debugTextureSplit }, [])
  else if sym = SDLK_PAGEUP then (st1, [Call.camera "MoveBy"])
  else if sym = SDLK_PAGEDOWN then (st1, [Call.camera "MoveBy"])
  else (st1, [])

/-- The event switch at the top of the loop body. -/
def handleEvent (st : MainState) (inp : FrameInput) : MainState × List Call :=
  match inp.event with
  | none => (st, [Call.sdl "SDL_PollEvent"])
  | some (.KEYDOWN sym mods) =>
    let r := onKeyDown st sym mods
    (r.1, Call.sdl "SDL_PollEvent" :: r.2)
  | some .MOUSEBUTTONDOWN =>
    let turning := (inp.buttonState % 256) &&& 1
    let rolling := (inp.buttonState % 256) &&& 4
    let st1 := { st with turning := turning, rolling := rolling }
    (if turning ≠ 0 ∨ rolling ≠ 0 then
        { st1 with xTurnCenter := inp.xPos, yTurnCenter := inp.yPos } else st1,
      [Call.sdl "SDL_PollEvent", Call.sdl "SDL_GetMouseState"])
  | some .MOUSEBUTTONUP =>
    ({ st with turning := (inp.buttonState % 256) &&& 1,
               rolling := (inp.buttonState % 256) &&& 4 },
      [Call.sdl "SDL_PollEvent", Call.sdl "SDL_GetMouseState"])
  | some .KEYUP => ({ st with keyRepeatTimer := 0, nextKeyTimer := 0 }, [Call.sdl "SDL_PollEvent"])
  | some .QUIT => ({ st with done := 1 }, [Call.sdl "SDL_PollEvent"])
  | some .other => (st, [Call.sdl "SDL_PollEvent"])

/-- Camera turning and rolling with the mouse, and camera motion with the keys w, a, s, d. -/
def steerCamera (st : MainState) (inp : FrameInput) : List Call :=
  (if st.turning ≠ 0 ∨ st.rolling ≠ 0 then
      [Call.sdl "SDL_GetMouseState"] ++
      (if st.turning ≠ 0 then [Call.camera "TurnBy", Call.camera "TiltBy"] else []) ++
      (if st.rolling ≠ 0 then [Call.camera "RollBy"] else [])
    else []) ++
  (if st.g_menuEnabled = 0 then
      [Call.sdl "SDL_GetKeyState"] ++
      (if SDLK_w ∈ inp.heldKeys then move_camera 0 else []) ++
      (if SDLK_a ∈ inp.heldKeys then move_camera 2 else []) ++
      (if SDLK_s ∈ inp.heldKeys then move_camera 1 else []) ++
      (if SDLK_d ∈ inp.heldKeys then move_camera 3 else [])
    else [])

/-- The key repeat at the end of the loop body. -/
def keyRepeat (st : MainState) (inp : FrameInput) : MainState × List Call :=
  let st1 := { st with keyRepeatTimer := st.keyRepeatTimer + st.g_dt }
  if st1.g_menuEnabled ≠ 0 ∧ st1.keyRepeatTimer > 33 / 100 then
    let st2 := { st1 with nextKeyTimer := st1.nextKeyTimer + st1.g_dt }
    if st2.nextKeyTimer > 1 / 10 then
      ({ st2 with nextKeyTimer := 0 },
        [Call.sdl "SDL_GetModState", Call.sdl "SDL_GetKeyState"] ++
        ((List.range SDLK_LAST).filter (fun i => i ∈ inp.heldKeys)).map
          (fun i => Call.menu_Key i inp.mods))
    else (st2, [])
  else (st1, [])

/-- Modelled from the spec: `frame_New` (frame.hh is not under src/) hands out a Framedata placed
in the frame arena, so the handle carries the arena's current reset count. -/
def frame_New (st : MainState) : FrameRef :=
  { gen := st.arenaGen }

/-- Modelled from the spec: `framemem_Clear` (framemem.hh is not under src/) resets the frame
arena and so invalidates everything allocated from it before. -/
def framemem_Clear (st : MainState) : MainState :=
  { st with arenaGen := st.arenaGen + 1 }

/-- One iteration of the `do ... while(!done)` loop of `main`. -/
def frameIteration (st : MainState) (inp : FrameInput) : MainState × List Call :=
  let e := handleEvent st inp
  let steer := steerCamera e.1 inp
  let st1 := framemem_Clear e.1
  let frame := frame_New st1
  let u := update st1 inp frame
  let d := draw u.1 inp frame
  let st2 := { u.1 with g_frameCount := u.1.g_frameCount + 1 }
  let k := keyRepeat st2 inp
  (k.1, e.2 ++ steer ++ [Call.dbgdraw_Clear, Call.framemem_Clear, Call.frame_New frame,
      Call.update frame] ++ u.2 ++ [Call.draw frame] ++ d ++ k.2)

/-- The frame loop: the body runs, then `done` is tested.  When the inputs run out before `done`
is set, the loop has not finished and the state still has `done = 0`. -/
def mainLoop : MainState → List FrameInput → MainState × List Call
  | st, [] => (st, [])
  | st, inp :: rest =>
    let r := frameIteration st inp
    if r.1.done ≠ 0 then r
    else
      let q := mainLoop r.1 rest
      (q.1, r.2 ++ q.2)

/-- The end of `main`, after the loop. -/
def shutdown (w : World) : World × List Call :=
  let p := w.resetPlanet
  let t := p.1.resetPlanetTs
  let s := t.1.resetSky
  (s.1, [Call.task_Shutdown, Call.tweaker_SaveVars "tweaker.txt" .g_tweakVars,
         Call.tweaker_SaveVars ".settings" .g_settingsVars] ++ p.2 ++ t.2 ++ s.2 ++
        [Call.sdl "SDL_Quit"])

/-- The calls of `main` up to the frame loop. -/
def mainPrologue (ret : Retains) : World × List Call :=
  let i := initApp ret World.empty
  (i.1, [Call.sdl "SDL_SetVideoMode", Call.gl "glewInit", Call.sdl "SDL_ShowCursor",
         Call.gl "glEnable", Call.gl "glEnable"] ++ i.2 ++ [Call.checkGlError "after init"])

/-- The function `main`: the call trace of a whole run, for the inputs of its frames.  The result
is `none` when the inputs end before any of them sets `done` (the run is not over). -/
def main (ret : Retains) (inputs : List FrameInput) : Option (List Call) :=
  let p := mainPrologue ret
  let l := mainLoop (MainState.start p.1) inputs
  if l.1.done ≠ 0 then some (p.2 ++ l.2 ++ (shutdown l.1.world).2) else none

/-! ## Tweak variables and menu items registered in `main.cpp` -/

/-- The classes of tweak variable used in `main.cpp`. -/
inductive TweakKind where
  | TweakVector
  | TweakColor
  | TweakFloat
  | TweakBool
deriving DecidableEq, Repr

/-- What a tweak variable or menu item is bound to: the address of a global, or a getter and
setter pair on a member of the parameters of `g_world.m_sky`. -/
inductive TweakTarget where
  | global (name : String)
  | skyParam (member : String)
deriving DecidableEq, Repr

/-- A default value given at registration. -/
inductive TweakValue where
  | vec (x y z : Rat)
  | color (r g b : Rat)
  | float (x : Rat)
  | bool (b : Bool)
deriving DecidableEq, Repr

/-- The argument `Limits<float>{min, max}` of a registration. -/
structure Limits where
  m_min : Rat
  m_max : Rat
deriving DecidableEq, Repr

/-- One entry of a list of tweak variables, as written in `main.cpp`: class, name, target, the
default when one is given, the limits when they are given. -/
structure TweakVar where
  kind : TweakKind
  name : String
  target : TweakTarget
  defaultValue : Option TweakValue
  limits : Option Limits
deriving DecidableEq, Repr

/-- The list `g_tweakVars`. -/
def g_tweakVars : List TweakVar :=
  [ ⟨.TweakVector, "cam.eye", .global "g_defaultEye", some (.vec 8 0 2), none⟩,
    ⟨.TweakVector, "cam.focus", .global "g_defaultFocus", none, none⟩,
    ⟨.TweakVector, "cam.up", .global "g_defaultUp", some (.vec 0 0 1), none⟩,
    ⟨.TweakVector, "lighting.sundir", .global "g_sundir", some (.vec (-1) (-1) 1), none⟩,
    ⟨.TweakColor, "lighting.suncolor", .global "g_suncolor", some (.color 1 1 1), none⟩,
    ⟨.TweakFloat, "lighting.sunintensity", .global "g_sunIntensity", some (.float 1), none⟩,
    ⟨.TweakFloat, "planet.drawErrorThreshold", .global "g_tileDrawErrorThreshold",
      some (.float 15), none⟩,
    ⟨.TweakFloat, "sky.m_Kr", .skyParam "m_Kr", some (.float (15 / 10000)), none⟩,
    ⟨.TweakFloat, "sky.m_Km", .skyParam "m_Km", some (.float (25 / 10000)), none⟩,
    ⟨.TweakFloat, "sky.m_rayleighScaleHeight", .skyParam "m_rayleighScaleHeight",
      some (.float (25 / 100)), some ⟨0, 1⟩⟩,
    ⟨.TweakFloat, "sky.m_mieScaleHeight", .skyParam "m_mieScaleHeight",
      some (.float (15 / 100)), some ⟨0, 1⟩⟩,
    ⟨.TweakFloat, "sky.m_g", .skyParam "m_g", some (.float (8 / 10)), some ⟨-1, 1⟩⟩ ]

/-- The list `g_settingsVars`. -/
def g_settingsVars : List TweakVar :=
  [ ⟨.TweakBool, "debug.wireframe", .global "g_wireframe", some (.bool false), none⟩,
    ⟨.TweakBool, "debug.draw", .global "g_dbgdrawEnabled", some (.bool false), none⟩,
    ⟨.TweakBool, "debug.drawdepth", .global "g_dbgdrawEnableDepthTest", some (.bool true), none⟩ ]

/-- The contents of a list of tweak variables. -/
def VarList.vars : VarList → List TweakVar
  | .g_tweakVars => Hypertexture.g_tweakVars
  | .g_settingsVars => Hypertexture.g_settingsVars

/-- The classes of menu item used in the planet menu of `MakeMenu`. -/
inductive MenuKind where
  | FloatSliderMenuItem
  | BoolMenuItem
deriving DecidableEq, Repr

/-- One item of a menu, as written in `MakeMenu`: class, label and target.  No item of the planet
menu is given a scale or a range. -/
structure MenuItemReg where
  kind : MenuKind
  name : String
  target : TweakTarget
deriving DecidableEq, Repr

/-- The vector `planetMenu` of `MakeMenu`. -/
def planetMenu : List MenuItemReg :=
  [ ⟨.FloatSliderMenuItem, "draw error threshold", .global "g_tileDrawErrorThreshold"⟩,
    ⟨.BoolMenuItem, "sky enabled", .global "g_skyEnabled"⟩ ]

/-- The global `g_tileDrawErrorThreshold`, as a target. -/
def thresholdTarget : TweakTarget := .global "g_tileDrawErrorThreshold"

/-! ## `Geom::Render` of `render.cpp` -/

/-- The vertex attributes a shader can bind (the indices of `ShaderInfo::m_attrs`). -/
inductive GeomAttr where
  | GEOM_Pos
  | GEOM_Uv
  | GEOM_Normal
  | GEOM_Color
deriving DecidableEq, Repr

/-- An element of a vertex layout: attribute, number of floats, byte offset. -/
structure GeomBindPair where
  m_attr : GeomAttr
  m_count : Int
  m_offset : Int
deriving DecidableEq, Repr

/-- The members of a `Geom` after its constructor has run; `vtxBuffer` and `idxBuffer` are
`m_buffer[VTX_BUFFER]` and `m_buffer[IDX_BUFFER]`. -/
structure Geom where
  m_stride : Int
  m_glPrimType : Nat
  m_numIndices : Int
  m_elements : List GeomBindPair
  vtxBuffer : Nat
  idxBuffer : Nat
deriving Repr

/-- The part of a `ShaderInfo` that `Geom` reads: the locations of the attributes, negative
when the program does not have the attribute. -/
structure ShaderInfo where
  m_program : Nat
  m_attrs : GeomAttr → Int

/-- Buffer binding points. -/
inductive BufferTarget where
  | GL_ARRAY_BUFFER
  | GL_ELEMENT_ARRAY_BUFFER
deriving DecidableEq, Repr

/-- Component types of the GL calls below. -/
inductive GLType where
  | GL_FLOAT
  | GL_UNSIGNED_SHORT
deriving DecidableEq, Repr

/-- The OpenGL calls that matter for a draw submission.  `glUseProgram` and `glUniform` stand
for program selection and for the whole family of uniform setters. -/
inductive GLCall where
  | glBindBuffer (target : BufferTarget) (buffer : Nat)
  | glEnableVertexAttribArray (loc : Int)
  | glVertexAttribPointer (loc : Int) (size : Int) (type : GLType) (normalized : Bool)
      (stride : Int) (offset : Int)
  | glDrawElements (mode : Nat) (count : Int) (type : GLType) (offset : Nat)
  | glDisableVertexAttribArray (loc : Int)
  | glGetError
  | gluErrorString (error : Nat)
  | glUseProgram (program : Nat)
  | glUniform (loc : Int)
deriving DecidableEq, Repr

/-- The function `checkGlError`: it asks for the error state, and for the text of the error when
there is one (`GL_NO_ERROR` is 0). -/
def checkGlError (glError : Nat) : List GLCall :=
  if glError ≠ 0 then [GLCall.glGetError, GLCall.gluErrorString glError] else [GLCall.glGetError]

/-- The method `Geom::Bind`: both buffers, then a loop over the elements. -/
def Geom.Bind (g : Geom) (shader : ShaderInfo) : List GLCall :=
  g.m_elements.foldl
    (fun calls pair =>
      if shader.m_attrs pair.m_attr ≥ 0 then
        calls ++ [GLCall.glEnableVertexAttribArray (shader.m_attrs pair.m_attr),
                  GLCall.glVertexAttribPointer (shader.m_attrs pair.m_attr) pair.m_count
                    .GL_FLOAT false g.m_stride pair.m_offset]
      else calls)
    [GLCall.glBindBuffer .GL_ARRAY_BUFFER g.vtxBuffer,
     GLCall.glBindBuffer .GL_ELEMENT_ARRAY_BUFFER g.idxBuffer]

/-- The method `Geom::Submit`. -/
def Geom.Submit (g : Geom) : List GLCall :=
  [GLCall.glDrawElements g.m_glPrimType g.m_numIndices .GL_UNSIGNED_SHORT 0]

/-- The method `Geom::Unbind`: a loop over the elements. -/
def Geom.Unbind (g : Geom) (shader : ShaderInfo) : List GLCall :=
  g.m_elements.foldl
    (fun calls pair =>
      if shader.m_attrs pair.m_attr ≥ 0 then
        calls ++ [GLCall.glDisableVertexAttribArray (shader.m_attrs pair.m_attr)]
      else calls)
    []

/-- The method `Geom::Render`; `glError` is what `glGetError` returns at its end. -/
def Geom.Render (g : Geom) (shader : ShaderInfo) (glError : Nat) : List GLCall :=
  g.Bind shader ++ g.Submit ++ g.Unbind shader ++ checkGlError glError

/-- The elements of a geometry that the shader has a location for. -/
def Geom.active (g : Geom) (shader : ShaderInfo) : List GeomBindPair :=
  g.m_elements.filter (fun pair => decide (shader.m_attrs pair.m_attr ≥ 0))

/-- Whether a call selects a program or sets a uniform. -/
def GLCall.isProgramOrUniform : GLCall → Bool
  | .glUseProgram _ => true
  | .glUniform _ => true
  | _ => false

/-- Whether a call is a draw submission. -/
def GLCall.isDraw : GLCall → Bool
  | .glDrawElements _ _ _ _ => true
  | _ => false

/-! ## `render_GenerateSphereGeom` of `render.cpp` -/

/-- The four `ASSERT`s of `render_GenerateSphereGeom`, in the order of the text. -/
inductive AssertId where
  | vertexColumn
  | vertexEnd
  | indexStrip
  | indexEnd
deriving DecidableEq, Repr

/-- What a vertex written to `verts` is: one of the two poles, or the point of column m on
ring n. -/
inductive VertSource where
  | top
  | bottom
  | ring (m n : Int)
deriving DecidableEq, Repr

/-- The run of `render_GenerateSphereGeom` as far as memory is concerned: the sizes, the cursor
`off`, the outcome of every `ASSERT` executed, and every write to `verts` (offset and vertex) and
to `indices` (offset and the value stored, an `unsigned short`), in order.  The coordinates
themselves (sines and cosines) are left out.  An `ASSERT` that fails is recorded and the run goes
on, as in a build without assertions. -/
structure SphereRun where
  numVerts : Int
  numFaces : Int
  off : Int
  asserts : List (AssertId × Bool)
  vertWrites : List (Int × VertSource)
  indexWrites : List (Int × Int)
deriving DecidableEq, Repr

/-- Executes the macro `ASSERT(cond)`. -/
def SphereRun.check (r : SphereRun) (id : AssertId) (cond : Bool) : SphereRun :=
  { r with asserts := r.asserts ++ [(id, cond)] }

/-- Writes the six floats of a vertex at `verts[pos + 0 .. pos + 5]`. -/
def SphereRun.putVertex (r : SphereRun) (pos : Int) (src : VertSource) : SphereRun :=
  { r with vertWrites :=
      r.vertWrites ++ (List.range 6).map (fun (c : Nat) => (pos + (c : Int), src)) }

/-- The statement `indices[off++] = v`, with the conversion of the `int` to `unsigned short`. -/
def SphereRun.pushIndex (r : SphereRun) (v : Int) : SphereRun :=
  { r with indexWrites := r.indexWrites ++ [(r.off, v % 65536)], off := r.off + 1 }

/-- The inner loop of the vertex loop: `for(n = 0; n < kN-2; ++n, off += 6)`. -/
def sphereVertexRings (kN m : Int) (r : SphereRun) : SphereRun :=
  (List.range (kN - 2).toNat).foldl
    (fun acc (n : Nat) =>
      let acc1 := acc.putVertex acc.off (.ring m (n : Int))
      { acc1 with off := acc1.off + 6 })
    r

/-- The body of the vertex loop for column m. -/
def sphereVertexColumn (kN m : Int) (r : SphereRun) : SphereRun :=
  sphereVertexRings kN m (r.check .vertexColumn (decide (r.off < r.numVerts * 6)))

/-- The inner loop of the index loop: `for(n = 0; n < (kN-3); ++n)`, two triangles a turn. -/
def sphereStripQuads (kN col0 col1 : Int) (r : SphereRun) : SphereRun :=
  (List.range (kN - 3).toNat).foldl
    (fun acc (i : Nat) =>
      let n : Int := (i : Int)
      ((((((acc.pushIndex (col0 + n)).pushIndex (col0 + n + 1)).pushIndex (col1 + n)).pushIndex
        (col1 + n)).pushIndex (col0 + n + 1)).pushIndex (col1 + n + 1)))
    r

/-- The body of the index loop for strip m. -/
def sphereIndexStrip (kN kM m : Int) (r : SphereRun) : SphereRun :=
  let r1 := r.check .indexStrip (decide (r.off < r.numFaces * 3))
  let r2 := r1.pushIndex 0
  let col0 : Int := 2 + (m * (kN - 2))
  let col1 : Int := 2 + (((m + 1) % kM) * (kN - 2))
  let r3 := (r2.pushIndex col0).pushIndex col1
  let r4 := sphereStripQuads kN col0 col1 r3
  ((r4.pushIndex (col0 + (kN - 3))).pushIndex 1).pushIndex (col1 + (kN - 3))

/-- The function `render_GenerateSphereGeom(subdivH, subdivV)`, up to the construction of the
`Geom`.  The `int` arithmetic is exact: the subdivisions are taken small enough for the products
to fit. -/
def render_GenerateSphereGeom (subdivH subdivV : Int) : SphereRun :=
  let kN : Int := max subdivV 2
  let kM : Int := max subdivH 4
  let numVerts : Int := 2 + (kN - 2) * kM
  let numFacesInStrip : Int := 2 * kN - 4
  let numFaces : Int := kM * numFacesInStrip
  let r0 : SphereRun :=
    { numVerts := numVerts, numFaces := numFaces, off := 0, asserts := [], vertWrites := [],
      indexWrites := [] }
  let r1 := (r0.putVertex 0 .top).putVertex 6 .bottom
  let r2 := { r1 with off := 2 * 6 }
  let r3 :=
    (List.range kM.toNat).foldl (fun acc (m : Nat) => sphereVertexColumn kN (m : Int) acc) r2
  let r4 := r3.check .vertexEnd (decide (r3.off = numVerts * 6))
  let r5 := { r4 with off := 0 }
  let r6 :=
    (List.range kM.toNat).foldl (fun acc (m : Nat) => sphereIndexStrip kN kM (m : Int) acc) r5
  r6.check .indexEnd (decide (r6.off = numFaces * 3))

/-- Size of the vector `verts`. -/
def SphereRun.vertsSize (r : SphereRun) : Int := 6 * r.numVerts

/-- Size of the vector `indices`. -/
def SphereRun.indicesSize (r : SphereRun) : Int := 3 * r.numFaces

/-- Every `ASSERT` executed held. -/
def SphereRun.assertsHold (r : SphereRun) : Bool :=
  r.asserts.all (fun a => a.2)

/-- Every write to `verts` and to `indices` was inside the vector. -/
def SphereRun.writesInBounds (r : SphereRun) : Bool :=
  r.vertWrites.all (fun w => decide (0 ≤ w.1 ∧ w.1 < r.vertsSize)) &&
    r.indexWrites.all (fun w => decide (0 ≤ w.1 ∧ w.1 < r.indicesSize))

/-! ## Reading call traces -/

/-- The calls the properties below are about: the task system, the GPU task queue, the frame
arena and the frames taken from it, construction and destruction of the world objects, loading
and saving of the tweak variables. -/
def Call.core : Call → Bool
  | .task_Startup _ => true
  | .task_Shutdown => true
  | .gputask_Join => true
  | .gputask_Kick => true
  | .construct _ => true
  | .destroy _ => true
  | .tweaker_LoadVars _ _ => true
  | .tweaker_SaveVars _ _ => true
  | .framemem_Clear => true
  | .frame_New _ => true
  | .update _ => true
  | .draw _ => true
  | .PlanetTessellation_Update _ => true
  | .PlanetTessellation_Render _ => true
  | _ => false

/-- The core calls of one iteration of the frame loop, for the frame it allocates. -/
def frameCore (f : FrameRef) : List Call :=
  [Call.framemem_Clear, Call.frame_New f, Call.update f, Call.PlanetTessellation_Update f,
   Call.gputask_Join, Call.gputask_Kick, Call.draw f, Call.PlanetTessellation_Render f]

/-- The core calls of n successive iterations, the arena having been reset g times before. -/
def coreFrames (g : Nat) : Nat → List Call
  | 0 => []
  | n + 1 => frameCore ⟨g + 1⟩ ++ coreFrames (g + 1) n

/-- The number of iterations the frame loop makes on the given inputs. -/
def framesRun : MainState → List FrameInput → Nat
  | _, [] => 0
  | st, inp :: rest =>
    if (frameIteration st inp).1.done ≠ 0 then 1
    else framesRun (frameIteration st inp).1 rest + 1

/-- Calls of the GPU task queue. -/
def Call.isGpuTask : Call → Bool
  | .gputask_Join => true
  | .gputask_Kick => true
  | _ => false

/-- Calls that reset the frame arena, take a frame from it, or are given a frame. -/
def Call.isFrameCall : Call → Bool
  | .framemem_Clear => true
  | .frame_New _ => true
  | .update _ => true
  | .draw _ => true
  | .PlanetTessellation_Update _ => true
  | .PlanetTessellation_Render _ => true
  | _ => false

/-- The frame a call is given, when it is given one. -/
def Call.frameUsed : Call → Option FrameRef
  | .frame_New f => some f
  | .update f => some f
  | .draw f => some f
  | .PlanetTessellation_Update f => some f
  | .PlanetTessellation_Render f => some f
  | _ => none

/-- Walks a trace with the number of arena resets so far and checks that every frame handed out
or used belongs to the arena as it is at that moment, that is, was not invalidated by a reset
since it was allocated. -/
def arenaCheck : Nat → List Call → Bool
  | _, [] => true
  | g, .framemem_Clear :: rest => arenaCheck (g + 1) rest
  | g, c :: rest =>
    (match c.frameUsed with
      | some f => f.gen == g
      | none => true) && arenaCheck g rest

/-- Calls of the task system's life cycle, the construction of the tessellation, and the
per-frame update. -/
def Call.isTaskOrder : Call → Bool
  | .task_Startup _ => true
  | .task_Shutdown => true
  | .construct .PlanetTessellation => true
  | .update _ => true
  | .PlanetTessellation_Update _ => true
  | _ => false

/-- The update calls of n successive frames. -/
def updateCalls (g : Nat) : Nat → List Call
  | 0 => []
  | n + 1 => [Call.update ⟨g + 1⟩, Call.PlanetTessellation_Update ⟨g + 1⟩] ++ updateCalls (g + 1) n

/-- Calls that end the task system or destroy a world object. -/
def Call.isTeardown : Call → Bool
  | .task_Shutdown => true
  | .destroy _ => true
  | _ => false

/-- Calls that load or save tweak variables. -/
def Call.isTweaker : Call → Bool
  | .tweaker_LoadVars _ _ => true
  | .tweaker_SaveVars _ _ => true
  | _ => false

/-! ## Sample inputs -/

/-- A frame input with the given event, nothing held, the clock at one second. -/
def sampleFrame (e : Option SDLEvent) : FrameInput :=
  { event := e, buttonState := 0, xPos := 0, yPos := 0, heldKeys := [], mods := 0,
    tv_sec := 1, tv_nsec := 0, debugCamera := false, skyEnabled := true }

/-- A tessellation input that asks for splits: error 20 against a threshold of 15. -/
def sampleTessInput : TessInput :=
  { error := fun _ => 20, threshold := 15, maxLevel := 3, retryBound := 2,
    poll := fun _ => .Completed }

/-- A quadtree whose first root face has been split. -/
def sampleTessellation : PlanetTessellation :=
  PlanetTessellation.initial.runFrames [sampleTessInput, sampleTessInput, sampleTessInput]


/-- The inputs of a run of two frames: nothing happens, then the window is closed. -/
def sampleInputs : List FrameInput :=
  [sampleFrame none, sampleFrame (some .QUIT)]

/-- The call trace of the sample run, both the sky and the tessellation keeping their reference
to the planet. -/
def sampleRun : List Call :=
  (main ⟨true, true⟩ sampleInputs).getD []

/-- What stays true of a run while vertices and indices are written: the sizes, that every
assertion so far held, and that every write so far was inside its vector. -/
def SphereRun.clean (NV NF : Int) (r : SphereRun) : Prop :=
  r.numVerts = NV ∧ r.numFaces = NF ∧ (∀ a ∈ r.asserts, a.2 = true) ∧
    (∀ w ∈ r.vertWrites, 0 ≤ w.1 ∧ w.1 < 6 * NV) ∧
    (∀ w ∈ r.indexWrites, 0 ≤ w.1 ∧ w.1 < 3 * NF)

/-- Some assertion executed so far did not hold. -/
def SphereRun.failed (r : SphereRun) : Prop :=
  ∃ a ∈ r.asserts, a.2 = false

/-! ## `ShaderInfo::CompileShaderSources` of `render.cpp` -/

/-- The byte of a line feed. -/
def chNewline : Nat := 10
/-- The byte of a double quote. -/
def chQuote : Nat := 34
/-- The byte of the hash sign. -/
def chHash : Nat := 35

/-- The C function `isspace` in the C locale: space, tab, line feed, vertical tab, form feed and
carriage return. -/
def isspace (b : Nat) : Bool :=
  b == 32 || (decide (9 ≤ b) && decide (b ≤ 13))

/-- The C function `tolower` in the C locale. -/
def tolower (b : Nat) : Nat :=
  if 65 ≤ b ∧ b ≤ 90 then b + 32 else b

/-- The bytes of the word "include". -/
def includeWord : List Nat := [105, 110, 99, 108, 117, 100, 101]

/-- The bytes of a string of plain characters. -/
def bytes (s : String) : List Nat :=
  s.toList.map Char.toNat

/-- The shader files on disk: names and contents, both as bytes.  The first entry of a name
is the file.  Only regular files that can be opened and read are described: directories, and the
limits of the process (every nesting level of the includes keeps its `std::fstream` open while
the included file is compiled), are left out, so the statements about this model are about
collections in which every include names a file of the collection and the nesting is bounded. -/
structure FileSystem where
  files : List (List Nat × List Nat)
deriving DecidableEq, Repr

/-- The contents of a file, `none` when the collection has no file of that name (the open
fails). -/
def FileSystem.read (fs : FileSystem) (name : List Nat) : Option (List Nat) :=
  fs.files.lookup name

/-- A `ShaderInfo::ShaderChunk`, with the arguments of its constructor: the file name, the line
counter, and the range `str .. str + strLen` of the source buffer (as the offset `start` of `str`
in the buffer); `m_source` is the copy of that range. -/
structure ShaderChunk where
  filename : List Nat
  interruptedLine : Nat
  start : Nat
  strLen : Nat
  m_source : List Nat
deriving DecidableEq, Repr

/-- The constructor `ShaderChunk(filename, interruptedLine, str, strLen)` with `str` equal to
`&source[start]`. -/
def ShaderChunk.make (filename : List Nat) (interruptedLine : Nat) (source : List Nat)
    (start strLen : Nat) : ShaderChunk :=
  { filename := filename, interruptedLine := interruptedLine, start := start, strLen := strLen,
    m_source := (source.drop start).take strLen }

/-- The member `m_header` the constructor builds: a line directive naming the file. -/
def ShaderChunk.m_header (c : ShaderChunk) : List Nat :=
  [chNewline] ++ bytes "#line 1 //" ++ c.filename ++ [chNewline]

/-- The member `m_footer` the constructor builds: a line directive with the interrupted line. -/
def ShaderChunk.m_footer (c : ShaderChunk) : List Nat :=
  [chNewline] ++ bytes "#line " ++ bytes (toString c.interruptedLine) ++ [chNewline]

/-- How a call of `CompileShaderSources` ends: it returns with the chunk vector as it then is,
or it reads the source buffer at an index outside the buffer (the chunks appended until then are
kept for the record), or it is still recursing when the allowed nesting depth is used up. -/
inductive CompileOutcome where
  | returned (chunks : List ShaderChunk)
  | outOfBounds (index : Nat) (chunks : List ShaderChunk)
  | unfinished
deriving DecidableEq, Repr

/-- The number of leading bytes that a loop `while(source[cur] && p(source[cur])) ++cur` steps
over. -/
def prefixLen (p : Nat → Bool) : List Nat → Nat
  | [] => 0
  | b :: rest => if b ≠ 0 ∧ p b = true then prefixLen p rest + 1 else 0

/-- The value of `cur` after the loop `while(source[cur] && p(source[cur])) ++cur`. -/
def scanWhile (p : Nat → Bool) (source : List Nat) (cur : Nat) : Nat :=
  cur + prefixLen p (source.drop cur)

/-- The test `strncasecmp("include", &source[pos], 7) == 0`. -/
def matchesInclude (source : List Nat) (pos : Nat) : Bool :=
  ((source.drop pos).take 7).map tolower == includeWord

/-- The statement `if(endpos - startpos > 0) chunks.emplace_back(filename, line,
&source[startpos], endpos - startpos)`, as the list of chunks it appends. -/
def pendingChunk (filename source : List Nat) (startpos endpos line : Nat) : List ShaderChunk :=
  if endpos > startpos then [ShaderChunk.make filename line source startpos (endpos - startpos)]
  else []

/-- What one turn of the `while(source[endpos])` loop does, apart from the recursive call:
* `fault i`: it reads `source[i]` outside the buffer;
* `stop`: `source[endpos]` is NUL, the loop is left;
* `plain e`: no include directive, the loop goes on with `endpos = e`;
* `badInclude emitted`: an include directive without a quoted name on its line, the loop is left
  with `break` after the chunks `emitted` were appended;
* `nested emitted name next`: an include directive; the chunks `emitted` are appended, the file
  `name` is compiled when the name is not empty, and the loop goes on with `startpos` and
  `endpos` equal to `next`. -/
inductive ScanStep where
  | fault (index : Nat)
  | stop
  | plain (endpos : Nat)
  | badInclude (emitted : List ShaderChunk)
  | nested (emitted : List ShaderChunk) (name : Option (List Nat)) (next : Nat)
deriving DecidableEq, Repr

/-- The string `nextFile(&source[filenameStart], cur - filenameStart)`, which is compiled when
`cur - filenameStart > 0`. -/
def includedName (source : List Nat) (filenameStart cur : Nat) : Option (List Nat) :=
  if cur - filenameStart > 0 then some ((source.drop filenameStart).take (cur - filenameStart))
  else none

/-- The branch of the loop body taken when `source[cur]` is a hash sign followed by the word
include. -/
def includeStep (filename source : List Nat) (startpos endpos line cur : Nat) : ScanStep :=
  let cur1 := cur + 8
  let emitted := pendingChunk filename source startpos endpos line
  let cur2 := scanWhile isspace source cur1
  match source[cur2]? with
  | none => .fault cur2
  | some quotechar =>
    if quotechar ≠ chQuote then .badInclude emitted
    else
      let filenameStart := cur2 + 1
      let cur3 := scanWhile (fun b => b != quotechar && b != chNewline) source filenameStart
      match source[cur3]? with
      | none => .fault cur3
      | some c =>
        if c = chNewline then .badInclude emitted
        else .nested emitted (includedName source filenameStart cur3) (cur3 + 1 + 1)

/-- The body of the `while(source[endpos])` loop of `CompileShaderSources`. -/
def scanStep (filename source : List Nat) (startpos endpos line : Nat) : ScanStep :=
  match source[endpos]? with
  | none => .fault endpos
  | some 0 => .stop
  | some _ =>
    let cur := scanWhile (fun b => b != chHash && b != chNewline) source endpos
    match source[cur]? with
    | none => .fault cur
    | some b =>
      if b = chHash then
        if matchesInclude source (cur + 1) then
          includeStep filename source startpos endpos line cur
        else .plain (scanWhile (fun b => b != chNewline) source cur)
      else if b ≠ 0 then .plain (cur + 1)
      else .plain cur

/-- One turn of the loop followed by `next`, which stands for the turns after it. -/
def scanTurn (recur : List Nat → List ShaderChunk → CompileOutcome)
    (next : Nat → Nat → Nat → List ShaderChunk → CompileOutcome)
    (filename source : List Nat) (startpos endpos line : Nat) (chunks : List ShaderChunk) :
    CompileOutcome :=
  match scanStep filename source startpos endpos line with
  | .fault i => .outOfBounds i chunks
  | .stop => .returned (chunks ++ pendingChunk filename source startpos endpos line)
  | .badInclude emitted =>
    .returned (chunks ++ emitted ++ pendingChunk filename source startpos endpos line)
  | .plain e => next startpos e (line + 1) chunks
  | .nested emitted name e =>
    match (match name with
      | some nextFile => recur nextFile (chunks ++ emitted)
      | none => CompileOutcome.returned (chunks ++ emitted)) with
    | .returned chunks1 => next e e (line + 1) chunks1
    | other => other

/-- The loop `while(source[endpos])` of `CompileShaderSources` and the statement after it; `recur`
is the function itself, for the included files.  The first argument bounds the number of turns;
the length of the buffer is enough. -/
def scanLoop (recur : List Nat → List ShaderChunk → CompileOutcome) (filename source : List Nat) :
    Nat → Nat → Nat → Nat → List ShaderChunk → CompileOutcome
  | 0, startpos, endpos, line, chunks =>
    scanTurn recur (fun _ _ _ _ => .unfinished) filename source startpos endpos line chunks
  | fuel + 1, startpos, endpos, line, chunks =>
    scanTurn recur (scanLoop recur filename source fuel) filename source startpos endpos line chunks

/-- The method `ShaderInfo::CompileShaderSources(filename, chunks)` on a given file system.  The
first argument bounds the nesting of includes: the outcome is `unfinished` when a file would have
to be compiled at depth 0. -/
def CompileShaderSources (fs : FileSystem) :
    Nat → List Nat → List ShaderChunk → CompileOutcome
  | 0, filename, chunks =>
    match fs.read filename with
    | none => .returned chunks
    | some _ => .unfinished
  | depth + 1, filename, chunks =>
    match fs.read filename with
    | none => .returned chunks
    | some text =>
      scanLoop (CompileShaderSources fs depth) filename (text ++ [0]) (text.length + 1) 0 0 0
        chunks

/-- What the scan of one file produces, in order: a chunk appended to the vector, or the name
of a file handed to the recursive call. -/
inductive ScanItem where
  | chunk (c : ShaderChunk)
  | file (name : List Nat)
deriving DecidableEq, Repr

/-- How the scan of one file ends, the included files left aside. -/
inductive ScanEnd where
  | finished
  | outOfBounds (index : Nat)
  | unfinished
deriving DecidableEq, Repr

/-- One turn of the loop, as the items it produces, followed by `next`. -/
def itemsTurn (next : Nat → Nat → Nat → List ScanItem × ScanEnd)
    (filename source : List Nat) (startpos endpos line : Nat) : List ScanItem × ScanEnd :=
  match scanStep filename source startpos endpos line with
  | .fault i => ([], .outOfBounds i)
  | .stop => ((pendingChunk filename source startpos endpos line).map .chunk, .finished)
  | .badInclude emitted =>
    ((emitted ++ pendingChunk filename source startpos endpos line).map .chunk, .finished)
  | .plain e => next startpos e (line + 1)
  | .nested emitted name e =>
    let r := next e e (line + 1)
    (emitted.map .chunk ++ (match name with
      | some nextFile => [ScanItem.file nextFile]
      | none => []) ++ r.1, r.2)

/-- The loop of `CompileShaderSources` on one file, as the sequence of chunks and recursive calls
it makes. -/
def scanItems (filename source : List Nat) : Nat → Nat → Nat → Nat → List ScanItem × ScanEnd
  | 0, startpos, endpos, line =>
    itemsTurn (fun _ _ _ => ([], .unfinished)) filename source startpos endpos line
  | fuel + 1, startpos, endpos, line =>
    itemsTurn (scanItems filename source fuel) filename source startpos endpos line

/-- Carries out a sequence of items on the chunk vector: chunks are appended, files are compiled
by `recur`; an included file that does not return ends the run. -/
def runItems (recur : List Nat → List ShaderChunk → CompileOutcome) :
    List ScanItem → ScanEnd → List ShaderChunk → CompileOutcome
  | [], .finished, chunks => .returned chunks
  | [], .outOfBounds i, chunks => .outOfBounds i chunks
  | [], .unfinished, _ => .unfinished
  | .chunk c :: rest, e, chunks => runItems recur rest e (chunks ++ [c])
  | .file name :: rest, e, chunks =>
    match recur name chunks with
    | .returned chunks1 => runItems recur rest e chunks1
    | other => other

/-- Two files, one including the other, and some text around the directive. -/
def sampleShaders : FileSystem :=
  ⟨[(bytes "a", bytes "A\n#include \"b\"\nC\n#define X\nD"), (bytes "b", bytes "B\n")]⟩

/-- A rank for the names of `sampleShaders`: the including file above the included one. -/
def sampleRank (name : List Nat) : Nat :=
  if name = bytes "a" then 1 else 0

/-! ### Include expansion as the specification words it -/

/-- Splits a text into lines, the line feed staying at the end of its line; `acc` is the line
being gathered. -/
def linesAux : List Nat → List Nat → List (List Nat)
  | acc, [] => if acc = [] then [] else [acc]
  | acc, b :: rest =>
    if b = chNewline then (acc ++ [b]) :: linesAux [] rest else linesAux (acc ++ [b]) rest

/-- The lines of a text; their concatenation is the text. -/
def textLines (text : List Nat) : List (List Nat) :=
  linesAux [] text

/-- Reads a line as an include line: the hash sign and the word include (in any letter case) at
the start of the line, white space, a name between double quotes, and the line feed right after
the closing quote.  The result is the name. -/
def includeName (ln : List Nat) : Option (List Nat) :=
  match ln with
  | [] => none
  | b :: rest =>
    if b = chHash ∧ (rest.take 7).map tolower = includeWord then
      match (rest.drop 7).dropWhile isspace with
      | [] => none
      | q :: r2 =>
        if q = chQuote ∧ r2.dropWhile (fun c => c != chQuote) = [chQuote, chNewline] then
          some (r2.takeWhile (fun c => c != chQuote))
        else none
    else none

/-- Whether the hash sign followed by the word include occurs anywhere in a line. -/
def hasInclude : List Nat → Bool
  | [] => false
  | b :: rest =>
    (b == chHash && (rest.take 7).map tolower == includeWord) || hasInclude rest

/-- The expansion of a file: its text with every include line replaced by the expansion of the
file it names.  The first argument bounds the nesting. -/
def expandFile (fs : FileSystem) : Nat → List Nat → List Nat
  | 0, _ => []
  | depth + 1, filename =>
    match fs.read filename with
    | none => []
    | some text =>
      (textLines text).flatMap fun ln =>
        match includeName ln with
        | some name => expandFile fs depth name
        | none => ln

/-- A line as the claim wants it: an include line with a name that is not empty, or a line in
which no include directive occurs. -/
def lineScannable (ln : List Nat) : Bool :=
  match includeName ln with
  | some name => !name.isEmpty
  | none => !hasInclude ln

/-- A line of the file `filename` is in order: it is scannable, and when it is an include line it
names an existing file of lower rank. -/
def lineOk (fs : FileSystem) (rank : List Nat → Nat) (filename ln : List Nat) : Bool :=
  lineScannable ln &&
    match includeName ln with
    | some name => (fs.read name).isSome && decide (rank name < rank filename)
    | none => true

/-- Every file of the collection is a text without NUL byte whose lines are all in order; the
rank going down along the includes makes the include graph acyclic. -/
def FileSystem.wellFormed (fs : FileSystem) (rank : List Nat → Nat) : Bool :=
  fs.files.all fun entry =>
    entry.2.all (fun b => b != 0) && (textLines entry.2).all (lineOk fs rank entry.1)

/-- What a scan item amounts to: some text, or a file to expand. -/
inductive SpecItem where
  | text (t : List Nat)
  | file (name : List Nat)
deriving DecidableEq, Repr

/-- The text of a chunk, the name of an included file. -/
def ScanItem.body : ScanItem → SpecItem
  | .chunk c => .text c.m_source
  | .file name => .file name

/-- The items the specification expects for a text not yet emitted and the lines after it: the
text between include lines in one piece, when there is any, and the included files. -/
def specItems : List Nat → List (List Nat) → List SpecItem
  | pending, [] => if pending = [] then [] else [.text pending]
  | pending, ln :: rest =>
    match includeName ln with
    | some name =>
      (if pending = [] then [] else [SpecItem.text pending]) ++ [SpecItem.file name] ++
        specItems [] rest
    | none => specItems (pending ++ ln) rest

/-- The concatenation of the sources of a chunk list. -/
def chunkSources (chunks : List ShaderChunk) : List Nat :=
  chunks.flatMap fun c => c.m_source

/-- A file whose last line is an include directive with no line feed after the closing quote. -/
def includeAtEnd : FileSystem :=
  ⟨[(bytes "a", bytes "#include \"b\"")]⟩

/-- A file whose quoted file name is cut off by the end of the file. -/
def includeCutOff : FileSystem :=
  ⟨[(bytes "a", bytes "#include \"b")]⟩

/-- The bytes a sequence of items stands for, given the expansion of the included files. -/
def renderItems (expand : List Nat → List Nat) (items : List SpecItem) : List Nat :=
  items.flatMap fun it =>
    match it with
    | .text t => t
    | .file name => expand name

/-- The expansion of one line: the expansion of the named file for an include line, the line
itself otherwise. -/
def expandLine (expand : List Nat → List Nat) (ln : List Nat) : List Nat :=
  match includeName ln with
  | some name => expand name
  | none => ln

/-- Whether the bytes `pat` occur in `text` as they are written. -/
def occursIn (pat : List Nat) : List Nat → Bool
  | [] => pat.isEmpty
  | b :: rest => pat.isPrefixOf (b :: rest) || occursIn pat rest

/-- A file with the directive written in capital letters and without a quoted name. -/
def upperCaseDirective : FileSystem :=
  ⟨[(bytes "a", bytes "x\n#INCLUDE y\nz")]⟩

/-- A file of three bytes, the second of them NUL, without any hash sign. -/
def nulInside : FileSystem :=
  ⟨[(bytes "a", [65, 0, 66])]⟩

/-! ## The sphere mesh read from the run -/

/-- A list of indices taken three at a time, as `GL_TRIANGLES` reads the index buffer. -/
def triples {α : Type} : List α → List (α × α × α)
  | a :: b :: c :: rest => (a, b, c) :: triples rest
  | _ => []

/-- The three directed edges of a triangle, in the order of its corners. -/
def triangleEdges {α : Type} (t : α × α × α) : List (α × α) :=
  [(t.1, t.2.1), (t.2.1, t.2.2), (t.2.2, t.1)]

/-- The values stored in `indices`, in the order of the writes. -/
def SphereRun.indexValues (r : SphereRun) : List Int := r.indexWrites.map Prod.snd

/-- The triangle list handed to the `Geom`: the stored indices three at a time. -/
def SphereRun.triangles (r : SphereRun) : List (Int × Int × Int) := triples r.indexValues

/-- Several statements `indices[off++] = v` in a row. -/
def SphereRun.pushAll (r : SphereRun) (vs : List Int) : SphereRun :=
  vs.foldl SphereRun.pushIndex r

/-- The values the body of the index loop stores for strip m, in order: the top triangle, the two
triangles of every quad, the bottom triangle. -/
def stripValues (kN kM m : Int) : List Int :=
  [0, 2 + (m * (kN - 2)), 2 + (((m + 1) % kM) * (kN - 2))] ++
    (List.range (kN - 3).toNat).flatMap (fun (i : Nat) =>
      [2 + (m * (kN - 2)) + (i : Int), 2 + (m * (kN - 2)) + (i : Int) + 1,
        2 + (((m + 1) % kM) * (kN - 2)) + (i : Int),
        2 + (((m + 1) % kM) * (kN - 2)) + (i : Int), 2 + (m * (kN - 2)) + (i : Int) + 1,
        2 + (((m + 1) % kM) * (kN - 2)) + (i : Int) + 1]) ++
    [2 + (m * (kN - 2)) + (kN - 3), 1, 2 + (((m + 1) % kM) * (kN - 2)) + (kN - 3)]

/-- The six floats of the vertex with index v, as writes to `verts`. -/
def vertexFloats (v : Int) (src : VertSource) : List (Int × VertSource) :=
  (List.range 6).map (fun (c : Nat) => (6 * v + (c : Int), src))

/-- A point of the sphere grid: a pole, or column m on ring n. -/
inductive GridVertex where
  | top
  | bottom
  | ring (m n : Nat)
deriving DecidableEq, Repr

/-- The vertex index of a grid point when a column holds K vertices. -/
def GridVertex.index (K : Nat) : GridVertex → Int
  | .top => 0
  | .bottom => 1
  | .ring m n => 2 + (m : Int) * (K : Int) + (n : Int)

/-- The column after m around the sphere, M columns in all. -/
def succColumn (M m : Nat) : Nat := if m + 1 = M then 0 else m + 1

/-- The column before m around the sphere. -/
def predColumn (M m : Nat) : Nat := if m = 0 then M - 1 else m - 1

/-- The two triangles of quad n of strip m. -/
def quadTriangles (M m n : Nat) : List (GridVertex × GridVertex × GridVertex) :=
  [(.ring m n, .ring m (n + 1), .ring (succColumn M m) n),
    (.ring (succColumn M m) n, .ring m (n + 1), .ring (succColumn M m) (n + 1))]

/-- The triangles of strip m on the grid, in the order of the index loop. -/
def stripTriangles (K M m : Nat) : List (GridVertex × GridVertex × GridVertex) :=
  [(.top, .ring m 0, .ring (succColumn M m) 0)] ++
    (List.range (K - 1)).flatMap (quadTriangles M m) ++
    [(.ring m (K - 1), .bottom, .ring (succColumn M m) (K - 1))]

/-- The triangles of the whole sphere on the grid. -/
def gridTriangles (K M : Nat) : List (GridVertex × GridVertex × GridVertex) :=
  (List.range M).flatMap (stripTriangles K M)

/-- A triangle with its corners mapped. -/
def mapTriangle {α β : Type} (f : α → β) (t : α × α × α) : β × β × β :=
  (f t.1, f t.2.1, f t.2.2)

/-- The corners of a list of triangles, in order. -/
def corners {α : Type} (ts : List (α × α × α)) : List α :=
  ts.flatMap (fun t => [t.1, t.2.1, t.2.2])

/-- A grid point that exists when there are M columns of K vertices. -/
def GridVertex.valid (K M : Nat) : GridVertex → Prop
  | .ring m n => m < M ∧ n < K
  | _ => True

/-- The three corners of a triangle exist on the grid. -/
def validTriangle (K M : Nat) (t : GridVertex × GridVertex × GridVertex) : Prop :=
  t.1.valid K M ∧ t.2.1.valid K M ∧ t.2.2.valid K M

/-- The directed edges of the two triangles of quad n of strip m. -/
def quadEdges (M m n : Nat) : List (GridVertex × GridVertex) :=
  (quadTriangles M m n).flatMap triangleEdges

/-- The directed edges of the triangles of strip m. -/
def stripEdges (K M m : Nat) : List (GridVertex × GridVertex) :=
  (stripTriangles K M m).flatMap triangleEdges

/-- The directed edges of the triangles of the sphere, on the grid. -/
def gridEdges (K M : Nat) : List (GridVertex × GridVertex) :=
  (gridTriangles K M).flatMap triangleEdges

/-- The strip whose triangle has the directed edge from u to v: the column the edge leaves when
it runs down a column or on to the next column, the column before otherwise. -/
def edgeHome (M : Nat) : GridVertex → GridVertex → Nat
  | .top, .ring m _ => m
  | .bottom, .ring m _ => predColumn M m
  | .ring m _, .top => predColumn M m
  | .ring m _, .bottom => m
  | .ring a n, .ring b k =>
    if b = a then (if k = n + 1 then a else predColumn M a)
    else if b = succColumn M a then a else b
  | _, _ => 0

/-- The place inside its strip of the triangle with the directed edge from u to v: 0 for the top
triangle, n + 1 for quad n, K for the bottom triangle. -/
def edgeLevel (K M : Nat) : GridVertex → GridVertex → Nat
  | .top, _ => 0
  | .bottom, _ => K
  | .ring _ _, .top => 0
  | .ring _ _, .bottom => K
  | .ring a n, .ring b k =>
    if n = k then (if b = succColumn M a then n else n + 1) else max n k

/-! ## Theorems: the quadtree -/

theorem tileState_mem_six (s : TileState) :
    s ∈ [TileState.Unloaded, .Requested, .Generating, .Resident, .Splitting, .Merging] := by
  cases s <;> simp

theorem ok_mk_iff (k : TileKey) (s : TileState) (n : Nat) (cs : List TileNode) :
    (TileNode.mk k s n cs).ok ↔ (cs.length = 0 ∨ cs.length = 4) := by
  unfold TileNode.ok
  simp only [TileNode.state, TileNode.children]
  exact ⟨fun h => h.2, fun h => ⟨tileState_mem_six s, h⟩⟩

theorem updateList_length (inp : TessInput) (cs : List TileNode) :
    (updateList inp cs).length = cs.length := by
  induction cs with
  | nil => simp [updateList]
  | cons c cs ih => simp [updateList, ih]

theorem split_nodes_ok (t x : TileNode) (hx : x ∈ t.split.nodes) : x.ok := by
  cases t with
  | mk k s n cs =>
    simp [TileNode.split, TileNode.nodes, nodesList, List.range, List.range.loop] at hx
    rcases hx with h | h | h | h | h <;> subst h <;> simp [ok_mk_iff]

theorem merge_nodes_ok (t x : TileNode) (hx : x ∈ t.merge.nodes) : x.ok := by
  cases t with
  | mk k s n cs =>
    simp [TileNode.merge, TileNode.beginMerge, TileNode.collapse, TileNode.nodes, nodesList] at hx
    subst hx; simp [ok_mk_iff]

mutual
theorem update_nodes_ok (inp : TessInput) :
    ∀ t : TileNode, (∀ x ∈ t.nodes, x.ok) → ∀ x ∈ (t.update inp).nodes, x.ok
  | .mk k s n cs => by
    intro h x hx
    have hself : (TileNode.mk k s n cs).ok := h _ (by simp [TileNode.nodes])
    have hcs : ∀ y ∈ nodesList cs, y.ok := fun y hy => h y (by simp [TileNode.nodes, hy])
    rw [ok_mk_iff] at hself
    unfold TileNode.update at hx
    split at hx
    · exact merge_nodes_ok _ x hx
    · split at hx
      · exact split_nodes_ok _ x hx
      · split at hx
        rename_i k1 s1 n1 c1 heq
        split at hx
        · simp [TileNode.nodes, nodesList] at hx
          subst hx; simp [ok_mk_iff]
        · simp only [TileNode.nodes, List.mem_cons] at hx
          rcases hx with hx | hx
          · subst hx; rw [ok_mk_iff, updateList_length]; exact hself
          · exact updateList_nodes_ok inp cs hcs x hx
theorem updateList_nodes_ok (inp : TessInput) :
    ∀ cs : List TileNode, (∀ x ∈ nodesList cs, x.ok) → ∀ x ∈ nodesList (updateList inp cs), x.ok
  | [] => by intro _ x hx; simp [updateList, nodesList] at hx
  | c :: cs => by
    intro h x hx
    simp only [updateList, nodesList, List.mem_append] at hx
    rcases hx with hx | hx
    · exact update_nodes_ok inp c (fun y hy => h y (by simp [nodesList, hy])) x hx
    · exact updateList_nodes_ok inp cs (fun y hy => h y (by simp [nodesList, hy])) x hx
end

theorem initial_wellFormed : PlanetTessellation.initial.WellFormed := by decide

theorem update_wellFormed (inp : TessInput) (ts : PlanetTessellation) (h : ts.WellFormed) :
    (ts.Update inp).WellFormed :=
  updateList_nodes_ok inp ts.roots h

theorem runFrames_wellFormed (inputs : List TessInput) :
    ∀ ts : PlanetTessellation, ts.WellFormed → (ts.runFrames inputs).WellFormed := by
  induction inputs with
  | nil => intro ts h; exact h
  | cons inp rest ih => intro ts h; exact ih _ (update_wellFormed inp ts h)

/-- C1: every node of the quadtree is in one of the six states and has no child or exactly
four; this holds for the six roots at start-up, one `PlanetTessellation::Update` keeps it, and so
it holds at every observation point between frames, whatever the frames read. -/
theorem tileNode_states_and_children (inp : TessInput) (ts : PlanetTessellation)
    (inputs : List TessInput) (h : ts.WellFormed) :
    (∀ t ∈ (ts.Update inp).allNodes,
        t.state ∈ [TileState.Unloaded, .Requested, .Generating, .Resident, .Splitting,
          .Merging] ∧ (t.children.length = 0 ∨ t.children.length = 4)) ∧
      PlanetTessellation.initial.WellFormed ∧
      (PlanetTessellation.initial.runFrames inputs).WellFormed :=
  ⟨update_wellFormed inp ts h, initial_wellFormed,
    runFrames_wellFormed inputs _ initial_wellFormed⟩

/-- Witness of C1: a quadtree with a split root face, updated once more. -/
theorem tileNode_states_and_children_witness :
    sampleTessellation.WellFormed ∧
      ((∀ t ∈ (sampleTessellation.Update sampleTessInput).allNodes,
          t.state ∈ [TileState.Unloaded, .Requested, .Generating, .Resident, .Splitting,
            .Merging] ∧ (t.children.length = 0 ∨ t.children.length = 4)) ∧
        PlanetTessellation.initial.WellFormed ∧
        (PlanetTessellation.initial.runFrames [sampleTessInput]).WellFormed) :=
  ⟨by decide, tileNode_states_and_children sampleTessInput sampleTessellation [sampleTessInput]
    (by decide)⟩

/-! ## Theorems: the call traces of `main.cpp` -/

theorem onKeyDown_core (st : MainState) (sym mods : Nat) :
    (onKeyDown st sym mods).2.filter Call.core = [] ∧
      (onKeyDown st sym mods).1.arenaGen = st.arenaGen ∧
      (onKeyDown st sym mods).1.world = st.world := by
  unfold onKeyDown
  simp only []
  split_ifs <;> simp [Call.core]

theorem handleEvent_core (st : MainState) (inp : FrameInput) :
    (handleEvent st inp).2.filter Call.core = [] ∧
      (handleEvent st inp).1.arenaGen = st.arenaGen ∧
      (handleEvent st inp).1.world = st.world := by
  unfold handleEvent
  split
  · simp [Call.core]
  · rename_i sym mods _
    have h := onKeyDown_core st sym mods
    simp [Call.core, h.1, h.2.1, h.2.2]
  · simp only []
    split_ifs <;> simp [Call.core]
  · simp [Call.core]
  · simp [Call.core]
  · simp [Call.core]
  · simp [Call.core]

theorem steerCamera_core (st : MainState) (inp : FrameInput) :
    (steerCamera st inp).filter Call.core = [] := by
  unfold steerCamera move_camera
  split_ifs <;> simp [Call.core]

theorem update_core (st : MainState) (inp : FrameInput) (f : FrameRef) :
    (update st inp f).2.filter Call.core =
        [Call.PlanetTessellation_Update f, Call.gputask_Join, Call.gputask_Kick] ∧
      (update st inp f).1.arenaGen = st.arenaGen ∧
      (update st inp f).1.world = st.world := by
  unfold update
  simp only []
  split_ifs <;> simp [Call.core]

theorem draw_core (st : MainState) (inp : FrameInput) (f : FrameRef) :
    (draw st inp f).filter Call.core = [Call.PlanetTessellation_Render f] := by
  unfold draw
  split_ifs <;> simp [Call.core]

theorem keyRepeat_core (st : MainState) (inp : FrameInput) :
    (keyRepeat st inp).2.filter Call.core = [] ∧
      (keyRepeat st inp).1.arenaGen = st.arenaGen ∧
      (keyRepeat st inp).1.world = st.world ∧
      (keyRepeat st inp).1.done = st.done := by
  unfold keyRepeat
  simp only []
  split_ifs <;> simp [Call.core, List.filter_map, List.filter_eq_nil_iff]

theorem frameIteration_core (st : MainState) (inp : FrameInput) :
    (frameIteration st inp).2.filter Call.core = frameCore ⟨st.arenaGen + 1⟩ ∧
      (frameIteration st inp).1.arenaGen = st.arenaGen + 1 ∧
      (frameIteration st inp).1.world = st.world := by
  refine ⟨?_, ?_, ?_⟩
  · simp [frameIteration, List.filter_append, handleEvent_core, steerCamera_core, update_core,
      draw_core, keyRepeat_core, Call.core, frameCore, frame_New, framemem_Clear]
  · simp [frameIteration, handleEvent_core, update_core, keyRepeat_core, framemem_Clear]
  · simp [frameIteration, handleEvent_core, update_core, keyRepeat_core, framemem_Clear]

theorem mainLoop_core (inputs : List FrameInput) :
    ∀ st : MainState,
      (mainLoop st inputs).2.filter Call.core = coreFrames st.arenaGen (framesRun st inputs) ∧
      (mainLoop st inputs).1.world = st.world := by
  induction inputs with
  | nil => intro st; simp [mainLoop, framesRun, coreFrames]
  | cons inp rest ih =>
    intro st
    have hi := frameIteration_core st inp
    unfold mainLoop framesRun
    simp only []
    split_ifs with hdone
    · simp [coreFrames, hi.1, hi.2.2]
    · have hr := ih (frameIteration st inp).1
      simp [coreFrames, List.filter_append, hi.1, hr.1, hr.2, hi.2.1, hi.2.2]

theorem framesRun_pos (st : MainState) (inputs : List FrameInput)
    (h : (mainLoop st inputs).1.done ≠ 0) (h0 : st.done = 0) : 0 < framesRun st inputs := by
  cases inputs with
  | nil => simp [mainLoop] at h; exact absurd h0 h
  | cons inp rest =>
    unfold framesRun
    split_ifs <;> omega

theorem filter_filter_of_imp {α : Type} (p q : α → Bool) (h : ∀ a, p a = true → q a = true)
    (l : List α) : (l.filter q).filter p = l.filter p := by
  rw [List.filter_filter]
  apply List.filter_congr
  intro a _
  cases hp : p a
  · simp
  · simp [h a hp]

theorem mainPrologue_core (ret : Retains) :
    (mainPrologue ret).2.filter Call.core =
      [Call.task_Startup 3, Call.construct .Planet, Call.construct .Sky,
       Call.construct .PlanetTessellation, Call.tweaker_LoadVars "tweaker.txt" .g_tweakVars,
       Call.tweaker_LoadVars ".settings" .g_settingsVars] := by
  simp [mainPrologue, initApp, createWorldObjects, setupWorldTerrain, InitializeShaders, Call.core]

theorem mainPrologue_world (ret : Retains) :
    (mainPrologue ret).1 =
      { m_planet := true, m_sky := true, m_planetTs := true,
        planetRefs := 1 + (if ret.sky then 1 else 0) + (if ret.planetTs then 1 else 0),
        skyRefs := 1, tsRefs := 1, skyHoldsPlanet := ret.sky, tsHoldsPlanet := ret.planetTs } := by
  simp [mainPrologue, initApp, createWorldObjects, setupWorldTerrain, World.empty]

theorem shutdown_core (ret : Retains) (hsky : ret.sky = true) :
    (shutdown (mainPrologue ret).1).2.filter Call.core =
      [Call.task_Shutdown, Call.tweaker_SaveVars "tweaker.txt" .g_tweakVars,
       Call.tweaker_SaveVars ".settings" .g_settingsVars, Call.destroy .PlanetTessellation,
       Call.destroy .Planet, Call.destroy .Sky] := by
  rw [mainPrologue_world]
  cases ret with
  | mk s t =>
    simp only at hsky
    subst hsky
    cases t <;> decide

theorem shutdown_tweaker (ret : Retains) :
    (shutdown (mainPrologue ret).1).2.filter Call.isTweaker =
      [Call.tweaker_SaveVars "tweaker.txt" .g_tweakVars,
       Call.tweaker_SaveVars ".settings" .g_settingsVars] := by
  rw [mainPrologue_world]
  rcases ret with ⟨_ | _, _ | _⟩ <;> rfl

theorem shutdown_taskOrder (ret : Retains) :
    (shutdown (mainPrologue ret).1).2.filter Call.isTaskOrder = [Call.task_Shutdown] := by
  rw [mainPrologue_world]
  rcases ret with ⟨_ | _, _ | _⟩ <;> rfl

theorem main_eq_some (ret : Retains) (inputs : List FrameInput) (tr : List Call)
    (h : main ret inputs = some tr) :
    tr = (mainPrologue ret).2 ++ (mainLoop (MainState.start (mainPrologue ret).1) inputs).2 ++
        (shutdown (mainPrologue ret).1).2 ∧
      0 < framesRun (MainState.start (mainPrologue ret).1) inputs := by
  unfold main at h
  simp only [] at h
  split_ifs at h with hd
  have hw := (mainLoop_core inputs (MainState.start (mainPrologue ret).1)).2
  rw [hw] at h
  refine ⟨?_, framesRun_pos _ _ hd rfl⟩
  simp only [Option.some.injEq] at h
  rw [← h]; rfl

theorem coreFrames_gpuTask (n : Nat) :
    ∀ g : Nat, (coreFrames g n).filter Call.isGpuTask =
      (List.replicate n [Call.gputask_Join, Call.gputask_Kick]).flatten := by
  induction n with
  | zero => intro g; simp [coreFrames]
  | succ n ih =>
    intro g
    simp [coreFrames, List.filter_append, ih (g + 1), List.replicate_succ, frameCore,
      Call.isGpuTask]

theorem coreFrames_taskOrder (n : Nat) :
    ∀ g : Nat, (coreFrames g n).filter Call.isTaskOrder = updateCalls g n := by
  induction n with
  | zero => intro g; simp [coreFrames, updateCalls]
  | succ n ih =>
    intro g
    simp [coreFrames, updateCalls, List.filter_append, ih (g + 1), frameCore, Call.isTaskOrder]

theorem coreFrames_teardown (n : Nat) :
    ∀ g : Nat, (coreFrames g n).filter Call.isTeardown = [] := by
  induction n with
  | zero => intro g; simp [coreFrames]
  | succ n ih =>
    intro g
    simp [coreFrames, List.filter_append, ih (g + 1), frameCore, Call.isTeardown]

theorem coreFrames_tweaker (n : Nat) :
    ∀ g : Nat, (coreFrames g n).filter Call.isTweaker = [] := by
  induction n with
  | zero => intro g; simp [coreFrames]
  | succ n ih =>
    intro g
    simp [coreFrames, List.filter_append, ih (g + 1), frameCore, Call.isTweaker]

theorem isGpuTask_core (c : Call) (h : c.isGpuTask = true) : c.core = true := by
  cases c <;> simp_all [Call.isGpuTask, Call.core]

theorem isFrameCall_core (c : Call) (h : c.isFrameCall = true) : c.core = true := by
  cases c <;> simp_all [Call.isFrameCall, Call.core]

theorem isTaskOrder_core (c : Call) (h : c.isTaskOrder = true) : c.core = true := by
  cases c with
  | construct o => simp [Call.core]
  | _ => simp_all [Call.isTaskOrder, Call.core]

theorem isTeardown_core (c : Call) (h : c.isTeardown = true) : c.core = true := by
  cases c <;> simp_all [Call.isTeardown, Call.core]

theorem isTweaker_core (c : Call) (h : c.isTweaker = true) : c.core = true := by
  cases c <;> simp_all [Call.isTweaker, Call.core]

theorem arenaCheck_filter_core (l : List Call) :
    ∀ g : Nat, arenaCheck g (l.filter Call.core) = arenaCheck g l := by
  induction l with
  | nil => intro g; rfl
  | cons c rest ih =>
    intro g
    cases c <;> simp [List.filter, Call.core, arenaCheck, Call.frameUsed, ih]

theorem arenaCheck_coreFrames (n : Nat) : ∀ g : Nat, arenaCheck g (coreFrames g n) = true := by
  induction n with
  | zero => intro g; rfl
  | succ n ih =>
    intro g
    simp [coreFrames, frameCore, arenaCheck, Call.frameUsed, ih (g + 1)]

/-! ## Theorems: the claims about `main.cpp` -/

/-- C2: every execution of `update` calls `gputask_Join` once and `gputask_Kick` once, Join
first; over the frames the loop runs, the calls of the GPU task queue are Join, Kick, Join,
Kick, ..., one pair per frame. -/
theorem update_join_before_kick (st : MainState) (inp : FrameInput) (f : FrameRef)
    (inputs : List FrameInput) :
    (update st inp f).2.filter Call.isGpuTask = [Call.gputask_Join, Call.gputask_Kick] ∧
      (mainLoop st inputs).2.filter Call.isGpuTask =
        (List.replicate (framesRun st inputs) [Call.gputask_Join, Call.gputask_Kick]).flatten := by
  constructor
  · rw [← filter_filter_of_imp Call.isGpuTask Call.core isGpuTask_core, (update_core st inp f).1]
    rfl
  · rw [← filter_filter_of_imp Call.isGpuTask Call.core isGpuTask_core,
      (mainLoop_core inputs st).1, coreFrames_gpuTask]

/-- C3: in every iteration of the frame loop the arena is reset once, before `frame_New`; the
frame made by that `frame_New` goes to `update` and then to `draw`; and along the whole loop
every frame handed out or used is one allocated since the last reset. -/
theorem frame_arena_reset_once (st : MainState) (inp : FrameInput) (inputs : List FrameInput) :
    (frameIteration st inp).2.filter Call.isFrameCall =
        [Call.framemem_Clear, Call.frame_New ⟨st.arenaGen + 1⟩, Call.update ⟨st.arenaGen + 1⟩,
         Call.PlanetTessellation_Update ⟨st.arenaGen + 1⟩, Call.draw ⟨st.arenaGen + 1⟩,
         Call.PlanetTessellation_Render ⟨st.arenaGen + 1⟩] ∧
      (frameIteration st inp).1.arenaGen = st.arenaGen + 1 ∧
      arenaCheck st.arenaGen (mainLoop st inputs).2 = true := by
  refine ⟨?_, (frameIteration_core st inp).2.1, ?_⟩
  · rw [← filter_filter_of_imp Call.isFrameCall Call.core isFrameCall_core,
      (frameIteration_core st inp).1]
    rfl
  · rw [← arenaCheck_filter_core, (mainLoop_core inputs st).1]
    exact arenaCheck_coreFrames _ _

/-- C4: in a whole run in which the sky keeps the reference to the planet it was built with
(whether or not the tessellation keeps its own), the Planet is destroyed after `task_Shutdown`
has returned and after the PlanetTessellation has been destroyed. -/
theorem planet_outlives_tessellation (ret : Retains) (inputs : List FrameInput) (tr : List Call)
    (hsky : ret.sky = true) (h : main ret inputs = some tr) :
    tr.filter Call.isTeardown =
      [Call.task_Shutdown, Call.destroy .PlanetTessellation, Call.destroy .Planet,
       Call.destroy .Sky] := by
  rw [← filter_filter_of_imp Call.isTeardown Call.core isTeardown_core, (main_eq_some _ _ _ h).1]
  simp only [List.filter_append, mainPrologue_core, shutdown_core ret hsky,
    (mainLoop_core inputs _).1, coreFrames_teardown]
  rfl

/-- C5: in a whole run, `task_Startup` is called once, with 3 workers, before the
PlanetTessellation is built and before the first update; `task_Shutdown` is called once, after
the update of the last frame; there is at least one frame and no update after the shutdown. -/
theorem task_system_started_and_stopped_once (ret : Retains) (inputs : List FrameInput)
    (tr : List Call) (h : main ret inputs = some tr) :
    tr.filter Call.isTaskOrder =
        [Call.task_Startup 3, Call.construct .PlanetTessellation] ++
          updateCalls 0 (framesRun (MainState.start (mainPrologue ret).1) inputs) ++
          [Call.task_Shutdown] ∧
      0 < framesRun (MainState.start (mainPrologue ret).1) inputs := by
  refine ⟨?_, (main_eq_some _ _ _ h).2⟩
  rw [(main_eq_some _ _ _ h).1]
  simp only [List.filter_append, shutdown_taskOrder]
  rw [← filter_filter_of_imp Call.isTaskOrder Call.core isTaskOrder_core (mainPrologue ret).2,
    ← filter_filter_of_imp Call.isTaskOrder Call.core isTaskOrder_core (mainLoop _ _).2,
    mainPrologue_core, (mainLoop_core inputs _).1, coreFrames_taskOrder]
  rfl

/-- C9: the draw error threshold is registered once in `g_tweakVars`, as the float variable
"planet.drawErrorThreshold" bound to `g_tileDrawErrorThreshold` with default 15, and nothing else
is bound to that global; a whole run loads `g_tweakVars` from "tweaker.txt" at start-up and saves
the same list to the same file at exit. -/
theorem threshold_registered_loaded_saved (ret : Retains) (inputs : List FrameInput)
    (tr : List Call) (h : main ret inputs = some tr) :
    g_tweakVars.filter (fun tv => tv.name == "planet.drawErrorThreshold") =
        [⟨.TweakFloat, "planet.drawErrorThreshold", thresholdTarget, some (.float 15), none⟩] ∧
      g_tweakVars.filter (fun tv => tv.target == thresholdTarget) =
        [⟨.TweakFloat, "planet.drawErrorThreshold", thresholdTarget, some (.float 15), none⟩] ∧
      VarList.g_tweakVars.vars = g_tweakVars ∧
      tr.filter Call.isTweaker =
        [Call.tweaker_LoadVars "tweaker.txt" .g_tweakVars,
         Call.tweaker_LoadVars ".settings" .g_settingsVars,
         Call.tweaker_SaveVars "tweaker.txt" .g_tweakVars,
         Call.tweaker_SaveVars ".settings" .g_settingsVars] := by
  refine ⟨by decide, by decide, rfl, ?_⟩
  rw [(main_eq_some _ _ _ h).1]
  simp only [List.filter_append, shutdown_tweaker]
  rw [← filter_filter_of_imp Call.isTweaker Call.core isTweaker_core (mainPrologue ret).2,
    ← filter_filter_of_imp Call.isTweaker Call.core isTweaker_core (mainLoop _ _).2,
    mainPrologue_core, (mainLoop_core inputs _).1, coreFrames_tweaker]
  rfl

theorem sampleRun_complete : main ⟨true, true⟩ sampleInputs = some sampleRun := by
  have h : (main ⟨true, true⟩ sampleInputs).isSome = true := by decide
  unfold sampleRun
  cases hm : main ⟨true, true⟩ sampleInputs with
  | none => rw [hm] at h; exact absurd h (by decide)
  | some tr => rfl

/-- Witness of C4: the sample run. -/
theorem planet_outlives_tessellation_witness :
    (Retains.mk true true).sky = true ∧ main ⟨true, true⟩ sampleInputs = some sampleRun ∧
      sampleRun.filter Call.isTeardown =
        [Call.task_Shutdown, Call.destroy .PlanetTessellation, Call.destroy .Planet,
         Call.destroy .Sky] :=
  ⟨rfl, sampleRun_complete,
    planet_outlives_tessellation ⟨true, true⟩ sampleInputs sampleRun rfl sampleRun_complete⟩

/-- Without any retained reference the order is the other one: `g_world.m_planet.reset()`
comes first and destroys the Planet before the tessellation. -/
theorem planet_first_when_unshared :
    (main ⟨false, false⟩ sampleInputs).map (List.filter Call.isTeardown) =
      some [Call.task_Shutdown, Call.destroy .Planet, Call.destroy .PlanetTessellation,
        Call.destroy .Sky] := by
  decide

/-- Witness of C5: the sample run has two frames. -/
theorem task_system_started_and_stopped_once_witness :
    main ⟨true, true⟩ sampleInputs = some sampleRun ∧
      (sampleRun.filter Call.isTaskOrder =
          [Call.task_Startup 3, Call.construct .PlanetTessellation] ++
            updateCalls 0 (framesRun (MainState.start (mainPrologue ⟨true, true⟩).1)
              sampleInputs) ++
            [Call.task_Shutdown] ∧
        0 < framesRun (MainState.start (mainPrologue ⟨true, true⟩).1) sampleInputs) :=
  ⟨sampleRun_complete,
    task_system_started_and_stopped_once ⟨true, true⟩ sampleInputs sampleRun sampleRun_complete⟩

/-- Witness of C9: the sample run. -/
theorem threshold_registered_loaded_saved_witness :
    main ⟨true, true⟩ sampleInputs = some sampleRun ∧
      (g_tweakVars.filter (fun tv => tv.name == "planet.drawErrorThreshold") =
          [⟨.TweakFloat, "planet.drawErrorThreshold", thresholdTarget, some (.float 15), none⟩] ∧
        g_tweakVars.filter (fun tv => tv.target == thresholdTarget) =
          [⟨.TweakFloat, "planet.drawErrorThreshold", thresholdTarget, some (.float 15), none⟩] ∧
        VarList.g_tweakVars.vars = g_tweakVars ∧
        sampleRun.filter Call.isTweaker =
          [Call.tweaker_LoadVars "tweaker.txt" .g_tweakVars,
           Call.tweaker_LoadVars ".settings" .g_settingsVars,
           Call.tweaker_SaveVars "tweaker.txt" .g_tweakVars,
           Call.tweaker_SaveVars ".settings" .g_settingsVars]) :=
  ⟨sampleRun_complete,
    threshold_registered_loaded_saved ⟨true, true⟩ sampleInputs sampleRun sampleRun_complete⟩

/-! ## Theorems: `Geom::Render` -/

theorem foldl_if_append {α β : Type} (c : α → Bool) (f : α → List β) (l : List α) :
    ∀ init : List β,
      l.foldl (fun calls a => if c a = true then calls ++ f a else calls) init =
        init ++ (l.filter c).flatMap f := by
  induction l with
  | nil => intro init; simp
  | cons a l ih =>
    intro init
    cases h : c a <;> simp [List.foldl, ih, h, List.flatMap_cons]

theorem flatMap_singleton_eq_map {α β : Type} (f : α → β) (l : List α) :
    l.flatMap (fun a => [f a]) = l.map f := by
  induction l with
  | nil => rfl
  | cons a l ih => simp [List.flatMap_cons, ih]

theorem Geom.Bind_eq (g : Geom) (shader : ShaderInfo) :
    g.Bind shader =
      [GLCall.glBindBuffer .GL_ARRAY_BUFFER g.vtxBuffer,
       GLCall.glBindBuffer .GL_ELEMENT_ARRAY_BUFFER g.idxBuffer] ++
      (g.active shader).flatMap (fun pair =>
        [GLCall.glEnableVertexAttribArray (shader.m_attrs pair.m_attr),
         GLCall.glVertexAttribPointer (shader.m_attrs pair.m_attr) pair.m_count .GL_FLOAT false
           g.m_stride pair.m_offset]) := by
  have h := foldl_if_append (fun pair : GeomBindPair => decide (shader.m_attrs pair.m_attr ≥ 0))
    (fun pair => [GLCall.glEnableVertexAttribArray (shader.m_attrs pair.m_attr),
         GLCall.glVertexAttribPointer (shader.m_attrs pair.m_attr) pair.m_count .GL_FLOAT false
           g.m_stride pair.m_offset]) g.m_elements
    [GLCall.glBindBuffer .GL_ARRAY_BUFFER g.vtxBuffer,
       GLCall.glBindBuffer .GL_ELEMENT_ARRAY_BUFFER g.idxBuffer]
  simp only [decide_eq_true_eq] at h
  exact h

theorem Geom.Unbind_eq (g : Geom) (shader : ShaderInfo) :
    g.Unbind shader =
      (g.active shader).map (fun pair =>
        GLCall.glDisableVertexAttribArray (shader.m_attrs pair.m_attr)) := by
  have h := foldl_if_append (fun pair : GeomBindPair => decide (shader.m_attrs pair.m_attr ≥ 0))
    (fun pair => [GLCall.glDisableVertexAttribArray (shader.m_attrs pair.m_attr)]) g.m_elements []
  simp only [decide_eq_true_eq] at h
  unfold Geom.Unbind Geom.active
  rw [h, flatMap_singleton_eq_map]
  rfl

theorem checkGlError_not_program (glError : Nat) (c : GLCall) (h : c ∈ checkGlError glError) :
    c.isProgramOrUniform = false := by
  unfold checkGlError at h
  split_ifs at h
  · simp only [List.mem_cons, List.mem_singleton, List.not_mem_nil, or_false] at h
    rcases h with h | h <;> subst h <;> rfl
  · simp only [List.mem_singleton] at h
    subst h; rfl

/-- C7: `Geom::Render` binds the vertex and the index buffer, enables (and points) the attribute
arrays of exactly the elements the shader has a location for, issues one `glDrawElements` with
the primitive type and index count of the geometry and unsigned short indices, then disables
exactly those attribute arrays; only one call is a draw and no call selects a program or sets a
uniform. -/
theorem geom_render_single_draw (g : Geom) (shader : ShaderInfo) (glError : Nat) :
    g.Render shader glError =
        [GLCall.glBindBuffer .GL_ARRAY_BUFFER g.vtxBuffer,
         GLCall.glBindBuffer .GL_ELEMENT_ARRAY_BUFFER g.idxBuffer] ++
        (g.active shader).flatMap (fun pair =>
          [GLCall.glEnableVertexAttribArray (shader.m_attrs pair.m_attr),
           GLCall.glVertexAttribPointer (shader.m_attrs pair.m_attr) pair.m_count .GL_FLOAT false
             g.m_stride pair.m_offset]) ++
        [GLCall.glDrawElements g.m_glPrimType g.m_numIndices .GL_UNSIGNED_SHORT 0] ++
        (g.active shader).map (fun pair =>
          GLCall.glDisableVertexAttribArray (shader.m_attrs pair.m_attr)) ++
        checkGlError glError ∧
      (g.Render shader glError).countP GLCall.isDraw = 1 ∧
      (∀ c ∈ g.Render shader glError, c.isProgramOrUniform = false) ∧
      (∀ pair ∈ g.active shader, pair ∈ g.m_elements ∧ shader.m_attrs pair.m_attr ≥ 0) := by
  have hr : g.Render shader glError =
        [GLCall.glBindBuffer .GL_ARRAY_BUFFER g.vtxBuffer,
         GLCall.glBindBuffer .GL_ELEMENT_ARRAY_BUFFER g.idxBuffer] ++
        (g.active shader).flatMap (fun pair =>
          [GLCall.glEnableVertexAttribArray (shader.m_attrs pair.m_attr),
           GLCall.glVertexAttribPointer (shader.m_attrs pair.m_attr) pair.m_count .GL_FLOAT false
             g.m_stride pair.m_offset]) ++
        [GLCall.glDrawElements g.m_glPrimType g.m_numIndices .GL_UNSIGNED_SHORT 0] ++
        (g.active shader).map (fun pair =>
          GLCall.glDisableVertexAttribArray (shader.m_attrs pair.m_attr)) ++
        checkGlError glError := by
    unfold Geom.Render
    rw [Geom.Bind_eq, Geom.Unbind_eq]
    rfl
  refine ⟨hr, ?_, ?_, ?_⟩
  · have hA : ((g.active shader).flatMap (fun pair =>
          [GLCall.glEnableVertexAttribArray (shader.m_attrs pair.m_attr),
           GLCall.glVertexAttribPointer (shader.m_attrs pair.m_attr) pair.m_count .GL_FLOAT false
             g.m_stride pair.m_offset])).countP GLCall.isDraw = 0 := by
      rw [List.countP_eq_zero]
      intro c hc
      simp only [List.mem_flatMap, List.mem_cons, List.mem_singleton, List.not_mem_nil,
        or_false] at hc
      obtain ⟨p, _, hp | hp⟩ := hc <;> subst hp <;> simp [GLCall.isDraw]
    have hB : ((g.active shader).map (fun pair =>
          GLCall.glDisableVertexAttribArray (shader.m_attrs pair.m_attr))).countP
            GLCall.isDraw = 0 := by
      rw [List.countP_eq_zero]
      intro c hc
      simp only [List.mem_map] at hc
      obtain ⟨p, _, hp⟩ := hc
      subst hp; simp [GLCall.isDraw]
    rw [hr]
    simp only [List.countP_append, hA, hB]
    unfold checkGlError
    split_ifs <;> simp [GLCall.isDraw, List.countP_cons]
  · intro c hc
    rw [hr] at hc
    simp only [List.mem_append, List.mem_flatMap, List.mem_map, List.mem_cons,
      List.mem_singleton, List.not_mem_nil, or_false] at hc
    rcases hc with ((((h | h) | ⟨p, _, h | h⟩) | h) | ⟨p, _, h⟩) | h
    · subst h; rfl
    · subst h; rfl
    · subst h; rfl
    · subst h; rfl
    · subst h; rfl
    · subst h; rfl
    · exact checkGlError_not_program glError c h
  · intro pair hp
    simpa [Geom.active] using hp

/-! ## Theorems: `render_GenerateSphereGeom` -/

/-- C10 at subdivH = 4, subdivV = 2: kN is 2, so there are 2 vertices and no face.  The
assertion at the start of every vertex column fails (off is 12, the bound is 12), the assertion
at the start of every index strip fails (the bound is 0), the one after the index loop fails
(off is 24, not 0), and the 24 index writes all land outside the empty `indices` vector. -/
theorem sphere_two_rings_breaks_asserts :
    (render_GenerateSphereGeom 4 2).asserts =
        [(.vertexColumn, false), (.vertexColumn, false), (.vertexColumn, false),
         (.vertexColumn, false), (.vertexEnd, true), (.indexStrip, false), (.indexStrip, false),
         (.indexStrip, false), (.indexStrip, false), (.indexEnd, false)] ∧
      (render_GenerateSphereGeom 4 2).vertsSize = 12 ∧
      (render_GenerateSphereGeom 4 2).indicesSize = 0 ∧
      (render_GenerateSphereGeom 4 2).indexWrites.length = 24 ∧
      (render_GenerateSphereGeom 4 2).off = 24 ∧
      (render_GenerateSphereGeom 4 2).assertsHold = false ∧
      (render_GenerateSphereGeom 4 2).writesInBounds = false := by
  decide

/-- With three rings or more the same run is clean, here at subdivH = 4, subdivV = 3. -/
theorem sphere_three_rings_clean :
    (render_GenerateSphereGeom 4 3).assertsHold = true ∧
      (render_GenerateSphereGeom 4 3).writesInBounds = true := by
  decide

theorem foldl_range_invariant {σ : Type} (P : Nat → σ → Prop) (f : σ → Nat → σ) (s0 : σ)
    (n : Nat) (h0 : P 0 s0) (hstep : ∀ i s, i < n → P i s → P (i + 1) (f s i)) :
    P n ((List.range n).foldl f s0) := by
  induction n with
  | zero => simpa using h0
  | succ n ih =>
    rw [List.range_succ, List.foldl_append]
    simp only [List.foldl_cons, List.foldl_nil]
    exact hstep n _ (Nat.lt_succ_self n)
      (ih (fun i s hi hp => hstep i s (Nat.lt_succ_of_lt hi) hp))

theorem clean_check (NV NF : Int) (r : SphereRun) (id : AssertId) (c : Bool)
    (h : r.clean NV NF) (hc : c = true) : (r.check id c).clean NV NF := by
  obtain ⟨h1, h2, h3, h4, h5⟩ := h
  refine ⟨h1, h2, ?_, h4, h5⟩
  intro a ha
  simp only [SphereRun.check, List.mem_append, List.mem_singleton] at ha
  rcases ha with ha | ha
  · exact h3 a ha
  · subst ha; exact hc

theorem clean_putVertex (NV NF : Int) (r : SphereRun) (pos : Int) (src : VertSource)
    (h : r.clean NV NF) (h0 : 0 ≤ pos) (h1 : pos + 6 ≤ 6 * NV) :
    (r.putVertex pos src).clean NV NF := by
  obtain ⟨e1, e2, e3, e4, e5⟩ := h
  refine ⟨e1, e2, e3, ?_, e5⟩
  intro w hw
  simp only [SphereRun.putVertex, List.mem_append, List.mem_map, List.mem_range] at hw
  rcases hw with hw | ⟨c, hc, hw⟩
  · exact e4 w hw
  · subst hw
    simp only
    constructor <;> omega

theorem clean_pushIndex (NV NF : Int) (r : SphereRun) (v : Int)
    (h : r.clean NV NF) (h0 : 0 ≤ r.off) (h1 : r.off < 3 * NF) :
    (r.pushIndex v).clean NV NF := by
  obtain ⟨e1, e2, e3, e4, e5⟩ := h
  refine ⟨e1, e2, e3, e4, ?_⟩
  intro w hw
  simp only [SphereRun.pushIndex, List.mem_append, List.mem_singleton] at hw
  rcases hw with hw | hw
  · exact e5 w hw
  · subst hw; exact ⟨h0, h1⟩

theorem pushIndex_off (r : SphereRun) (v : Int) : (r.pushIndex v).off = r.off + 1 := rfl

theorem check_off (r : SphereRun) (id : AssertId) (c : Bool) : (r.check id c).off = r.off := rfl

theorem sphereVertexRings_clean (NV NF kN m : Int) (K : Nat) (hK : kN - 2 = (K : Int))
    (r : SphereRun) (h : r.clean NV NF) (h0 : 0 ≤ r.off) (h1 : r.off + 6 * K ≤ 6 * NV) :
    (sphereVertexRings kN m r).clean NV NF ∧ (sphereVertexRings kN m r).off = r.off + 6 * K := by
  unfold sphereVertexRings
  have hn : (kN - 2).toNat = K := by omega
  rw [hn]
  have key := foldl_range_invariant
    (fun (i : Nat) (s : SphereRun) => s.clean NV NF ∧ s.off = r.off + 6 * (i : Int))
    (fun acc (n : Nat) =>
      let acc1 := acc.putVertex acc.off (.ring m (n : Int))
      { acc1 with off := acc1.off + 6 }) r K ⟨h, by simp⟩
    (by
      intro i s hi ⟨hs, ho⟩
      have hp := clean_putVertex NV NF s s.off (.ring m (i : Int)) hs (by omega) (by omega)
      refine ⟨?_, ?_⟩
      · exact hp
      · simp only [SphereRun.putVertex]
        push_cast
        omega)
  exact key

theorem sphereVertexColumn_clean (NV NF kN m : Int) (K : Nat) (hK : kN - 2 = (K : Int))
    (r : SphereRun) (h : r.clean NV NF) (h0 : 0 ≤ r.off) (h1 : r.off + 6 * K ≤ 6 * NV)
    (hK1 : 1 ≤ K) :
    (sphereVertexColumn kN m r).clean NV NF ∧
      (sphereVertexColumn kN m r).off = r.off + 6 * K := by
  unfold sphereVertexColumn
  have hc : decide (r.off < r.numVerts * 6) = true := by
    rw [h.1]; simp only [decide_eq_true_eq]; omega
  have := sphereVertexRings_clean NV NF kN m K hK (r.check .vertexColumn _)
    (clean_check NV NF r _ _ h hc) h0 h1
  exact this

theorem sphereStripQuads_clean (NV NF kN col0 col1 : Int) (Q : Nat) (hQ : (kN - 3).toNat = Q)
    (r : SphereRun) (h : r.clean NV NF) (h0 : 0 ≤ r.off) (h1 : r.off + 6 * Q ≤ 3 * NF) :
    (sphereStripQuads kN col0 col1 r).clean NV NF ∧
      (sphereStripQuads kN col0 col1 r).off = r.off + 6 * Q := by
  unfold sphereStripQuads
  rw [hQ]
  exact foldl_range_invariant
    (fun (i : Nat) (s : SphereRun) => s.clean NV NF ∧ s.off = r.off + 6 * (i : Int))
    (fun acc (i : Nat) =>
      let n : Int := (i : Int)
      ((((((acc.pushIndex (col0 + n)).pushIndex (col0 + n + 1)).pushIndex (col1 + n)).pushIndex
        (col1 + n)).pushIndex (col0 + n + 1)).pushIndex (col1 + n + 1))) r Q ⟨h, by simp⟩
    (by
      intro i s hi ⟨hs, ho⟩
      have c1 := clean_pushIndex NV NF s (col0 + i) hs (by omega) (by omega)
      have c2 := clean_pushIndex NV NF _ (col0 + i + 1) c1
        (by simp only [pushIndex_off]; omega) (by simp only [pushIndex_off]; omega)
      have c3 := clean_pushIndex NV NF _ (col1 + i) c2
        (by simp only [pushIndex_off]; omega) (by simp only [pushIndex_off]; omega)
      have c4 := clean_pushIndex NV NF _ (col1 + i) c3
        (by simp only [pushIndex_off]; omega) (by simp only [pushIndex_off]; omega)
      have c5 := clean_pushIndex NV NF _ (col0 + i + 1) c4
        (by simp only [pushIndex_off]; omega) (by simp only [pushIndex_off]; omega)
      have c6 := clean_pushIndex NV NF _ (col1 + i + 1) c5
        (by simp only [pushIndex_off]; omega) (by simp only [pushIndex_off]; omega)
      refine ⟨c6, ?_⟩
      simp only [pushIndex_off]
      push_cast
      omega)

theorem sphereIndexStrip_clean (NV NF kN kM m : Int) (K : Nat) (hK : kN - 2 = (K : Int))
    (hK1 : 1 ≤ K) (r : SphereRun) (h : r.clean NV NF) (h0 : 0 ≤ r.off)
    (h1 : r.off + 6 * K ≤ 3 * NF) :
    (sphereIndexStrip kN kM m r).clean NV NF ∧
      (sphereIndexStrip kN kM m r).off = r.off + 6 * K := by
  unfold sphereIndexStrip
  have hc : decide (r.off < r.numFaces * 3) = true := by
    rw [h.2.1]; simp only [decide_eq_true_eq]; omega
  have a0 := clean_check NV NF r .indexStrip _ h hc
  have a1 := clean_pushIndex NV NF _ 0 a0 (by simp only [check_off]; omega)
    (by simp only [check_off]; omega)
  have a2 := clean_pushIndex NV NF _ (2 + (m * (kN - 2))) a1
    (by simp only [pushIndex_off, check_off]; omega)
    (by simp only [pushIndex_off, check_off]; omega)
  have a3 := clean_pushIndex NV NF _ (2 + (((m + 1) % kM) * (kN - 2))) a2
    (by simp only [pushIndex_off, check_off]; omega)
    (by simp only [pushIndex_off, check_off]; omega)
  have hQ : (kN - 3).toNat = K - 1 := by omega
  have q := sphereStripQuads_clean NV NF kN (2 + (m * (kN - 2)))
    (2 + (((m + 1) % kM) * (kN - 2))) (K - 1) hQ _ a3
    (by simp only [pushIndex_off, check_off]; omega)
    (by simp only [pushIndex_off, check_off]; omega)
  have b1 := clean_pushIndex NV NF _ (2 + (m * (kN - 2)) + (kN - 3)) q.1
    (by rw [q.2]; simp only [pushIndex_off, check_off]; omega)
    (by rw [q.2]; simp only [pushIndex_off, check_off]; omega)
  have b2 := clean_pushIndex NV NF _ 1 b1
    (by simp only [pushIndex_off]; rw [q.2]; simp only [pushIndex_off, check_off]; omega)
    (by simp only [pushIndex_off]; rw [q.2]; simp only [pushIndex_off, check_off]; omega)
  have b3 := clean_pushIndex NV NF _ (2 + (((m + 1) % kM) * (kN - 2)) + (kN - 3)) b2
    (by simp only [pushIndex_off]; rw [q.2]; simp only [pushIndex_off, check_off]; omega)
    (by simp only [pushIndex_off]; rw [q.2]; simp only [pushIndex_off, check_off]; omega)
  refine ⟨b3, ?_⟩
  simp only [pushIndex_off]
  rw [q.2]
  simp only [pushIndex_off, check_off]
  omega

theorem clean_setOff (NV NF : Int) (r : SphereRun) (o : Int) (h : r.clean NV NF) :
    SphereRun.clean NV NF { r with off := o } := h

/-- From three rings on, every `ASSERT` of `render_GenerateSphereGeom` holds and every write to
`verts` and `indices` is inside the vector (the `int` arithmetic being exact). -/
theorem sphere_clean_from_three_rings (subdivH subdivV : Int) (h : 3 ≤ subdivV) :
    (render_GenerateSphereGeom subdivH subdivV).assertsHold = true ∧
      (render_GenerateSphereGeom subdivH subdivV).writesInBounds = true := by
  obtain ⟨K, hK⟩ : ∃ K : Nat, max subdivV 2 - 2 = (K : Int) :=
    ⟨(max subdivV 2 - 2).toNat, by omega⟩
  obtain ⟨M, hM⟩ : ∃ M : Nat, max subdivH 4 = (M : Int) := ⟨(max subdivH 4).toNat, by omega⟩
  have hK1 : 1 ≤ K := by omega
  have hMn : (max subdivH 4).toNat = M := by omega
  have hfinal : ((render_GenerateSphereGeom subdivH subdivV).clean (2 + (K : Int) * M)
      ((M : Int) * (2 * (max subdivV 2) - 4))) := by
    unfold render_GenerateSphereGeom
    simp only [hMn]
    rw [hK, hM]
    have hNF : (M : Int) * (2 * (max subdivV 2) - 4) = 2 * ((K : Int) * M) := by
      have : (2 * (max subdivV 2) - 4 : Int) = 2 * K := by omega
      rw [this]; ring
    have hpos : (0 : Int) ≤ (K : Int) * M := by positivity
    have c0 : SphereRun.clean (2 + (K : Int) * M) ((M : Int) * (2 * (max subdivV 2) - 4))
        { numVerts := 2 + (K : Int) * M, numFaces := (M : Int) * (2 * (max subdivV 2) - 4),
          off := 0, asserts := [], vertWrites := [], indexWrites := [] } :=
      ⟨rfl, rfl, by simp, by simp, by simp⟩
    have c1 := clean_putVertex _ _ _ 0 .top c0 (by omega) (by omega)
    have c2 := clean_putVertex _ _ _ 6 .bottom c1 (by omega) (by omega)
    have c3 := clean_setOff _ _ _ (2 * 6) c2
    have v := foldl_range_invariant
      (fun (i : Nat) (s : SphereRun) =>
        s.clean (2 + (K : Int) * M) ((M : Int) * (2 * (max subdivV 2) - 4)) ∧
          s.off = 12 + 6 * ((K : Int) * i))
      (fun acc (m : Nat) => sphereVertexColumn (max subdivV 2) (m : Int) acc) _ M
      ⟨c3, by simp⟩
      (by
        intro i s hi ⟨hs, ho⟩
        have hle : (K : Int) * (i + 1) ≤ (K : Int) * M := by
          have : ((i : Int) + 1) ≤ (M : Int) := by omega
          exact mul_le_mul_of_nonneg_left this (by positivity)
        have hi0 : (0 : Int) ≤ (K : Int) * i := by positivity
        have r := sphereVertexColumn_clean _ _ (max subdivV 2) (i : Int) K hK s hs
          (by omega) (by rw [ho]; linarith) hK1
        refine ⟨r.1, ?_⟩
        rw [r.2, ho]; push_cast; ring)
    have c4 := clean_check _ _ _ .vertexEnd
      (decide (((List.range M).foldl
        (fun acc (m : Nat) => sphereVertexColumn (max subdivV 2) (m : Int) acc) _).off =
          (2 + (K : Int) * M) * 6)) v.1
      (by simp only [decide_eq_true_eq]; rw [v.2]; ring)
    have c5 := clean_setOff _ _ _ 0 c4
    have w := foldl_range_invariant
      (fun (i : Nat) (s : SphereRun) =>
        s.clean (2 + (K : Int) * M) ((M : Int) * (2 * (max subdivV 2) - 4)) ∧
          s.off = 6 * ((K : Int) * i))
      (fun acc (m : Nat) => sphereIndexStrip (max subdivV 2) (M : Int) (m : Int) acc) _ M
      ⟨c5, by simp⟩
      (by
        intro i s hi ⟨hs, ho⟩
        have hle : (K : Int) * (i + 1) ≤ (K : Int) * M := by
          have : ((i : Int) + 1) ≤ (M : Int) := by omega
          exact mul_le_mul_of_nonneg_left this (by positivity)
        have hi0 : (0 : Int) ≤ (K : Int) * i := by positivity
        have r := sphereIndexStrip_clean _ _ (max subdivV 2) (M : Int) (i : Int) K hK hK1 s hs
          (by omega) (by rw [ho, hNF]; linarith)
        refine ⟨r.1, ?_⟩
        rw [r.2, ho]; push_cast; ring)
    exact clean_check _ _ _ .indexEnd _ w.1
      (by simp only [decide_eq_true_eq]; rw [w.2, hNF]; ring)
  obtain ⟨e1, e2, e3, e4, e5⟩ := hfinal
  constructor
  · simp only [SphereRun.assertsHold, List.all_eq_true]
    exact e3
  · simp only [SphereRun.writesInBounds, Bool.and_eq_true, List.all_eq_true, decide_eq_true_eq,
      SphereRun.vertsSize, SphereRun.indicesSize, e1, e2]
    exact ⟨e4, e5⟩

/-- The run at subdivH = 5, subdivV = 5 is an instance. -/
theorem sphere_clean_from_three_rings_witness :
    (3 : Int) ≤ 5 ∧ ((render_GenerateSphereGeom 5 5).assertsHold = true ∧
      (render_GenerateSphereGeom 5 5).writesInBounds = true) :=
  ⟨by decide, sphere_clean_from_three_rings 5 5 (by decide)⟩

theorem failed_check (r : SphereRun) (id : AssertId) (c : Bool) (h : r.failed) :
    (r.check id c).failed := by
  obtain ⟨a, ha, hf⟩ := h
  exact ⟨a, by simp [SphereRun.check, ha], hf⟩

theorem failed_sphereVertexRings (kN m : Int) (r : SphereRun) (h : r.failed) :
    (sphereVertexRings kN m r).failed := by
  unfold sphereVertexRings
  exact foldl_range_invariant (fun (_ : Nat) (s : SphereRun) => s.failed)
    (fun acc (n : Nat) =>
      let acc1 := acc.putVertex acc.off (.ring m (n : Int))
      { acc1 with off := acc1.off + 6 }) r _ h (fun _ _ _ hs => hs)

theorem failed_sphereStripQuads (kN col0 col1 : Int) (r : SphereRun) (h : r.failed) :
    (sphereStripQuads kN col0 col1 r).failed := by
  unfold sphereStripQuads
  exact foldl_range_invariant (fun (_ : Nat) (s : SphereRun) => s.failed)
    (fun acc (i : Nat) =>
      let n : Int := (i : Int)
      ((((((acc.pushIndex (col0 + n)).pushIndex (col0 + n + 1)).pushIndex (col1 + n)).pushIndex
        (col1 + n)).pushIndex (col0 + n + 1)).pushIndex (col1 + n + 1))) r _ h
    (fun _ _ _ hs => hs)

theorem failed_sphereIndexStrip (kN kM m : Int) (r : SphereRun) (h : r.failed) :
    (sphereIndexStrip kN kM m r).failed := by
  unfold sphereIndexStrip
  exact failed_sphereStripQuads _ _ _ _ (failed_check r .indexStrip _ h)

/-- With two rings or fewer (kN = 2) some `ASSERT` of `render_GenerateSphereGeom` fails,
whatever subdivH is: the one at the start of the first vertex column, where off and the bound
are both 12. -/
theorem sphere_assert_fails_below_three_rings (subdivH subdivV : Int) (h : subdivV ≤ 2) :
    (render_GenerateSphereGeom subdivH subdivV).assertsHold = false := by
  obtain ⟨M, hM⟩ : ∃ M : Nat, (max subdivH 4).toNat = M + 1 :=
    ⟨(max subdivH 4).toNat - 1, by omega⟩
  have hkN : max subdivV 2 = 2 := by omega
  have hfinal : (render_GenerateSphereGeom subdivH subdivV).failed := by
    unfold render_GenerateSphereGeom
    simp only [hM, hkN]
    apply failed_check
    refine foldl_range_invariant (fun (_ : Nat) (s : SphereRun) => s.failed)
      (fun acc (m : Nat) => sphereIndexStrip 2 (max subdivH 4) (m : Int) acc) _ _ ?_
      (fun i s _ hs => failed_sphereIndexStrip 2 (max subdivH 4) (i : Int) s hs)
    show SphereRun.failed { SphereRun.check _ _ _ with off := 0 }
    apply failed_check
    refine foldl_range_invariant
      (fun (i : Nat) (s : SphereRun) =>
        (i = 0 ∧ s.off = 12 ∧ s.numVerts = 2) ∨ s.failed)
      (fun acc (m : Nat) => sphereVertexColumn 2 (m : Int) acc) _ (M + 1)
      (Or.inl ⟨rfl, by simp [SphereRun.putVertex], by simp [SphereRun.putVertex]⟩)
      (fun i s _ hs => ?_) |>.resolve_left (by simp)
    right
    rcases hs with ⟨_, ho, hn⟩ | hs
    · unfold sphereVertexColumn
      apply failed_sphereVertexRings
      exact ⟨(.vertexColumn, decide (s.off < s.numVerts * 6)),
        by simp [SphereRun.check], by simp [ho, hn]⟩
    · unfold sphereVertexColumn
      exact failed_sphereVertexRings _ _ _ (failed_check _ _ _ hs)
  obtain ⟨a, ha, hf⟩ := hfinal
  rw [Bool.eq_false_iff]
  intro hall
  simp only [SphereRun.assertsHold, List.all_eq_true] at hall
  rw [hall a ha] at hf
  exact absurd hf (by decide)

/-- The run at subdivH = 7, subdivV = 1 is an instance. -/
theorem sphere_assert_fails_below_three_rings_witness :
    (1 : Int) ≤ 2 ∧ (render_GenerateSphereGeom 7 1).assertsHold = false :=
  ⟨by decide, sphere_assert_fails_below_three_rings 7 1 (by decide)⟩

/-! ## Theorems: `ShaderInfo::CompileShaderSources` -/

theorem runItems_append_chunks (recur : List Nat → List ShaderChunk → CompileOutcome)
    (cs : List ShaderChunk) (rest : List ScanItem) (e : ScanEnd) (chunks : List ShaderChunk) :
    runItems recur (cs.map ScanItem.chunk ++ rest) e chunks =
      runItems recur rest e (chunks ++ cs) := by
  induction cs generalizing chunks with
  | nil => simp
  | cons c cs ih => simp [runItems, ih]

theorem runItems_chunks (recur : List Nat → List ShaderChunk → CompileOutcome)
    (cs : List ShaderChunk) (e : ScanEnd) (chunks : List ShaderChunk) :
    runItems recur (cs.map ScanItem.chunk) e chunks = runItems recur [] e (chunks ++ cs) := by
  have h := runItems_append_chunks recur cs [] e chunks
  simpa using h

theorem scanTurn_eq_runItems (recur : List Nat → List ShaderChunk → CompileOutcome)
    (next : Nat → Nat → Nat → List ShaderChunk → CompileOutcome)
    (nextItems : Nat → Nat → Nat → List ScanItem × ScanEnd)
    (hnext : ∀ s e l cs, next s e l cs = runItems recur (nextItems s e l).1 (nextItems s e l).2 cs)
    (filename source : List Nat) (s e l : Nat) (cs : List ShaderChunk) :
    scanTurn recur next filename source s e l cs =
      runItems recur (itemsTurn nextItems filename source s e l).1
        (itemsTurn nextItems filename source s e l).2 cs := by
  unfold scanTurn itemsTurn
  cases scanStep filename source s e l with
  | fault i => rfl
  | stop => simp only []; rw [runItems_chunks]; rfl
  | plain e1 => exact hnext _ _ _ _
  | badInclude em =>
    simp only []
    rw [runItems_chunks, List.append_assoc]; rfl
  | nested em name e1 =>
    cases name with
    | none =>
      simp only [List.append_nil]
      rw [runItems_append_chunks]
      exact hnext _ _ _ _
    | some n =>
      simp only [List.append_assoc]
      rw [runItems_append_chunks]
      simp only [List.singleton_append, runItems]
      cases recur n (cs ++ em) with
      | returned c1 => exact hnext _ _ _ _
      | outOfBounds i c1 => rfl
      | unfinished => rfl

theorem scanLoop_eq_runItems (recur : List Nat → List ShaderChunk → CompileOutcome)
    (filename source : List Nat) (fuel : Nat) :
    ∀ startpos endpos line chunks,
      scanLoop recur filename source fuel startpos endpos line chunks =
        runItems recur (scanItems filename source fuel startpos endpos line).1
          (scanItems filename source fuel startpos endpos line).2 chunks := by
  induction fuel with
  | zero =>
    intro s e l cs
    exact scanTurn_eq_runItems recur (fun _ _ _ _ => .unfinished)
      (fun _ _ _ => ([], .unfinished)) (fun _ _ _ _ => rfl) filename source s e l cs
  | succ fuel ih =>
    intro s e l cs
    exact scanTurn_eq_runItems recur (scanLoop recur filename source fuel)
      (scanItems filename source fuel) ih filename source s e l cs

theorem drop_eq_cons_of_getElem? {l : List Nat} {i b : Nat} (h : l[i]? = some b) :
    l.drop i = b :: l.drop (i + 1) := by
  have hi : i < l.length := by
    by_contra hn
    rw [List.getElem?_eq_none (by omega)] at h
    exact absurd h (by simp)
  rw [List.getElem?_eq_getElem hi] at h
  simp only [Option.some.injEq] at h
  rw [← h]
  exact List.drop_eq_getElem_cons hi

theorem scanWhile_ge (p : Nat → Bool) (source : List Nat) (cur : Nat) :
    cur ≤ scanWhile p source cur := by
  unfold scanWhile; omega

theorem scanWhile_gt (p : Nat → Bool) (source : List Nat) (cur b : Nat)
    (h : source[cur]? = some b) (hb : b ≠ 0) (hp : p b = true) :
    cur < scanWhile p source cur := by
  unfold scanWhile
  rw [drop_eq_cons_of_getElem? h]
  simp [prefixLen, hb, hp]

theorem includeStep_progress (filename source : List Nat) (s e l cur : Nat) :
    (∀ e1, includeStep filename source s e l cur ≠ .plain e1) ∧
      (∀ em name e1, includeStep filename source s e l cur = .nested em name e1 →
        cur + 10 ≤ e1) := by
  unfold includeStep
  simp only []
  have hg2 := scanWhile_ge isspace source (cur + 8)
  split
  · exact ⟨fun _ h => by simp at h, fun _ _ _ h => by simp at h⟩
  · rename_i q hq
    have hg3 := scanWhile_ge (fun b => b != q && b != chNewline) source
      (scanWhile isspace source (cur + 8) + 1)
    by_cases h4 : q ≠ chQuote
    · rw [if_pos h4]
      exact ⟨fun _ h => by simp at h, fun _ _ _ h => by simp at h⟩
    · rw [if_neg h4]
      split
      · exact ⟨fun _ h => by simp at h, fun _ _ _ h => by simp at h⟩
      · rename_i c hc
        by_cases h5 : c = chNewline
        · rw [if_pos h5]
          exact ⟨fun _ h => by simp at h, fun _ _ _ h => by simp at h⟩
        · rw [if_neg h5]
          refine ⟨fun _ h => by simp at h, fun em name e1 h => ?_⟩
          simp only [ScanStep.nested.injEq] at h
          omega

theorem scanStep_progress (filename source : List Nat) (s e l : Nat) :
    (∀ e1, scanStep filename source s e l = .plain e1 → e < e1) ∧
      (∀ em name e1, scanStep filename source s e l = .nested em name e1 → e < e1) := by
  unfold scanStep
  split
  · exact ⟨fun _ h => by simp at h, fun _ _ _ h => by simp at h⟩
  · exact ⟨fun _ h => by simp at h, fun _ _ _ h => by simp at h⟩
  · rename_i x hx0 hx
    have hge := scanWhile_ge (fun b => b != chHash && b != chNewline) source e
    simp only []
    split
    · exact ⟨fun _ h => by simp at h, fun _ _ _ h => by simp at h⟩
    · rename_i b hb
      by_cases h1 : b = chHash
      · rw [if_pos h1]
        by_cases h2 : matchesInclude source
            (scanWhile (fun b => b != chHash && b != chNewline) source e + 1) = true
        · rw [if_pos h2]
          have hi := includeStep_progress filename source s e l
            (scanWhile (fun b => b != chHash && b != chNewline) source e)
          exact ⟨fun e1 h => absurd h (hi.1 e1), fun em name e1 h => by
            have := hi.2 em name e1 h; omega⟩
        · rw [if_neg h2]
          refine ⟨fun e1 h => ?_, fun _ _ _ h => by simp at h⟩
          simp only [ScanStep.plain.injEq] at h
          have := scanWhile_gt (fun b => b != chNewline) source _ b hb
            (by rw [h1]; decide) (by rw [h1]; decide)
          omega
      · rw [if_neg h1]
        by_cases h3 : b ≠ 0
        · rw [if_pos h3]
          refine ⟨fun e1 h => ?_, fun _ _ _ h => by simp at h⟩
          simp only [ScanStep.plain.injEq] at h
          omega
        · rw [if_neg h3]
          refine ⟨fun e1 h => ?_, fun _ _ _ h => by simp at h⟩
          simp only [ScanStep.plain.injEq] at h
          have hb0 : b = 0 := by simpa using h3
          rcases Nat.lt_or_ge e (scanWhile (fun b => b != chHash && b != chNewline) source e)
            with hlt | hle
          · omega
          · have heq : scanWhile (fun b => b != chHash && b != chNewline) source e = e := by
              omega
            rw [heq, hx] at hb
            simp only [Option.some.injEq] at hb
            exact absurd (hb.trans hb0) (fun h0 => hx0 h0)

theorem scanItems_ends (filename source : List Nat) (fuel : Nat) :
    ∀ s e l, source.length ≤ fuel + e →
      (scanItems filename source fuel s e l).2 ≠ .unfinished := by
  induction fuel with
  | zero =>
    intro s e l hlen
    have hnone : source[e]? = none := List.getElem?_eq_none (by omega)
    simp [scanItems, itemsTurn, scanStep, hnone]
  | succ fuel ih =>
    intro s e l hlen
    have hp := scanStep_progress filename source s e l
    simp only [scanItems, itemsTurn]
    cases hstep : scanStep filename source s e l with
    | fault i => simp
    | stop => simp
    | badInclude em => simp
    | plain e1 =>
      have := hp.1 e1 hstep
      exact ih s e1 (l + 1) (by omega)
    | nested em name e1 =>
      have := hp.2 em name e1 hstep
      exact ih e1 e1 (l + 1) (by omega)

theorem lookup_mem {α β : Type} [BEq α] [LawfulBEq α] (a : α) (b : β) (l : List (α × β))
    (h : l.lookup a = some b) : (a, b) ∈ l := by
  induction l with
  | nil => simp at h
  | cons p l ih =>
    obtain ⟨a1, b1⟩ := p
    rw [List.lookup_cons] at h
    by_cases hab : (a == a1) = true
    · rw [hab] at h
      simp only [Option.some.injEq] at h
      have : a = a1 := by simpa using hab
      subst this; subst h
      exact List.mem_cons_self _ _
    · have hf : (a == a1) = false := by simpa using hab
      rw [hf] at h
      exact List.mem_cons_of_mem _ (ih h)

theorem prefixLen_append_stop (p : Nat → Bool) (p0 : List Nat) (c : Nat) (t : List Nat)
    (h0 : ∀ b ∈ p0, b ≠ 0 ∧ p b = true) (hc : ¬ (c ≠ 0 ∧ p c = true)) :
    prefixLen p (p0 ++ c :: t) = p0.length := by
  induction p0 with
  | nil => simp [prefixLen, hc]
  | cons b p0 ih =>
    have hb := h0 b (List.mem_cons_self _ _)
    show prefixLen p (b :: (p0 ++ c :: t)) = (b :: p0).length
    rw [prefixLen, if_pos hb, ih (fun x hx => h0 x (List.mem_cons_of_mem _ hx))]
    rfl

theorem getElem?_of_drop_eq {l : List Nat} {i c : Nat} {t : List Nat} (h : l.drop i = c :: t) :
    l[i]? = some c := by
  have := List.getElem?_drop l i 0
  rw [h] at this
  simpa using this.symm

theorem drop_add_of_drop_eq {l : List Nat} {i : Nat} (a b : List Nat) (h : l.drop i = a ++ b) :
    l.drop (i + a.length) = b := by
  rw [← List.drop_drop, h, List.drop_left]

theorem scanWhile_of_drop (p : Nat → Bool) (source : List Nat) (cur : Nat) (p0 : List Nat)
    (c : Nat) (t : List Nat) (hdrop : source.drop cur = p0 ++ c :: t)
    (h0 : ∀ b ∈ p0, b ≠ 0 ∧ p b = true) (hc : ¬ (c ≠ 0 ∧ p c = true)) :
    scanWhile p source cur = cur + p0.length ∧ source[cur + p0.length]? = some c ∧
      source.drop (cur + p0.length) = c :: t := by
  have hd := drop_add_of_drop_eq p0 (c :: t) hdrop
  refine ⟨?_, getElem?_of_drop_eq hd, hd⟩
  unfold scanWhile
  rw [hdrop, prefixLen_append_stop p p0 c t h0 hc]

theorem linesAux_no_newline (p : List Nat) (hp : ∀ b ∈ p, b ≠ chNewline) :
    ∀ acc, linesAux acc p = if acc ++ p = [] then [] else [acc ++ p] := by
  induction p with
  | nil => intro acc; simp [linesAux]
  | cons b p ih =>
    intro acc
    have hb := hp b (List.mem_cons_self _ _)
    simp only [linesAux, hb, if_false]
    rw [ih (fun x hx => hp x (List.mem_cons_of_mem _ hx))]
    simp

theorem linesAux_newline (p rest : List Nat) (hp : ∀ b ∈ p, b ≠ chNewline) :
    ∀ acc, linesAux acc (p ++ chNewline :: rest) =
      (acc ++ p ++ [chNewline]) :: linesAux [] rest := by
  induction p with
  | nil => intro acc; simp [linesAux]
  | cons b p ih =>
    intro acc
    have hb := hp b (List.mem_cons_self _ _)
    show linesAux acc (b :: (p ++ chNewline :: rest)) = _
    rw [linesAux, if_neg hb, ih (fun x hx => hp x (List.mem_cons_of_mem _ hx))]
    simp

theorem textLines_nil : textLines [] = [] := rfl

theorem textLines_no_newline (p : List Nat) (hp : ∀ b ∈ p, b ≠ chNewline) (hne : p ≠ []) :
    textLines p = [p] := by
  unfold textLines
  rw [linesAux_no_newline p hp]
  simp [hne]

theorem textLines_newline (p rest : List Nat) (hp : ∀ b ∈ p, b ≠ chNewline) :
    textLines (p ++ chNewline :: rest) = (p ++ [chNewline]) :: textLines rest := by
  unfold textLines
  rw [linesAux_newline p rest hp]
  simp

theorem includeName_of_not_hash (ln : List Nat) (h : ln.head? ≠ some chHash) :
    includeName ln = none := by
  cases ln with
  | nil => rfl
  | cons b rest =>
    have hb : b ≠ chHash := by simpa using h
    simp [includeName, hb]

/-- What the first scan of a turn finds: the bytes up to the first hash sign, line feed or the
end of the text. -/
theorem first_scan (source rest : List Nat) (e : Nat) (hdrop : source.drop e = rest ++ [0])
    (hnn : ∀ b ∈ rest, b ≠ 0) :
    ∃ p0 t0, rest = p0 ++ t0 ∧ (∀ b ∈ p0, b ≠ chHash ∧ b ≠ chNewline) ∧
      (t0 = [] ∨ ∃ c t, t0 = c :: t ∧ (c = chHash ∨ c = chNewline)) ∧
      scanWhile (fun b => b != chHash && b != chNewline) source e = e + p0.length ∧
      source.drop (e + p0.length) = t0 ++ [0] := by
  refine ⟨rest.takeWhile (fun b => b != chHash && b != chNewline),
    rest.dropWhile (fun b => b != chHash && b != chNewline),
    (List.takeWhile_append_dropWhile _ _).symm, ?_, ?_, ?_⟩
  · intro b hb
    have := List.mem_takeWhile_imp (p := fun b => b != chHash && b != chNewline) hb
    simpa using this
  · cases hd : rest.dropWhile (fun b => b != chHash && b != chNewline) with
    | nil => exact Or.inl rfl
    | cons c t =>
      right
      refine ⟨c, t, rfl, ?_⟩
      have := List.head_dropWhile_not (fun b => b != chHash && b != chNewline) rest
        (by rw [hd]; simp)
      simp only [hd, List.head_cons] at this
      by_cases hc : c = chHash
      · exact Or.inl hc
      · right
        simpa [hc] using this
  · set p0 := rest.takeWhile (fun b => b != chHash && b != chNewline) with hp0
    set t0 := rest.dropWhile (fun b => b != chHash && b != chNewline) with ht0
    have hsplit : rest = p0 ++ t0 := (List.takeWhile_append_dropWhile _ _).symm
    have hp : ∀ b ∈ p0, b ≠ 0 ∧ (fun b => b != chHash && b != chNewline) b = true := by
      intro b hb
      refine ⟨hnn b (by rw [hsplit]; exact List.mem_append_left _ hb), ?_⟩
      exact List.mem_takeWhile_imp (p := fun b => b != chHash && b != chNewline) hb
    have hd2 : source.drop e = p0 ++ (t0 ++ [0]) := by rw [hdrop, hsplit, List.append_assoc]
    cases hd : t0 with
    | nil =>
      rw [hd] at hd2
      have := scanWhile_of_drop _ source e p0 0 [] (by simpa using hd2) hp (by simp)
      exact ⟨this.1, by simpa using this.2.2⟩
    | cons c t =>
      rw [hd] at hd2
      have hcq : ¬ (c ≠ 0 ∧ (fun b => b != chHash && b != chNewline) c = true) := by
        have := List.head_dropWhile_not (fun b => b != chHash && b != chNewline) rest
          (by rw [← ht0, hd]; simp)
        simp only [← ht0, hd, List.head_cons] at this
        intro h
        exact absurd h.2 (by simpa using this)
      have := scanWhile_of_drop _ source e p0 c (t ++ [0]) (by simpa using hd2) hp hcq
      exact ⟨this.1, by simpa using this.2.2⟩

theorem scanStep_eq (filename source : List Nat) (s e l x cur b : Nat)
    (hx : source[e]? = some x) (hx0 : x ≠ 0)
    (hcur : scanWhile (fun b => b != chHash && b != chNewline) source e = cur)
    (hb : source[cur]? = some b) :
    scanStep filename source s e l =
      if b = chHash then
        if matchesInclude source (cur + 1) then includeStep filename source s e l cur
        else .plain (scanWhile (fun b => b != chNewline) source cur)
      else if b ≠ 0 then .plain (cur + 1)
      else .plain cur := by
  unfold scanStep
  rw [hx]
  split
  · rename_i h; simp at h
  · rename_i h; simp only [Option.some.injEq] at h; exact absurd h hx0
  · simp only [hcur, hb]

theorem scanStep_stop (filename source : List Nat) (s e l : Nat) (t : List Nat)
    (hdrop : source.drop e = 0 :: t) : scanStep filename source s e l = .stop := by
  unfold scanStep
  rw [getElem?_of_drop_eq hdrop]

theorem includeStep_eq (filename source : List Nat) (s e l cur : Nat)
    (ws name tail : List Nat) (c : Nat)
    (hdrop : source.drop (cur + 8) = ws ++ chQuote :: (name ++ chQuote :: c :: tail))
    (hws : ∀ b ∈ ws, b ≠ 0 ∧ isspace b = true)
    (hname : ∀ b ∈ name, b ≠ 0 ∧ b ≠ chQuote ∧ b ≠ chNewline) (hne : name ≠ []) :
    includeStep filename source s e l cur =
      .nested (pendingChunk filename source s e l) (some name)
        (cur + 8 + ws.length + 1 + name.length + 1 + 1) := by
  have h2 := scanWhile_of_drop isspace source (cur + 8) ws chQuote _ hdrop hws
    (by simp [isspace, chQuote])
  have hd3 : source.drop (cur + 8 + ws.length + 1) = name ++ chQuote :: c :: tail := by
    have := drop_add_of_drop_eq [chQuote] (name ++ chQuote :: c :: tail)
      (by simpa using h2.2.2)
    simpa using this
  have h3 := scanWhile_of_drop (fun b => b != chQuote && b != chNewline) source
    (cur + 8 + ws.length + 1) name chQuote (c :: tail) hd3
    (by
      intro b hb
      have := hname b hb
      simp [this.1, this.2.1, this.2.2])
    (by simp)
  unfold includeStep
  simp only [h2.1, h2.2.1, h3.1, h3.2.1, ne_eq, not_true_eq_false, if_false]
  have hq : chQuote ≠ chNewline := by decide
  rw [if_neg hq]
  have hlen : 0 < name.length := List.length_pos.mpr hne
  have hname2 : includedName source (cur + 8 + ws.length + 1)
      (cur + 8 + ws.length + 1 + name.length) = some name := by
    unfold includedName
    rw [if_pos (by omega), hd3]
    have : cur + 8 + ws.length + 1 + name.length - (cur + 8 + ws.length + 1) = name.length := by
      omega
    rw [this, List.take_left]
  rw [hname2]

theorem pendingChunk_body (filename pre pending tail : List Nat) (l : Nat) :
    (pendingChunk filename (pre ++ pending ++ tail) pre.length (pre.length + pending.length)
      l).map (fun c => (ScanItem.chunk c).body) =
      if pending = [] then [] else [SpecItem.text pending] := by
  unfold pendingChunk
  by_cases hp : pending = []
  · subst hp; simp
  · have hlen : 0 < pending.length := List.length_pos.mpr hp
    rw [if_pos (by omega), if_neg hp]
    simp only [List.map_cons, List.map_nil, ScanItem.body, ShaderChunk.make]
    have h1 : pre.length + pending.length - pre.length = pending.length := by omega
    rw [h1, List.append_assoc, List.drop_left, List.take_left]

theorem includeName_some (ln name : List Nat) (h : includeName ln = some name) :
    ∃ w ws, ln = chHash :: (w ++ (ws ++ chQuote :: (name ++ [chQuote, chNewline]))) ∧
      w.length = 7 ∧ w.map tolower = includeWord ∧ (∀ b ∈ ws, isspace b = true) ∧
      (∀ b ∈ name, b ≠ chQuote) := by
  cases ln with
  | nil => simp [includeName] at h
  | cons b rest =>
    unfold includeName at h
    simp only [] at h
    split_ifs at h with hc
    split at h
    · simp at h
    · rename_i q r2 hq
      split_ifs at h with hc2
      simp only [Option.some.injEq] at h
      have hw : (rest.take 7).length = 7 := by
        have := congrArg List.length hc.2
        simpa [includeWord] using this
      have h1 : rest = rest.take 7 ++ rest.drop 7 := (List.take_append_drop 7 rest).symm
      have h2 : rest.drop 7 = (rest.drop 7).takeWhile isspace ++ q :: r2 := by
        rw [← hq, List.takeWhile_append_dropWhile]
      have h3 : r2 = name ++ [chQuote, chNewline] := by
        rw [← h, ← hc2.2, List.takeWhile_append_dropWhile]
      refine ⟨rest.take 7, (rest.drop 7).takeWhile isspace, ?_, hw, hc.2, ?_, ?_⟩
      · rw [hc.1]
        congr 1
        conv_lhs => rw [h1, h2, h3, hc2.1]
      · intro x hx
        exact List.mem_takeWhile_imp hx
      · intro x hx
        rw [← h] at hx
        have := List.mem_takeWhile_imp (p := fun c => c != chQuote) hx
        simpa using this

theorem hasInclude_append (a t : List Nat) (h : (t.take 7).map tolower = includeWord) :
    hasInclude (a ++ chHash :: t) = true := by
  induction a with
  | nil => simp [hasInclude, h]
  | cons b a ih =>
    show hasInclude (b :: (a ++ chHash :: t)) = true
    rw [hasInclude, ih]
    simp

theorem tolower_ne_of_stop (c : Nat) (hc : c = 0 ∨ c = chNewline) :
    tolower c ∉ includeWord := by
  rcases hc with h | h <;> subst h <;> decide

theorem take_match_inside (n : Nat) (word t1 r : List Nat) (c : Nat)
    (hw : ∀ x ∈ word, x ∉ [tolower c])
    (h : ((t1 ++ c :: r).take n).map tolower = word) : n ≤ t1.length := by
  by_contra hlt
  have hlt : t1.length < n := by omega
  have hmem : tolower c ∈ ((t1 ++ c :: r).take n).map tolower := by
    apply List.mem_map_of_mem
    rw [List.mem_take_iff_getElem]
    have hbound : t1.length < min n (t1 ++ c :: r).length := by
      rw [List.length_append, List.length_cons]
      omega
    exact ⟨t1.length, hbound, List.getElem_of_append rfl rfl⟩
  rw [h] at hmem
  exact hw _ hmem (by simp)

theorem include_match_inside (t1 r : List Nat) (c : Nat) (hc : c = 0 ∨ c = chNewline)
    (h : ((t1 ++ c :: r).take 7).map tolower = includeWord) :
    7 ≤ t1.length ∧ (t1.take 7).map tolower = includeWord := by
  have hlen := take_match_inside 7 includeWord t1 r c
    (by
      intro x hx hx2
      simp only [List.mem_singleton] at hx2
      rw [hx2] at hx
      exact tolower_ne_of_stop c hc hx) h
  refine ⟨hlen, ?_⟩
  rw [List.take_append_of_le_length hlen] at h
  exact h

theorem includeName_head (u : List Nat) (b : Nat) (h : includeName (b :: u) ≠ none) :
    b = chHash ∧ (u.take 7).map tolower = includeWord := by
  unfold includeName at h
  simp only [] at h
  by_cases hc : b = chHash ∧ (u.take 7).map tolower = includeWord
  · exact hc
  · rw [if_neg hc] at h
    exact absurd rfl h

/-- The line that starts with bytes free of hash signs and then has a hash sign not followed by
the word include is no include line. -/
theorem includeName_none_of_no_match (p0 t1 nl r : List Nat) (c : Nat)
    (hp0 : ∀ b ∈ p0, b ≠ chHash ∧ b ≠ chNewline)
    (hnl : (nl = [] ∧ c = 0) ∨ (nl = [chNewline] ∧ c = chNewline))
    (hm : ¬ ((t1 ++ c :: r).take 7).map tolower = includeWord) :
    includeName (p0 ++ chHash :: (t1 ++ nl)) = none := by
  by_contra hne
  cases p0 with
  | cons b p0 =>
    have := includeName_head (p0 ++ chHash :: (t1 ++ nl)) b hne
    exact (hp0 b (List.mem_cons_self _ _)).1 this.1
  | nil =>
    have hh := includeName_head (t1 ++ nl) chHash hne
    have hlen : 7 ≤ t1.length := by
      rcases hnl with ⟨h1, _⟩ | ⟨h1, _⟩
      · subst h1
        have := congrArg List.length hh.2
        simp [includeWord] at this
        omega
      · subst h1
        exact (include_match_inside t1 [] chNewline (Or.inr rfl) hh.2).1
    apply hm
    rw [List.take_append_of_le_length hlen]
    have := hh.2
    rwa [List.take_append_of_le_length hlen] at this

theorem specItems_cons_none (pending ln : List Nat) (ls : List (List Nat))
    (h : includeName ln = none) :
    specItems pending (ln :: ls) = specItems (pending ++ ln) ls := by
  simp only [specItems, h]

theorem specItems_cons_some (pending ln name : List Nat) (ls : List (List Nat))
    (h : includeName ln = some name) :
    specItems pending (ln :: ls) =
      (if pending = [] then [] else [SpecItem.text pending]) ++ [SpecItem.file name] ++
        specItems [] ls := by
  simp only [specItems, h]

theorem lineScannable_newline : lineScannable [chNewline] = true := by decide

/-- Spec side of a turn that steps over a line with a hash sign that is no include directive: the
bytes up to the end of the line join the pending text. -/
theorem specItems_skip_hash (pending p0 t1 t2 : List Nat)
    (hp0 : ∀ b ∈ p0, b ≠ chHash ∧ b ≠ chNewline) (ht1 : ∀ b ∈ t1, b ≠ chNewline)
    (ht2 : t2 = [] ∨ ∃ t3, t2 = chNewline :: t3)
    (hm : ¬ ((t1 ++ (t2 ++ [0])).take 7).map tolower = includeWord) :
    specItems pending (textLines (p0 ++ chHash :: (t1 ++ t2))) =
        specItems (pending ++ (p0 ++ chHash :: t1)) (textLines t2) ∧
      (∀ ln ∈ textLines t2, ln ∈ textLines (p0 ++ chHash :: (t1 ++ t2)) ∨
        ln = [chNewline]) := by
  have hfree : ∀ b ∈ p0 ++ chHash :: t1, b ≠ chNewline := by
    intro b hb
    rw [List.mem_append, List.mem_cons] at hb
    rcases hb with hb | hb | hb
    · exact (hp0 b hb).2
    · rw [hb]; decide
    · exact ht1 b hb
  rcases ht2 with h2 | ⟨t3, h2⟩
  · subst h2
    simp only [List.append_nil, List.nil_append] at hm ⊢
    have hname := includeName_none_of_no_match p0 t1 [] [] 0 hp0 (Or.inl ⟨rfl, rfl⟩) hm
    simp only [List.append_nil] at hname
    rw [textLines_no_newline _ hfree (by simp), textLines_nil]
    refine ⟨?_, fun ln h => by simp at h⟩
    rw [specItems_cons_none _ _ _ hname]
  · subst h2
    have hname := includeName_none_of_no_match p0 t1 [chNewline] (t3 ++ [0]) chNewline hp0
      (Or.inr ⟨rfl, rfl⟩) (by simpa using hm)
    have e1 : p0 ++ chHash :: (t1 ++ chNewline :: t3) =
        (p0 ++ chHash :: t1) ++ chNewline :: t3 := by simp
    have e2 : textLines (chNewline :: t3) = [chNewline] :: textLines t3 := by
      have := textLines_newline [] t3 (by simp)
      simpa using this
    rw [e1, textLines_newline _ _ hfree, e2]
    constructor
    · have hname2 : includeName (p0 ++ chHash :: t1 ++ [chNewline]) = none := by
        have : p0 ++ chHash :: t1 ++ [chNewline] = p0 ++ chHash :: (t1 ++ [chNewline]) := by
          simp
        rw [this]; exact hname
      have hnl : includeName [chNewline] = none := by decide
      rw [specItems_cons_none _ _ _ hname2, specItems_cons_none _ _ _ hnl]
      simp only [List.append_assoc]
    · intro ln hln
      rw [List.mem_cons] at hln
      rcases hln with h | h
      · exact Or.inr h
      · exact Or.inl (List.mem_cons_of_mem _ h)

/-- Spec side of a turn that meets a hash sign followed by the word include: on a scannable
text the hash sign starts the line and the line is an include line. -/
theorem include_line_shape (p0 t1 t2 : List Nat)
    (hp0 : ∀ b ∈ p0, b ≠ chHash ∧ b ≠ chNewline) (ht1 : ∀ b ∈ t1, b ≠ chNewline)
    (ht2 : t2 = [] ∨ ∃ t3, t2 = chNewline :: t3)
    (hm : ((t1 ++ (t2 ++ [0])).take 7).map tolower = includeWord)
    (hok : ∀ ln ∈ textLines (p0 ++ chHash :: (t1 ++ t2)), lineScannable ln = true) :
    ∃ w ws name t3, p0 = [] ∧ t2 = chNewline :: t3 ∧
      t1 = w ++ (ws ++ chQuote :: (name ++ [chQuote])) ∧ w.length = 7 ∧
      (∀ b ∈ ws, isspace b = true) ∧ (∀ b ∈ name, b ≠ chQuote) ∧ name ≠ [] ∧
      includeName (chHash :: (t1 ++ [chNewline])) = some name ∧
      textLines (p0 ++ chHash :: (t1 ++ t2)) =
        (chHash :: (t1 ++ [chNewline])) :: textLines t3 := by
  have hfree : ∀ b ∈ p0 ++ chHash :: t1, b ≠ chNewline := by
    intro b hb
    rw [List.mem_append, List.mem_cons] at hb
    rcases hb with hb | hb | hb
    · exact (hp0 b hb).2
    · rw [hb]; decide
    · exact ht1 b hb
  -- the line and the fact that it is the first line of the text
  obtain ⟨nl, c, r, hnl, hcr, hline⟩ : ∃ nl c r,
      ((nl = [] ∧ t2 = []) ∨ (nl = [chNewline] ∧ ∃ t3, t2 = chNewline :: t3)) ∧
      (t2 ++ [0] = c :: r ∧ (c = 0 ∨ c = chNewline)) ∧
      (p0 ++ chHash :: (t1 ++ nl)) ∈ textLines (p0 ++ chHash :: (t1 ++ t2)) := by
    rcases ht2 with h2 | ⟨t3, h2⟩
    · refine ⟨[], 0, [], Or.inl ⟨rfl, h2⟩, ⟨by simp [h2], Or.inl rfl⟩, ?_⟩
      subst h2
      simp only [List.append_nil]
      rw [textLines_no_newline _ hfree (by simp)]
      simp
    · refine ⟨[chNewline], chNewline, t3 ++ [0], Or.inr ⟨rfl, t3, h2⟩,
        ⟨by simp [h2], Or.inr rfl⟩, ?_⟩
      subst h2
      have e1 : p0 ++ chHash :: (t1 ++ chNewline :: t3) =
          (p0 ++ chHash :: t1) ++ chNewline :: t3 := by simp
      rw [e1, textLines_newline _ _ hfree]
      simp
  have hin := include_match_inside t1 r c hcr.2 (by rw [← hcr.1]; exact hm)
  have hhas : hasInclude (p0 ++ chHash :: (t1 ++ nl)) = true :=
    hasInclude_append p0 (t1 ++ nl) (by rw [List.take_append_of_le_length hin.1]; exact hin.2)
  have hsc := hok _ hline
  unfold lineScannable at hsc
  cases hname : includeName (p0 ++ chHash :: (t1 ++ nl)) with
  | none => rw [hname] at hsc; simp [hhas] at hsc
  | some name =>
    rw [hname] at hsc
    have hne : name ≠ [] := by simpa using hsc
    obtain ⟨w, ws, hshape, hwlen, hw, hws, hnm⟩ := includeName_some _ _ hname
    have hp0nil : p0 = [] := by
      cases p0 with
      | nil => rfl
      | cons b p0 =>
        simp only [List.cons_append, List.cons.injEq] at hshape
        exact absurd hshape.1 (hp0 b (List.mem_cons_self _ _)).1
    subst hp0nil
    simp only [List.nil_append, List.cons.injEq, true_and] at hshape
    have hshape2 : t1 ++ nl = (w ++ (ws ++ chQuote :: (name ++ [chQuote]))) ++ [chNewline] := by
      rw [hshape]; simp
    rcases hnl with ⟨hn, h2⟩ | ⟨hn, t3, h2⟩
    · subst hn
      simp only [List.append_nil] at hshape2
      have : chNewline ∈ t1 := by rw [hshape2]; simp
      exact absurd rfl (ht1 _ this)
    · subst hn
      have ht1eq : t1 = w ++ (ws ++ chQuote :: (name ++ [chQuote])) :=
        List.append_cancel_right hshape2
      refine ⟨w, ws, name, t3, rfl, h2, ht1eq, hwlen, hws, hnm, hne, ?_, ?_⟩
      · simpa using hname
      · subst h2
        have e1 : chHash :: (t1 ++ chNewline :: t3) = (chHash :: t1) ++ chNewline :: t3 := by
          simp
        simp only [List.nil_append]
        rw [e1, textLines_newline _ _ (by simpa using hfree)]
        simp

theorem drop_pre_pending (pre pending tail : List Nat) :
    (pre ++ (pending ++ tail)).drop (pre.length + pending.length) = tail := by
  rw [← List.append_assoc]
  exact List.drop_left' (by simp)

theorem pendingChunk_body_assoc (filename pre pending tail : List Nat) (l : Nat) :
    (pendingChunk filename (pre ++ (pending ++ tail)) pre.length
      (pre.length + pending.length) l).map (fun c => (ScanItem.chunk c).body) =
      if pending = [] then [] else [SpecItem.text pending] := by
  rw [← List.append_assoc]
  exact pendingChunk_body filename pre pending tail l

theorem scanItems_unfold (filename source : List Nat) (fuel s e l : Nat) :
    scanItems filename source (fuel + 1) s e l =
      itemsTurn (scanItems filename source fuel) filename source s e l := rfl

theorem scan_refines_nil (filename source pre pending : List Nat) (fuel line : Nat)
    (hsrc : source = pre ++ (pending ++ ([] ++ [0]))) :
    (scanItems filename source fuel pre.length (pre.length + pending.length) line).2 =
        .finished ∧
      (scanItems filename source fuel pre.length (pre.length + pending.length) line).1.map
        ScanItem.body = specItems pending (textLines []) := by
  have hdrop : source.drop (pre.length + pending.length) = 0 :: [] := by
    rw [hsrc]; exact drop_pre_pending pre pending _
  have hstep := scanStep_stop filename source pre.length (pre.length + pending.length) line []
    hdrop
  have hbody := pendingChunk_body_assoc filename pre pending ([] ++ [0]) line
  rw [← hsrc] at hbody
  cases fuel with
  | zero =>
    simp only [scanItems, itemsTurn, hstep, List.map_map, true_and]
    rw [textLines_nil]
    simpa [specItems, Function.comp] using hbody
  | succ fuel =>
    simp only [scanItems, itemsTurn, hstep, List.map_map, true_and]
    rw [textLines_nil]
    simpa [specItems, Function.comp] using hbody

theorem split_at_newline (t : List Nat) :
    ∃ t1 t2, t = t1 ++ t2 ∧ (∀ b ∈ t1, b ≠ chNewline) ∧
      (t2 = [] ∨ ∃ t3, t2 = chNewline :: t3) := by
  refine ⟨t.takeWhile (fun b => b != chNewline), t.dropWhile (fun b => b != chNewline),
    (List.takeWhile_append_dropWhile _ _).symm, ?_, ?_⟩
  · intro b hb
    have := List.mem_takeWhile_imp (p := fun b => b != chNewline) hb
    simpa using this
  · cases hd : t.dropWhile (fun b => b != chNewline) with
    | nil => exact Or.inl rfl
    | cons c t3 =>
      right
      have := List.head_dropWhile_not (fun b => b != chNewline) t (by rw [hd]; simp)
      simp only [hd, List.head_cons] at this
      have hc : c = chNewline := by simpa using this
      exact ⟨t3, by rw [hc]⟩

/-- The scan of a text whose lines are all scannable ends regularly, and the chunks and
recursive calls it makes are those the line by line reading of the text expects. -/
theorem scan_refines (filename : List Nat) (n : Nat) :
    ∀ rest : List Nat, rest.length ≤ n →
      ∀ (source pre pending : List Nat) (fuel line : Nat),
        source = pre ++ (pending ++ (rest ++ [0])) →
        (∀ b ∈ rest, b ≠ 0) →
        (∀ ln ∈ textLines rest, lineScannable ln = true) →
        rest.length + 1 ≤ fuel →
        (scanItems filename source fuel pre.length (pre.length + pending.length) line).2 =
            .finished ∧
          (scanItems filename source fuel pre.length (pre.length + pending.length)
            line).1.map ScanItem.body = specItems pending (textLines rest) := by
  induction n with
  | zero =>
    intro rest hlen source pre pending fuel line hsrc _ _ _
    have : rest = [] := List.length_eq_zero.mp (by omega)
    subst this
    exact scan_refines_nil filename source pre pending fuel line hsrc
  | succ n ih =>
    intro rest hlen source pre pending fuel line hsrc hnn hok hfuel
    cases hrest : rest with
    | nil =>
      subst hrest
      exact scan_refines_nil filename source pre pending fuel line hsrc
    | cons x rest0 =>
      rw [← hrest]
      have hpos : 0 < rest.length := by rw [hrest]; simp
      obtain ⟨fuel1, hf1⟩ : ∃ fuel1, fuel = fuel1 + 1 := ⟨fuel - 1, by omega⟩
      subst hf1
      have hdrop : source.drop (pre.length + pending.length) = rest ++ [0] := by
        rw [hsrc]; exact drop_pre_pending pre pending _
      have hx : source[pre.length + pending.length]? = some x :=
        getElem?_of_drop_eq (t := rest0 ++ [0]) (by rw [hdrop, hrest]; rfl)
      have hx0 : x ≠ 0 := hnn x (by rw [hrest]; exact List.mem_cons_self _ _)
      obtain ⟨p0, t0, hsplit, hp0, ht0, hscan, hdrop2⟩ :=
        first_scan source rest (pre.length + pending.length) hdrop hnn
      rw [scanItems_unfold]
      unfold itemsTurn
      rcases ht0 with ht0 | ⟨c, t, ht0, hc⟩
      · -- the text ends without a line feed and without a hash sign
        subst ht0
        simp only [List.append_nil] at hsplit
        subst hsplit
        have hb : source[pre.length + pending.length + rest.length]? = some 0 :=
          getElem?_of_drop_eq (t := []) (by simpa using hdrop2)
        rw [scanStep_eq filename source _ _ line x _ 0 hx hx0 hscan hb]
        simp only [show (0 : Nat) ≠ chHash by decide, if_false, ne_eq, not_true_eq_false]
        have hih := ih [] (by simp) source pre (pending ++ rest) fuel1 (line + 1)
          (by rw [hsrc]; simp) (by simp) (by simp [textLines_nil]) (by simp; omega)
        have hlen2 : pre.length + (pending ++ rest).length =
            pre.length + pending.length + rest.length := by simp; omega
        rw [hlen2] at hih
        refine ⟨hih.1, ?_⟩
        rw [hih.2, textLines_nil,
          textLines_no_newline rest (fun b hb => (hp0 b hb).2) (by rw [hrest]; simp)]
        have hname : includeName rest = none := by
          apply includeName_of_not_hash
          rw [hrest]
          simp only [List.head?_cons, ne_eq, Option.some.injEq]
          exact (hp0 x (by rw [hrest]; exact List.mem_cons_self _ _)).1
        rw [specItems_cons_none _ _ _ hname]
      · subst ht0
        have hb : source[pre.length + pending.length + p0.length]? = some c :=
          getElem?_of_drop_eq (t := t ++ [0]) (by simpa using hdrop2)
        rw [scanStep_eq filename source _ _ line x _ c hx hx0 hscan hb]
        rcases hc with hc | hc
        · -- a hash sign
          subst hc
          obtain ⟨t1, t2, hts, ht1, ht2⟩ := split_at_newline t
          have hnn2 : ∀ b ∈ t1, b ≠ 0 := fun b hb =>
            hnn b (by rw [hsplit, hts]; simp [hb])
          have hd1 : source.drop (pre.length + pending.length + p0.length + 1) =
              t1 ++ (t2 ++ [0]) := by
            have := drop_add_of_drop_eq [chHash] (t ++ [0]) (by simpa using hdrop2)
            rw [hts] at this
            simpa using this
          have hmi : matchesInclude source (pre.length + pending.length + p0.length + 1) =
              true ↔ ((t1 ++ (t2 ++ [0])).take 7).map tolower = includeWord := by
            unfold matchesInclude
            rw [hd1]
            exact beq_iff_eq
          rw [if_pos rfl]
          by_cases hm : ((t1 ++ (t2 ++ [0])).take 7).map tolower = includeWord
          · -- an include directive
            rw [if_pos (hmi.mpr hm)]
            obtain ⟨w, ws, name, t3, hp0nil, ht2eq, ht1eq, hwlen, hws, hnm, hne, hname, hlines⟩ :=
              include_line_shape p0 t1 t2 hp0 ht1 ht2 hm (by rw [← hts, ← hsplit]; exact hok)
            subst hp0nil
            subst ht2eq
            simp only [List.length_nil, Nat.add_zero, List.nil_append] at *
            have hrest2 : rest = chHash :: (t1 ++ chNewline :: t3) := by rw [hsplit, hts]
            have hd8 : source.drop (pre.length + pending.length + 8) =
                ws ++ chQuote :: (name ++ chQuote :: chNewline :: (t3 ++ [0])) := by
              have := drop_add_of_drop_eq (chHash :: w)
                (ws ++ chQuote :: (name ++ chQuote :: chNewline :: (t3 ++ [0])))
                (by rw [hdrop2, hts, ht1eq]; simp)
              simpa [hwlen] using this
            have hmem1 : ∀ b ∈ t1, b ∈ rest := fun b hb => by rw [hrest2]; simp [hb]
            rw [includeStep_eq filename source _ _ line _ ws name (t3 ++ [0]) chNewline hd8
              (fun b hb => ⟨hnn b (hmem1 b (by rw [ht1eq]; simp [hb])), hws b hb⟩)
              (fun b hb => ⟨hnn b (hmem1 b (by rw [ht1eq]; simp [hb])), hnm b hb,
                ht1 b (by rw [ht1eq]; simp [hb])⟩) hne]
            simp only []
            have hlt : t3.length < rest.length := by rw [hrest2]; simp; omega
            have hih := ih t3 (by omega) source
              (pre ++ (pending ++ (chHash :: (t1 ++ [chNewline])))) [] fuel1 (line + 1)
              (by rw [hsrc, hrest2]; simp)
              (fun b hb => hnn b (by rw [hrest2]; simp [hb]))
              (fun ln hln => hok ln (by
                rw [hrest2, hlines]; exact List.mem_cons_of_mem _ hln))
              (by omega)
            have hlen2 : (pre ++ (pending ++ (chHash :: (t1 ++ [chNewline])))).length =
                pre.length + pending.length + 8 + ws.length + 1 + name.length + 1 + 1 := by
              rw [ht1eq]; simp [hwlen]; omega
            simp only [List.length_nil, Nat.add_zero] at hih
            rw [hlen2] at hih
            refine ⟨hih.1, ?_⟩
            have hbody := pendingChunk_body_assoc filename pre pending (rest ++ [0]) line
            rw [← hsrc] at hbody
            rw [List.map_append, List.map_append, List.map_map, hih.2]
            rw [hrest2, hlines, specItems_cons_some _ _ _ _ hname]
            have hbody2 : List.map (ScanItem.body ∘ ScanItem.chunk)
                (pendingChunk filename source pre.length (pre.length + pending.length) line) =
                if pending = [] then [] else [SpecItem.text pending] := hbody
            rw [hbody2]
            rfl
          · -- another directive
            rw [if_neg (fun h => hm (hmi.mp h))]
            obtain ⟨c1, r, hcr, hc1⟩ : ∃ c1 r, t2 ++ [0] = c1 :: r ∧
                (c1 = 0 ∨ c1 = chNewline) := by
              rcases ht2 with h2 | ⟨t3, h2⟩
              · exact ⟨0, [], by simp [h2], Or.inl rfl⟩
              · exact ⟨chNewline, t3 ++ [0], by simp [h2], Or.inr rfl⟩
            have hsw := scanWhile_of_drop (fun b => b != chNewline) source
              (pre.length + pending.length + p0.length) (chHash :: t1) c1 r
              (by rw [hdrop2, hts, ← hcr]; simp)
              (by
                intro b hb
                rw [List.mem_cons] at hb
                rcases hb with hb | hb
                · rw [hb]; decide
                · exact ⟨hnn2 b hb, by simpa using ht1 b hb⟩)
              (by rcases hc1 with h | h <;> subst h <;> simp)
            rw [hsw.1]
            simp only []
            have hspec := specItems_skip_hash pending p0 t1 t2 hp0 ht1 ht2 hm
            have hrest2 : rest = p0 ++ chHash :: (t1 ++ t2) := by rw [hsplit, hts]
            have hlt : t2.length < rest.length := by rw [hrest2]; simp; omega
            have hih := ih t2 (by omega) source pre (pending ++ (p0 ++ chHash :: t1)) fuel1
              (line + 1) (by rw [hsrc, hrest2]; simp)
              (fun b hb => hnn b (by rw [hrest2]; simp [hb]))
              (fun ln hln => by
                rcases hspec.2 ln hln with h | h
                · exact hok ln (by rw [hrest2]; exact h)
                · rw [h]; exact lineScannable_newline)
              (by omega)
            have hlen2 : pre.length + (pending ++ (p0 ++ chHash :: t1)).length =
                pre.length + pending.length + p0.length + (chHash :: t1).length := by
              simp; omega
            rw [hlen2] at hih
            refine ⟨hih.1, ?_⟩
            rw [hih.2, hrest2, hspec.1]
        · -- a line feed
          subst hc
          simp only [show chNewline ≠ chHash by decide, if_false, ne_eq,
            show ¬ chNewline = 0 by decide, not_false_eq_true, if_true]
          have hlt : t.length < rest.length := by rw [hsplit]; simp; omega
          have hlines : textLines rest = (p0 ++ [chNewline]) :: textLines t := by
            rw [hsplit]; exact textLines_newline p0 t (fun b hb => (hp0 b hb).2)
          have hih := ih t (by omega) source pre (pending ++ (p0 ++ [chNewline])) fuel1
            (line + 1) (by rw [hsrc, hsplit]; simp)
            (fun b hb => hnn b (by rw [hsplit]; simp [hb]))
            (fun ln hln => hok ln (by rw [hlines]; exact List.mem_cons_of_mem _ hln))
            (by omega)
          have hlen2 : pre.length + (pending ++ (p0 ++ [chNewline])).length =
              pre.length + pending.length + p0.length + 1 := by simp; omega
          rw [hlen2] at hih
          refine ⟨hih.1, ?_⟩
          rw [hih.2, hlines]
          have hname : includeName (p0 ++ [chNewline]) = none := by
            apply includeName_of_not_hash
            cases p0 with
            | nil => decide
            | cons b p0 =>
              simp only [List.cons_append, List.head?_cons, ne_eq, Option.some.injEq]
              exact (hp0 b (List.mem_cons_self _ _)).1
          rw [specItems_cons_none _ _ _ hname]

theorem expandFile_succ (fs : FileSystem) (depth : Nat) (filename text : List Nat)
    (h : fs.read filename = some text) :
    expandFile fs (depth + 1) filename =
      (textLines text).flatMap (expandLine (expandFile fs depth)) := by
  simp only [expandFile, h]
  rfl

theorem renderItems_specItems (expand : List Nat → List Nat) (ls : List (List Nat)) :
    ∀ pending, renderItems expand (specItems pending ls) =
      pending ++ ls.flatMap (expandLine expand) := by
  induction ls with
  | nil =>
    intro pending
    by_cases hp : pending = []
    · simp [specItems, hp, renderItems]
    · simp [specItems, hp, renderItems]
  | cons ln ls ih =>
    intro pending
    cases hname : includeName ln with
    | none =>
      rw [specItems_cons_none _ _ _ hname, ih]
      simp [expandLine, hname]
    | some name =>
      rw [specItems_cons_some _ _ _ _ hname]
      have h1 : renderItems expand ((if pending = [] then [] else [SpecItem.text pending]) ++
          [SpecItem.file name] ++ specItems [] ls) =
          pending ++ expand name ++ renderItems expand (specItems [] ls) := by
        by_cases hp : pending = []
        · simp [hp, renderItems]
        · simp [hp, renderItems]
      rw [h1, ih]
      simp [expandLine, hname]

theorem mem_specItems_file (name : List Nat) (ls : List (List Nat)) :
    ∀ pending, SpecItem.file name ∈ specItems pending ls →
      ∃ ln ∈ ls, includeName ln = some name := by
  induction ls with
  | nil =>
    intro pending h
    by_cases hp : pending = []
    · simp [specItems, hp] at h
    · simp [specItems, hp] at h
  | cons ln ls ih =>
    intro pending h
    cases hname : includeName ln with
    | none =>
      rw [specItems_cons_none _ _ _ hname] at h
      obtain ⟨l2, hl2, hn⟩ := ih _ h
      exact ⟨l2, List.mem_cons_of_mem _ hl2, hn⟩
    | some g =>
      rw [specItems_cons_some _ _ _ _ hname] at h
      rw [List.mem_append, List.mem_append] at h
      rcases h with (h | h) | h
      · by_cases hp : pending = []
        · simp [hp] at h
        · simp [hp] at h
      · simp only [List.mem_singleton, SpecItem.file.injEq] at h
        exact ⟨ln, List.mem_cons_self _ _, by rw [hname, h]⟩
      · obtain ⟨l2, hl2, hn⟩ := ih _ h
        exact ⟨l2, List.mem_cons_of_mem _ hl2, hn⟩

theorem chunkSources_append (a b : List ShaderChunk) :
    chunkSources (a ++ b) = chunkSources a ++ chunkSources b := by
  simp [chunkSources]

theorem runItems_render (recur : List Nat → List ShaderChunk → CompileOutcome)
    (expand : List Nat → List Nat) (items : List ScanItem)
    (hrec : ∀ name, SpecItem.file name ∈ items.map ScanItem.body →
      ∀ cs, ∃ out, recur name cs = .returned (cs ++ out) ∧ chunkSources out = expand name) :
    ∀ cs, ∃ out, runItems recur items .finished cs = .returned (cs ++ out) ∧
      chunkSources out = renderItems expand (items.map ScanItem.body) := by
  induction items with
  | nil => intro cs; exact ⟨[], by simp [runItems], by simp [chunkSources, renderItems]⟩
  | cons it rest ih =>
    intro cs
    have ih1 := ih (fun name hn => hrec name (by
      simp only [List.map_cons, List.mem_cons]; exact Or.inr hn))
    cases it with
    | chunk c =>
      obtain ⟨out, ho, hs⟩ := ih1 (cs ++ [c])
      refine ⟨c :: out, ?_, ?_⟩
      · simp only [runItems, ho]; simp
      · simp only [chunkSources, List.flatMap_cons, List.map_cons, renderItems, ScanItem.body]
        simp only [chunkSources, renderItems] at hs
        rw [hs]
    | file name =>
      obtain ⟨o1, h1, hs1⟩ := hrec name (by simp [ScanItem.body]) cs
      obtain ⟨o2, h2, hs2⟩ := ih1 (cs ++ o1)
      refine ⟨o1 ++ o2, ?_, ?_⟩
      · simp only [runItems, h1, h2]; simp
      · rw [chunkSources_append, hs1, hs2]
        simp [renderItems, ScanItem.body]

theorem wellFormed_entry (fs : FileSystem) (rank : List Nat → Nat)
    (hwf : fs.wellFormed rank = true) (filename text : List Nat)
    (hread : fs.read filename = some text) :
    (∀ b ∈ text, b ≠ 0) ∧ (∀ ln ∈ textLines text, lineOk fs rank filename ln = true) := by
  have hmem := lookup_mem filename text fs.files hread
  unfold FileSystem.wellFormed at hwf
  rw [List.all_eq_true] at hwf
  have := hwf _ hmem
  simp only [Bool.and_eq_true, List.all_eq_true] at this
  exact ⟨fun b hb => by simpa using this.1 b hb, this.2⟩

theorem compile_refines (fs : FileSystem) (rank : List Nat → Nat)
    (hwf : fs.wellFormed rank = true) (depth : Nat) :
    ∀ filename chunks text, rank filename < depth → fs.read filename = some text →
      ∃ out, CompileShaderSources fs depth filename chunks = .returned (chunks ++ out) ∧
        chunkSources out = expandFile fs depth filename := by
  induction depth with
  | zero => intro f cs text h; omega
  | succ depth ih =>
    intro f cs text hr hread
    obtain ⟨hnn, hok⟩ := wellFormed_entry fs rank hwf f text hread
    have hscan := scan_refines f text.length text (le_refl _) (text ++ [0]) [] [] (text.length + 1)
      0 (by simp) hnn
      (fun ln hln => by
        have := hok ln hln
        unfold lineOk at this
        exact (Bool.and_eq_true _ _ ▸ this).1)
      (le_refl _)
    simp only [List.length_nil, Nat.add_zero] at hscan
    have hrun := runItems_render (CompileShaderSources fs depth) (expandFile fs depth)
      (scanItems f (text ++ [0]) (text.length + 1) 0 0 0).1
      (by
        intro name hn cs1
        rw [hscan.2] at hn
        obtain ⟨ln, hln, hname⟩ := mem_specItems_file name _ _ hn
        have hl := hok ln hln
        unfold lineOk at hl
        rw [hname] at hl
        simp only [Bool.and_eq_true, decide_eq_true_eq] at hl
        obtain ⟨t, ht⟩ := Option.isSome_iff_exists.mp hl.2.1
        exact ih name cs1 t (by omega) ht) cs
    obtain ⟨out, ho, hs⟩ := hrun
    refine ⟨out, ?_, ?_⟩
    · simp only [CompileShaderSources, hread]
      rw [scanLoop_eq_runItems, hscan.1]
      exact ho
    · rw [hs, hscan.2, renderItems_specItems, expandFile_succ fs depth f text hread]
      simp

theorem linesAux_flatten (text : List Nat) :
    ∀ acc, (linesAux acc text).flatten = acc ++ text := by
  induction text with
  | nil =>
    intro acc
    by_cases h : acc = []
    · simp [linesAux, h]
    · simp [linesAux, h]
  | cons b rest ih =>
    intro acc
    by_cases hb : b = chNewline
    · simp [linesAux, hb, ih]
    · simp [linesAux, hb, ih]

theorem textLines_flatten (text : List Nat) : (textLines text).flatten = text := by
  unfold textLines
  rw [linesAux_flatten]
  rfl

theorem hasInclude_of_includeName (ln name : List Nat) (h : includeName ln = some name) :
    hasInclude ln = true := by
  cases ln with
  | nil => simp [includeName] at h
  | cons b u =>
    have := includeName_head u b (by rw [h]; simp)
    simp [hasInclude, this.1, this.2]

theorem specItems_no_include (ls : List (List Nat))
    (h : ∀ ln ∈ ls, includeName ln = none) :
    ∀ pending, specItems pending ls =
      if pending ++ ls.flatten = [] then [] else [SpecItem.text (pending ++ ls.flatten)] := by
  induction ls with
  | nil => intro pending; simp [specItems]
  | cons ln ls ih =>
    intro pending
    rw [specItems_cons_none _ _ _ (h ln (List.mem_cons_self _ _)),
      ih (fun l hl => h l (List.mem_cons_of_mem _ hl))]
    simp

/-- C12, as the code has it: on a collection of files whose include graph is acyclic (a rank
goes down along the includes), whose texts have no NUL byte, and in which every hash sign
followed by the word include, in any letter case, starts its line, is followed by white space and
the quoted name, not empty, of an existing file, and has the line feed right after the closing
quote, `CompileShaderSources` returns, and the concatenation of the sources of the chunks it
appends is the expansion of the file: its text with every include line replaced by the expansion
of the named file.  An empty file yields no chunk; a file that is not empty and has no such
directive yields one chunk, whose source is the whole file. -/
theorem compile_expands_includes (fs : FileSystem) (rank : List Nat → Nat)
    (filename text : List Nat) (hwf : fs.wellFormed rank = true)
    (hread : fs.read filename = some text) :
    ∃ out, CompileShaderSources fs (rank filename + 1) filename [] = .returned out ∧
      chunkSources out = expandFile fs (rank filename + 1) filename ∧
      (text = [] → out = []) ∧
      (text ≠ [] → (∀ ln ∈ textLines text, hasInclude ln = false) →
        ∃ c, out = [c] ∧ c.m_source = text) := by
  obtain ⟨out, ho, hs⟩ := compile_refines fs rank hwf (rank filename + 1) filename [] text
    (Nat.lt_succ_self _) hread
  simp only [List.nil_append] at ho
  refine ⟨out, ho, hs, ?_, ?_⟩
  · intro ht
    subst ht
    have : CompileShaderSources fs (rank filename + 1) filename [] = .returned [] := by
      simp [CompileShaderSources, hread, scanLoop, scanTurn, scanStep, pendingChunk]
    rw [this] at ho
    simp only [CompileOutcome.returned.injEq] at ho
    exact ho.symm
  · intro hne hno
    obtain ⟨hnn, hok⟩ := wellFormed_entry fs rank hwf filename text hread
    have hscan := scan_refines filename text.length text (le_refl _) (text ++ [0]) [] []
      (text.length + 1) 0 (by simp) hnn
      (fun ln hln => by
        have := hok ln hln
        unfold lineOk at this
        exact (Bool.and_eq_true _ _ ▸ this).1)
      (le_refl _)
    simp only [List.length_nil, Nat.add_zero] at hscan
    have hnone : ∀ ln ∈ textLines text, includeName ln = none := by
      intro ln hln
      cases hn : includeName ln with
      | none => rfl
      | some g =>
        have := hasInclude_of_includeName ln g hn
        rw [hno ln hln] at this
        exact absurd this (by simp)
    have hspec := specItems_no_include (textLines text) hnone []
    rw [textLines_flatten] at hspec
    simp only [List.nil_append, hne, if_false] at hspec
    rw [hspec] at hscan
    obtain ⟨hend, hitems⟩ := hscan
    cases hi : (scanItems filename (text ++ [0]) (text.length + 1) 0 0 0).1 with
    | nil => rw [hi] at hitems; simp at hitems
    | cons it rest =>
      rw [hi] at hitems
      simp only [List.map_cons, List.cons.injEq, List.map_eq_nil_iff] at hitems
      obtain ⟨hit, hrest⟩ := hitems
      subst hrest
      cases it with
      | file g => simp [ScanItem.body] at hit
      | chunk c =>
        simp only [ScanItem.body, SpecItem.text.injEq] at hit
        refine ⟨c, ?_, hit⟩
        have : CompileShaderSources fs (rank filename + 1) filename [] = .returned [c] := by
          simp only [CompileShaderSources, hread]
          rw [scanLoop_eq_runItems, hend, hi]
          simp [runItems]
        rw [this] at ho
        simp only [CompileOutcome.returned.injEq] at ho
        exact ho.symm

/-- Witness of C12: the two sample files, compiled from the one that includes the other. -/
theorem compile_expands_includes_witness :
    sampleShaders.wellFormed sampleRank = true ∧
      sampleShaders.read (bytes "a") = some (bytes "A\n#include \"b\"\nC\n#define X\nD") ∧
      ∃ out, CompileShaderSources sampleShaders (sampleRank (bytes "a") + 1) (bytes "a") [] =
          .returned out ∧
        chunkSources out = expandFile sampleShaders (sampleRank (bytes "a") + 1) (bytes "a") ∧
        (bytes "A\n#include \"b\"\nC\n#define X\nD" = [] → out = []) ∧
        (bytes "A\n#include \"b\"\nC\n#define X\nD" ≠ [] →
          (∀ ln ∈ textLines (bytes "A\n#include \"b\"\nC\n#define X\nD"),
            hasInclude ln = false) →
          ∃ c, out = [c] ∧ c.m_source = bytes "A\n#include \"b\"\nC\n#define X\nD") :=
  ⟨by decide, by decide,
    compile_expands_includes sampleShaders sampleRank (bytes "a")
      (bytes "A\n#include \"b\"\nC\n#define X\nD") (by decide) (by decide)⟩

/-- C13 at the two contents the claim names.  For the 12 bytes of an include directive with no
line feed after the closing quote the buffer has 13 bytes, indices 0 to 12, and the loop
condition reads index 13.  For the 11 bytes of a directive whose quoted name is cut off by the
end of the file the buffer has 12 bytes and the loop condition reads index 13. -/
theorem include_at_end_reads_outside :
    includeAtEnd.read (bytes "a") = some (bytes "#include \"b\"") ∧
      (bytes "#include \"b\"").length = 12 ∧
      CompileShaderSources includeAtEnd 1 (bytes "a") [] = .outOfBounds 13 [] ∧
      includeCutOff.read (bytes "a") = some (bytes "#include \"b") ∧
      (bytes "#include \"b").length = 11 ∧
      CompileShaderSources includeCutOff 1 (bytes "a") [] = .outOfBounds 13 [] := by
  decide

/-- C12 fails as stated on two kinds of file without any `#include`.  The test for the directive
ignores letter case, so the line `#INCLUDE y` is taken for an include directive without a quoted
name: the loop is left, and the text before the line is appended twice, as two chunks.  And a NUL
byte inside the file ends the scan: the one chunk holds only the bytes before it. -/
theorem include_free_file_not_one_chunk :
    occursIn (bytes "#include") (bytes "x\n#INCLUDE y\nz") = false ∧
      CompileShaderSources upperCaseDirective 1 (bytes "a") [] =
        .returned [ShaderChunk.make (bytes "a") 1 (bytes "x\n#INCLUDE y\nz" ++ [0]) 0 2,
          ShaderChunk.make (bytes "a") 1 (bytes "x\n#INCLUDE y\nz" ++ [0]) 0 2] ∧
      (ShaderChunk.make (bytes "a") 1 (bytes "x\n#INCLUDE y\nz" ++ [0]) 0 2).m_source =
        bytes "x\n" ∧
      occursIn (bytes "#include") [65, 0, 66] = false ∧
      CompileShaderSources nulInside 1 (bytes "a") [] =
        .returned [ShaderChunk.make (bytes "a") 1 [65, 0, 66, 0] 0 1] ∧
      (ShaderChunk.make (bytes "a") 1 [65, 0, 66, 0] 0 1).m_source = [65] := by
  decide

/-! ## Theorems: the sphere mesh in closed form -/

theorem pushAll_nil (r : SphereRun) : r.pushAll [] = r := rfl

theorem pushAll_cons (r : SphereRun) (v : Int) (vs : List Int) :
    r.pushAll (v :: vs) = (r.pushIndex v).pushAll vs := rfl

theorem pushAll_append (r : SphereRun) (a b : List Int) :
    r.pushAll (a ++ b) = (r.pushAll a).pushAll b := by
  simp only [SphereRun.pushAll, List.foldl_append]

theorem pushAll_off (vs : List Int) (r : SphereRun) :
    (r.pushAll vs).off = r.off + (vs.length : Int) := by
  induction vs generalizing r with
  | nil => simp [SphereRun.pushAll]
  | cons v vs ih =>
    rw [pushAll_cons, ih, pushIndex_off]
    simp only [List.length_cons]
    push_cast
    ring

theorem pushAll_fixed (vs : List Int) (r : SphereRun) :
    (r.pushAll vs).numVerts = r.numVerts ∧ (r.pushAll vs).numFaces = r.numFaces ∧
      (r.pushAll vs).vertWrites = r.vertWrites ∧ (r.pushAll vs).asserts = r.asserts := by
  induction vs generalizing r with
  | nil => simp [SphereRun.pushAll]
  | cons v vs ih =>
    rw [pushAll_cons]
    obtain ⟨h1, h2, h3, h4⟩ := ih (r.pushIndex v)
    exact ⟨h1, h2, h3, h4⟩

theorem pushAll_values (vs : List Int) (r : SphereRun) :
    (r.pushAll vs).indexValues = r.indexValues ++ vs.map (fun v => v % 65536) := by
  induction vs generalizing r with
  | nil => simp [SphereRun.pushAll]
  | cons v vs ih =>
    rw [pushAll_cons, ih]
    simp [SphereRun.indexValues, SphereRun.pushIndex]

theorem pushAll_slots (vs : List Int) (r : SphereRun) :
    (r.pushAll vs).indexWrites.map Prod.fst =
      r.indexWrites.map Prod.fst ++
        (List.range vs.length).map (fun (i : Nat) => r.off + (i : Int)) := by
  induction vs generalizing r with
  | nil => simp [SphereRun.pushAll]
  | cons v vs ih =>
    rw [pushAll_cons, ih]
    simp only [SphereRun.pushIndex, List.map_append, List.map_cons, List.map_nil,
      List.length_cons, List.append_assoc, List.singleton_append]
    rw [List.range_succ_eq_map]
    simp only [List.map_cons, List.map_map, Nat.cast_zero, add_zero]
    congr 2
    apply List.map_congr_left
    intro i _
    simp only [Function.comp, Nat.succ_eq_add_one]
    push_cast
    ring

theorem sphereStripQuads_pushAll (kN col0 col1 : Int) (r : SphereRun) :
    sphereStripQuads kN col0 col1 r =
      r.pushAll ((List.range (kN - 3).toNat).flatMap (fun (i : Nat) =>
        [col0 + (i : Int), col0 + (i : Int) + 1, col1 + (i : Int), col1 + (i : Int),
          col0 + (i : Int) + 1, col1 + (i : Int) + 1])) := by
  unfold sphereStripQuads
  induction (kN - 3).toNat with
  | zero => rfl
  | succ Q ih =>
    rw [List.range_succ, List.foldl_append, List.flatMap_append, pushAll_append, ← ih]
    rfl

theorem sphereIndexStrip_pushAll (kN kM m : Int) (r : SphereRun) :
    sphereIndexStrip kN kM m r =
      (r.check .indexStrip (decide (r.off < r.numFaces * 3))).pushAll (stripValues kN kM m) := by
  unfold sphereIndexStrip stripValues
  simp only [sphereStripQuads_pushAll, pushAll_append]
  rfl

theorem stripValues_length (kN kM m : Int) (K : Nat) (hK : kN - 2 = (K : Int)) (hK1 : 1 ≤ K) :
    (stripValues kN kM m).length = 6 * K := by
  have hQ : (kN - 3).toNat = K - 1 := by omega
  unfold stripValues
  rw [hQ]
  have hsum : ∀ (f : Nat → List Int) (n : Nat), (∀ i, (f i).length = 6) →
      ((List.range n).flatMap f).length = 6 * n := by
    intro f n hf
    induction n with
    | zero => rfl
    | succ n ih =>
      rw [List.range_succ, List.flatMap_append, List.length_append, ih]
      simp only [List.flatMap_cons, List.flatMap_nil, List.append_nil, hf]
      omega
  rw [List.length_append, List.length_append, hsum]
  · simp only [List.length_cons, List.length_nil]
    omega
  · intro i
    rfl

theorem succColumn_emod (M i : Nat) (hi : i < M) :
    ((i : Int) + 1) % (M : Int) = ((succColumn M i : Nat) : Int) := by
  unfold succColumn
  by_cases h : i + 1 = M
  · rw [if_pos h]
    have : ((i : Int) + 1) = (M : Int) := by exact_mod_cast h
    rw [this, Int.emod_self]
    rfl
  · rw [if_neg h]
    rw [Int.emod_eq_of_lt (by omega) (by omega)]
    push_cast
    rfl

theorem succColumn_lt (M i : Nat) (hi : i < M) : succColumn M i < M := by
  unfold succColumn
  split_ifs <;> omega

theorem corners_append {α : Type} (a b : List (α × α × α)) :
    corners (a ++ b) = corners a ++ corners b := by
  simp only [corners, List.flatMap_append]

theorem stripValues_grid (kN : Int) (K M i : Nat) (hK : kN - 2 = (K : Int)) (hK1 : 1 ≤ K)
    (hi : i < M) :
    stripValues kN (M : Int) (i : Int) =
      (corners (stripTriangles K M i)).map (GridVertex.index K) := by
  have hQ : (kN - 3).toNat = K - 1 := by omega
  have hQ2 : kN - 3 = ((K - 1 : Nat) : Int) := by omega
  unfold stripValues stripTriangles
  rw [hQ, hQ2, hK, succColumn_emod M i hi, corners_append, corners_append, List.map_append,
    List.map_append]
  have e1 : List.map (GridVertex.index K)
      (corners [(GridVertex.top, GridVertex.ring i 0, GridVertex.ring (succColumn M i) 0)]) =
      [0, 2 + (i : Int) * (K : Int), 2 + ((succColumn M i : Nat) : Int) * (K : Int)] := by
    simp [corners, GridVertex.index]
  have e3 : List.map (GridVertex.index K)
      (corners [(GridVertex.ring i (K - 1), GridVertex.bottom,
        GridVertex.ring (succColumn M i) (K - 1))]) =
      [2 + (i : Int) * (K : Int) + ((K - 1 : Nat) : Int), 1,
        2 + ((succColumn M i : Nat) : Int) * (K : Int) + ((K - 1 : Nat) : Int)] := by
    simp only [corners, List.flatMap_cons, List.flatMap_nil, List.append_nil, List.map_cons,
      List.map_nil, GridVertex.index]
  have e2 : List.map (GridVertex.index K)
      (corners ((List.range (K - 1)).flatMap (quadTriangles M i))) =
      (List.range (K - 1)).flatMap (fun (n : Nat) =>
        [2 + (i : Int) * (K : Int) + (n : Int), 2 + (i : Int) * (K : Int) + (n : Int) + 1,
          2 + ((succColumn M i : Nat) : Int) * (K : Int) + (n : Int),
          2 + ((succColumn M i : Nat) : Int) * (K : Int) + (n : Int),
          2 + (i : Int) * (K : Int) + (n : Int) + 1,
          2 + ((succColumn M i : Nat) : Int) * (K : Int) + (n : Int) + 1]) := by
    simp only [corners, List.flatMap_assoc, List.map_flatMap]
    apply List.flatMap_congr
    intro n _
    simp only [quadTriangles, List.flatMap_cons, List.flatMap_nil, List.append_nil,
      List.map_cons, List.map_nil, GridVertex.index, List.cons_append, List.nil_append]
    push_cast
    simp only [add_assoc]
  rw [e1, e2, e3]

theorem index_bounds (K M : Nat) (v : GridVertex) (hv : v.valid K M) :
    0 ≤ v.index K ∧ v.index K < 2 + (K : Int) * (M : Int) := by
  cases v with
  | top =>
    have : (0 : Int) ≤ (K : Int) * (M : Int) := by positivity
    simp only [GridVertex.index]
    omega
  | bottom =>
    have : (0 : Int) ≤ (K : Int) * (M : Int) := by positivity
    simp only [GridVertex.index]
    omega
  | ring m n =>
    obtain ⟨hm, hn⟩ := hv
    have h0 : (0 : Int) ≤ (m : Int) * (K : Int) := by positivity
    have h1 : ((m : Int) + 1) * (K : Int) ≤ (M : Int) * (K : Int) :=
      mul_le_mul_of_nonneg_right (by omega) (by positivity)
    have h2 : ((m : Int) + 1) * (K : Int) = (m : Int) * (K : Int) + (K : Int) := by ring
    have h3 : (M : Int) * (K : Int) = (K : Int) * (M : Int) := by ring
    simp only [GridVertex.index]
    omega

theorem stripTriangles_valid (K M i : Nat) (hK1 : 1 ≤ K) (hi : i < M) :
    ∀ t ∈ stripTriangles K M i, validTriangle K M t := by
  intro t ht
  have hs := succColumn_lt M i hi
  simp only [stripTriangles, List.mem_append, List.mem_singleton, List.mem_flatMap,
    List.mem_range, quadTriangles, List.mem_cons, List.not_mem_nil, or_false] at ht
  rcases ht with (rfl | ⟨n, hn, rfl | rfl⟩) | rfl
  · exact ⟨trivial, ⟨hi, by omega⟩, ⟨hs, by omega⟩⟩
  · exact ⟨⟨hi, by omega⟩, ⟨hi, by omega⟩, ⟨hs, by omega⟩⟩
  · exact ⟨⟨hs, by omega⟩, ⟨hi, by omega⟩, ⟨hs, by omega⟩⟩
  · exact ⟨⟨hi, by omega⟩, trivial, ⟨hs, by omega⟩⟩

theorem gridTriangles_valid (K M : Nat) (hK1 : 1 ≤ K) :
    ∀ t ∈ gridTriangles K M, validTriangle K M t := by
  intro t ht
  simp only [gridTriangles, List.mem_flatMap, List.mem_range] at ht
  obtain ⟨i, hi, ht⟩ := ht
  exact stripTriangles_valid K M i hK1 hi t ht

theorem corners_valid (K M : Nat) (ts : List (GridVertex × GridVertex × GridVertex))
    (h : ∀ t ∈ ts, validTriangle K M t) : ∀ v ∈ corners ts, v.valid K M := by
  intro v hv
  simp only [corners, List.mem_flatMap, List.mem_cons, List.not_mem_nil, or_false] at hv
  obtain ⟨t, ht, hv⟩ := hv
  obtain ⟨h1, h2, h3⟩ := h t ht
  rcases hv with rfl | rfl | rfl
  · exact h1
  · exact h2
  · exact h3

theorem map_unsigned_short (vs : List Int) (h : ∀ v ∈ vs, 0 ≤ v ∧ v < 65536) :
    vs.map (fun v => v % 65536) = vs := by
  induction vs with
  | nil => rfl
  | cons v vs ih =>
    rw [List.map_cons, ih (fun w hw => h w (List.mem_cons_of_mem _ hw))]
    have := h v (List.mem_cons_self _ _)
    rw [Int.emod_eq_of_lt this.1 this.2]

theorem sphereIndexStrip_grid (kN : Int) (K M i : Nat) (hK : kN - 2 = (K : Int)) (hK1 : 1 ≤ K)
    (hi : i < M) (hN : 2 + (K : Int) * (M : Int) ≤ 65536) (r : SphereRun) :
    (sphereIndexStrip kN (M : Int) (i : Int) r).indexValues =
        r.indexValues ++ (corners (stripTriangles K M i)).map (GridVertex.index K) ∧
      (sphereIndexStrip kN (M : Int) (i : Int) r).indexWrites.map Prod.fst =
        r.indexWrites.map Prod.fst ++
          (List.range (6 * K)).map (fun (j : Nat) => r.off + (j : Int)) ∧
      (sphereIndexStrip kN (M : Int) (i : Int) r).off = r.off + 6 * (K : Int) ∧
      (sphereIndexStrip kN (M : Int) (i : Int) r).vertWrites = r.vertWrites ∧
      (sphereIndexStrip kN (M : Int) (i : Int) r).numVerts = r.numVerts ∧
      (sphereIndexStrip kN (M : Int) (i : Int) r).numFaces = r.numFaces := by
  rw [sphereIndexStrip_pushAll]
  have hlen := stripValues_length kN (M : Int) (i : Int) K hK hK1
  have hf := pushAll_fixed (stripValues kN (M : Int) (i : Int))
    (r.check .indexStrip (decide (r.off < r.numFaces * 3)))
  refine ⟨?_, ?_, ?_, hf.2.2.1, hf.1, hf.2.1⟩
  · rw [pushAll_values, stripValues_grid kN K M i hK hK1 hi, map_unsigned_short]
    · rfl
    · intro v hv
      rw [List.mem_map] at hv
      obtain ⟨g, hg, rfl⟩ := hv
      have := index_bounds K M g
        (corners_valid K M _ (stripTriangles_valid K M i hK1 hi) g hg)
      omega
  · rw [pushAll_slots, hlen]
    rfl
  · rw [pushAll_off, hlen]
    simp only [check_off]
    push_cast
    rfl

theorem sphereVertexRings_grid (kN : Int) (K i : Nat) (hK : kN - 2 = (K : Int))
    (r : SphereRun) (hoff : r.off = 6 * (2 + (i : Int) * (K : Int))) :
    (sphereVertexRings kN (i : Int) r).vertWrites =
        r.vertWrites ++ (List.range K).flatMap (fun (n : Nat) =>
          vertexFloats (2 + (i : Int) * (K : Int) + (n : Int)) (.ring (i : Int) (n : Int))) ∧
      (sphereVertexRings kN (i : Int) r).off = r.off + 6 * (K : Int) ∧
      (sphereVertexRings kN (i : Int) r).indexWrites = r.indexWrites ∧
      (sphereVertexRings kN (i : Int) r).numVerts = r.numVerts ∧
      (sphereVertexRings kN (i : Int) r).numFaces = r.numFaces := by
  unfold sphereVertexRings
  have hn : (kN - 2).toNat = K := by omega
  rw [hn]
  exact foldl_range_invariant
    (fun (j : Nat) (s : SphereRun) =>
      s.vertWrites = r.vertWrites ++ (List.range j).flatMap (fun (n : Nat) =>
          vertexFloats (2 + (i : Int) * (K : Int) + (n : Int)) (.ring (i : Int) (n : Int))) ∧
        s.off = r.off + 6 * (j : Int) ∧ s.indexWrites = r.indexWrites ∧
        s.numVerts = r.numVerts ∧ s.numFaces = r.numFaces)
    (fun acc (n : Nat) =>
      let acc1 := acc.putVertex acc.off (.ring (i : Int) (n : Int))
      { acc1 with off := acc1.off + 6 }) r K
    ⟨by simp, by simp, rfl, rfl, rfl⟩
    (by
      intro j s _ ⟨hv, ho, hi, h1, h2⟩
      refine ⟨?_, ?_, hi, h1, h2⟩
      · simp only [SphereRun.putVertex]
        rw [hv, List.range_succ j, List.flatMap_append, List.append_assoc]
        congr 1
        congr 1
        simp only [List.flatMap_cons, List.flatMap_nil, List.append_nil, vertexFloats]
        apply List.map_congr_left
        intro c _
        rw [ho, hoff]
        congr 1
        ring
      · simp only [SphereRun.putVertex]
        rw [ho]
        push_cast
        ring)

theorem sphereVertexColumn_grid (kN : Int) (K i : Nat) (hK : kN - 2 = (K : Int))
    (r : SphereRun) (hoff : r.off = 6 * (2 + (i : Int) * (K : Int))) :
    (sphereVertexColumn kN (i : Int) r).vertWrites =
        r.vertWrites ++ (List.range K).flatMap (fun (n : Nat) =>
          vertexFloats (2 + (i : Int) * (K : Int) + (n : Int)) (.ring (i : Int) (n : Int))) ∧
      (sphereVertexColumn kN (i : Int) r).off = r.off + 6 * (K : Int) ∧
      (sphereVertexColumn kN (i : Int) r).indexWrites = r.indexWrites ∧
      (sphereVertexColumn kN (i : Int) r).numVerts = r.numVerts ∧
      (sphereVertexColumn kN (i : Int) r).numFaces = r.numFaces := by
  unfold sphereVertexColumn
  exact sphereVertexRings_grid kN K i hK (r.check .vertexColumn _) hoff

theorem sphereVertexLoop_grid (kN : Int) (K M : Nat) (hK : kN - 2 = (K : Int))
    (r : SphereRun) (hoff : r.off = 12) :
    ((List.range M).foldl (fun acc (m : Nat) => sphereVertexColumn kN (m : Int) acc)
        r).vertWrites =
        r.vertWrites ++
          (List.range M).flatMap (fun (m : Nat) => (List.range K).flatMap (fun (n : Nat) =>
            vertexFloats (2 + (m : Int) * (K : Int) + (n : Int)) (.ring (m : Int) (n : Int)))) ∧
      ((List.range M).foldl (fun acc (m : Nat) => sphereVertexColumn kN (m : Int) acc)
        r).indexWrites = r.indexWrites ∧
      ((List.range M).foldl (fun acc (m : Nat) => sphereVertexColumn kN (m : Int) acc)
        r).numVerts = r.numVerts ∧
      ((List.range M).foldl (fun acc (m : Nat) => sphereVertexColumn kN (m : Int) acc)
        r).numFaces = r.numFaces := by
  have v := foldl_range_invariant
    (fun (i : Nat) (s : SphereRun) =>
      s.vertWrites = r.vertWrites ++
          (List.range i).flatMap (fun (m : Nat) => (List.range K).flatMap (fun (n : Nat) =>
            vertexFloats (2 + (m : Int) * (K : Int) + (n : Int)) (.ring (m : Int) (n : Int)))) ∧
        s.off = 6 * (2 + (i : Int) * (K : Int)) ∧ s.indexWrites = r.indexWrites ∧
        s.numVerts = r.numVerts ∧ s.numFaces = r.numFaces)
    (fun acc (m : Nat) => sphereVertexColumn kN (m : Int) acc) r M
    ⟨by simp, by rw [hoff]; simp, rfl, rfl, rfl⟩
    (by
      intro i s _ ⟨hv, ho, hi, h1, h2⟩
      have c := sphereVertexColumn_grid kN K i hK s ho
      refine ⟨?_, ?_, ?_, ?_, ?_⟩
      · rw [c.1, hv, List.range_succ i, List.flatMap_append, List.append_assoc]
        simp only [List.flatMap_cons, List.flatMap_nil, List.append_nil]
      · rw [c.2.1, ho]; push_cast; ring
      · rw [c.2.2.1, hi]
      · rw [c.2.2.2.1, h1]
      · rw [c.2.2.2.2, h2])
  exact ⟨v.1, v.2.2.1, v.2.2.2.1, v.2.2.2.2⟩

theorem sphereIndexLoop_grid (kN : Int) (K M : Nat) (hK : kN - 2 = (K : Int)) (hK1 : 1 ≤ K)
    (hN : 2 + (K : Int) * (M : Int) ≤ 65536) (r : SphereRun) (hoff : r.off = 0)
    (hiw : r.indexWrites = []) :
    ((List.range M).foldl (fun acc (m : Nat) => sphereIndexStrip kN (M : Int) (m : Int) acc)
        r).indexValues = (corners (gridTriangles K M)).map (GridVertex.index K) ∧
      ((List.range M).foldl (fun acc (m : Nat) => sphereIndexStrip kN (M : Int) (m : Int) acc)
        r).indexWrites.map Prod.fst = (List.range (6 * K * M)).map (fun (j : Nat) => (j : Int)) ∧
      ((List.range M).foldl (fun acc (m : Nat) => sphereIndexStrip kN (M : Int) (m : Int) acc)
        r).vertWrites = r.vertWrites ∧
      ((List.range M).foldl (fun acc (m : Nat) => sphereIndexStrip kN (M : Int) (m : Int) acc)
        r).numVerts = r.numVerts ∧
      ((List.range M).foldl (fun acc (m : Nat) => sphereIndexStrip kN (M : Int) (m : Int) acc)
        r).numFaces = r.numFaces := by
  have w := foldl_range_invariant
    (fun (i : Nat) (s : SphereRun) => i ≤ M →
      s.indexValues = (corners ((List.range i).flatMap (stripTriangles K M))).map
          (GridVertex.index K) ∧
        s.indexWrites.map Prod.fst = (List.range (6 * K * i)).map (fun (j : Nat) => (j : Int)) ∧
        s.off = 6 * ((K : Int) * (i : Int)) ∧
        s.vertWrites = r.vertWrites ∧ s.numVerts = r.numVerts ∧ s.numFaces = r.numFaces)
    (fun acc (m : Nat) => sphereIndexStrip kN (M : Int) (m : Int) acc) r M
    (fun _ => ⟨by simp [SphereRun.indexValues, hiw, corners], by simp [hiw],
      by rw [hoff]; simp, rfl, rfl, rfl⟩)
    (by
      intro i s hi hP _
      obtain ⟨hv, hs, ho, hw, h1, h2⟩ := hP (Nat.le_of_lt hi)
      have c := sphereIndexStrip_grid kN K M i hK hK1 hi hN s
      refine ⟨?_, ?_, ?_, ?_, ?_, ?_⟩
      · rw [c.1, hv, List.range_succ i, List.flatMap_append, corners_append, List.map_append]
        simp only [List.flatMap_cons, List.flatMap_nil, List.append_nil]
      · rw [c.2.1, hs, ho]
        have e : 6 * K * (i + 1) = 6 * K * i + 6 * K := by ring
        rw [e, List.range_add, List.map_append, List.map_map]
        congr 1
        apply List.map_congr_left
        intro j _
        simp only [Function.comp]
        push_cast
        ring
      · rw [c.2.2.1, ho]; push_cast; ring
      · rw [c.2.2.2.1, hw]
      · rw [c.2.2.2.2.1, h1]
      · rw [c.2.2.2.2.2, h2])
  obtain ⟨w1, w2, _, w4, w5, w6⟩ := w (Nat.le_refl M)
  exact ⟨w1, w2, w4, w5, w6⟩


theorem pushAll_mem (vs : List Int) (r : SphereRun) (w : Int × Int) (h : w ∈ r.indexWrites) :
    w ∈ (r.pushAll vs).indexWrites := by
  induction vs generalizing r with
  | nil => exact h
  | cons v vs ih =>
    rw [pushAll_cons]
    apply ih
    simp only [SphereRun.pushIndex, List.mem_append, List.mem_singleton]
    exact Or.inl h

theorem sphereIndexStrip_heads (kN kM m : Int) (r : SphereRun) :
    (r.off + 1, (2 + (m * (kN - 2))) % 65536) ∈ (sphereIndexStrip kN kM m r).indexWrites ∧
      (r.off + 2, (2 + (((m + 1) % kM) * (kN - 2))) % 65536) ∈
        (sphereIndexStrip kN kM m r).indexWrites ∧
      ∀ w ∈ r.indexWrites, w ∈ (sphereIndexStrip kN kM m r).indexWrites := by
  rw [sphereIndexStrip_pushAll]
  unfold stripValues
  simp only [List.cons_append, List.nil_append, pushAll_cons]
  refine ⟨?_, ?_, ?_⟩
  · apply pushAll_mem
    simp [SphereRun.pushIndex, SphereRun.check]
  · apply pushAll_mem
    simp [SphereRun.pushIndex, SphereRun.check]
    right
    ring
  · intro w hw
    apply pushAll_mem
    simp only [SphereRun.pushIndex, SphereRun.check, List.mem_append, List.mem_singleton]
    exact Or.inl (Or.inl (Or.inl hw))

theorem sphereIndexLoop_columns (kN : Int) (K M : Nat) (hK : kN - 2 = (K : Int)) (hK1 : 1 ≤ K)
    (hN : 2 + (K : Int) * (M : Int) ≤ 65536) (r : SphereRun) (hoff : r.off = 0) :
    ∀ m : Nat, m < M →
      (6 * (K : Int) * (m : Int) + 1, 2 + (m : Int) * (kN - 2)) ∈
          ((List.range M).foldl
            (fun acc (m : Nat) => sphereIndexStrip kN (M : Int) (m : Int) acc) r).indexWrites ∧
        (6 * (K : Int) * (m : Int) + 2, 2 + (((m : Int) + 1) % (M : Int)) * (kN - 2)) ∈
          ((List.range M).foldl
            (fun acc (m : Nat) => sphereIndexStrip kN (M : Int) (m : Int) acc) r).indexWrites := by
  have w := foldl_range_invariant
    (fun (i : Nat) (s : SphereRun) => i ≤ M →
      s.off = 6 * ((K : Int) * (i : Int)) ∧
        ∀ m : Nat, m < i →
          (6 * (K : Int) * (m : Int) + 1, 2 + (m : Int) * (kN - 2)) ∈ s.indexWrites ∧
          (6 * (K : Int) * (m : Int) + 2, 2 + (((m : Int) + 1) % (M : Int)) * (kN - 2)) ∈
            s.indexWrites)
    (fun acc (m : Nat) => sphereIndexStrip kN (M : Int) (m : Int) acc) r M
    (fun _ => ⟨by rw [hoff]; simp, fun m hm => absurd hm (Nat.not_lt_zero m)⟩)
    (by
      intro i s hi hP _
      obtain ⟨ho, hmem⟩ := hP (Nat.le_of_lt hi)
      have c := sphereIndexStrip_grid kN K M i hK hK1 hi hN s
      obtain ⟨a1, a2, a3⟩ := sphereIndexStrip_heads kN (M : Int) (i : Int) s
      refine ⟨?_, ?_⟩
      · rw [c.2.2.1, ho]; push_cast; ring
      · intro m hm
        rcases Nat.lt_succ_iff_lt_or_eq.mp hm with hlt | rfl
        · exact ⟨a3 _ (hmem m hlt).1, a3 _ (hmem m hlt).2⟩
        · have b0 := index_bounds K M (.ring m 0) ⟨hi, by omega⟩
          have b1 := index_bounds K M (.ring (succColumn M m) 0)
            ⟨succColumn_lt M m hi, by omega⟩
          simp only [GridVertex.index, Nat.cast_zero, add_zero] at b0 b1
          rw [← succColumn_emod M m hi] at b1
          rw [hK] at a1 a2 ⊢
          rw [Int.emod_eq_of_lt (by omega) (by omega), ho] at a1
          rw [Int.emod_eq_of_lt (by omega) (by omega), ho] at a2
          have e : (6 : Int) * (K : Int) * (m : Int) = 6 * ((K : Int) * (m : Int)) := by ring
          rw [e]
          exact ⟨a1, a2⟩)
  exact (w (Nat.le_refl M)).2

/-- The run in closed form: the vertices column by column behind the two poles, the index slots
in order, and the stored indices those of the grid triangles. -/
theorem sphere_run_grid (subdivH subdivV : Int) (K M : Nat)
    (hK : max subdivV 2 - 2 = (K : Int)) (hM : max subdivH 4 = (M : Int)) (hK1 : 1 ≤ K)
    (hN : 2 + (K : Int) * (M : Int) ≤ 65536) :
    (render_GenerateSphereGeom subdivH subdivV).numVerts = 2 + (K : Int) * (M : Int) ∧
      (render_GenerateSphereGeom subdivH subdivV).numFaces = 2 * ((K : Int) * (M : Int)) ∧
      (render_GenerateSphereGeom subdivH subdivV).vertWrites =
        vertexFloats 0 .top ++ vertexFloats 1 .bottom ++
          (List.range M).flatMap (fun (m : Nat) => (List.range K).flatMap (fun (n : Nat) =>
            vertexFloats (2 + (m : Int) * (K : Int) + (n : Int)) (.ring (m : Int) (n : Int)))) ∧
      (render_GenerateSphereGeom subdivH subdivV).indexWrites.map Prod.fst =
        (List.range (6 * K * M)).map (fun (j : Nat) => (j : Int)) ∧
      (render_GenerateSphereGeom subdivH subdivV).indexValues =
        (corners (gridTriangles K M)).map (GridVertex.index K) ∧
      ∀ m : Nat, m < M →
        (6 * (K : Int) * (m : Int) + 1, 2 + (m : Int) * (max subdivV 2 - 2)) ∈
            (render_GenerateSphereGeom subdivH subdivV).indexWrites ∧
          (6 * (K : Int) * (m : Int) + 2,
              2 + (((m : Int) + 1) % (M : Int)) * (max subdivV 2 - 2)) ∈
            (render_GenerateSphereGeom subdivH subdivV).indexWrites := by
  have hMn : (max subdivH 4).toNat = M := by omega
  have hNF : (M : Int) * (2 * (max subdivV 2) - 4) = 2 * ((K : Int) * (M : Int)) := by
    have : (2 * (max subdivV 2) - 4 : Int) = 2 * K := by omega
    rw [this]; ring
  unfold render_GenerateSphereGeom
  simp only [hMn]
  rw [hM, hNF]
  have v := sphereVertexLoop_grid (max subdivV 2) K M hK
    { numVerts := 2 + (max subdivV 2 - 2) * (M : Int), numFaces := 2 * ((K : Int) * (M : Int)),
      off := 2 * 6, asserts := [],
      vertWrites := ([] ++ (List.range 6).map
          (fun (c : Nat) => ((0 : Int) + (c : Int), VertSource.top))) ++
        (List.range 6).map (fun (c : Nat) => ((6 : Int) + (c : Int), VertSource.bottom)),
      indexWrites := [] } rfl
  obtain ⟨v1, v2, v3, v4⟩ := v
  have w := sphereIndexLoop_grid (max subdivV 2) K M hK hK1 hN
    { (((List.range M).foldl
        (fun acc (m : Nat) => sphereVertexColumn (max subdivV 2) (m : Int) acc)
        { numVerts := 2 + (max subdivV 2 - 2) * (M : Int),
          numFaces := 2 * ((K : Int) * (M : Int)),
          off := 2 * 6, asserts := [],
          vertWrites := ([] ++ (List.range 6).map
              (fun (c : Nat) => ((0 : Int) + (c : Int), VertSource.top))) ++
            (List.range 6).map (fun (c : Nat) => ((6 : Int) + (c : Int), VertSource.bottom)),
          indexWrites := [] }).check .vertexEnd
        (decide (((List.range M).foldl
          (fun acc (m : Nat) => sphereVertexColumn (max subdivV 2) (m : Int) acc)
          { numVerts := 2 + (max subdivV 2 - 2) * (M : Int),
            numFaces := 2 * ((K : Int) * (M : Int)),
            off := 2 * 6, asserts := [],
            vertWrites := ([] ++ (List.range 6).map
                (fun (c : Nat) => ((0 : Int) + (c : Int), VertSource.top))) ++
              (List.range 6).map (fun (c : Nat) => ((6 : Int) + (c : Int), VertSource.bottom)),
            indexWrites := [] }).off = (2 + (max subdivV 2 - 2) * (M : Int)) * 6))) with
      off := 0 } rfl v2
  have cols := sphereIndexLoop_columns (max subdivV 2) K M hK hK1 hN
    { (((List.range M).foldl
        (fun acc (m : Nat) => sphereVertexColumn (max subdivV 2) (m : Int) acc)
        { numVerts := 2 + (max subdivV 2 - 2) * (M : Int),
          numFaces := 2 * ((K : Int) * (M : Int)),
          off := 2 * 6, asserts := [],
          vertWrites := ([] ++ (List.range 6).map
              (fun (c : Nat) => ((0 : Int) + (c : Int), VertSource.top))) ++
            (List.range 6).map (fun (c : Nat) => ((6 : Int) + (c : Int), VertSource.bottom)),
          indexWrites := [] }).check .vertexEnd
        (decide (((List.range M).foldl
          (fun acc (m : Nat) => sphereVertexColumn (max subdivV 2) (m : Int) acc)
          { numVerts := 2 + (max subdivV 2 - 2) * (M : Int),
            numFaces := 2 * ((K : Int) * (M : Int)),
            off := 2 * 6, asserts := [],
            vertWrites := ([] ++ (List.range 6).map
                (fun (c : Nat) => ((0 : Int) + (c : Int), VertSource.top))) ++
              (List.range 6).map (fun (c : Nat) => ((6 : Int) + (c : Int), VertSource.bottom)),
            indexWrites := [] }).off = (2 + (max subdivV 2 - 2) * (M : Int)) * 6))) with
      off := 0 } rfl
  obtain ⟨w1, w2, w3, w4, w5⟩ := w
  refine ⟨?_, ?_, ?_, w2, w1, cols⟩
  · exact (w4.trans v3).trans (by rw [hK])
  · exact w5.trans v4
  · refine (w3.trans v1).trans ?_
    simp [vertexFloats]

/-- C11: from three rings on and with at most 65536 vertices, `render_GenerateSphereGeom` writes
the slots 0, 1, 2, ... of `indices` one after the other up to the size of the vector, each once;
every index stored is a vertex index below `numVerts`; `verts` holds the top pole at index 0, the
bottom pole at index 1 and the vertex of column m, ring n at index 2 + m*(kN-2) + n; and in every
strip m the values stored for `col0` and `col1` are the indices of the first vertex of column m
and of column (m+1) mod kM. -/
theorem sphere_indices_and_columns (subdivH subdivV : Int) (h3 : 3 ≤ subdivV)
    (hN : 2 + (max subdivV 2 - 2) * max subdivH 4 ≤ 65536) :
    (render_GenerateSphereGeom subdivH subdivV).indexWrites.map Prod.fst =
        (List.range (render_GenerateSphereGeom subdivH subdivV).indicesSize.toNat).map
          (fun (j : Nat) => (j : Int)) ∧
      (∀ w ∈ (render_GenerateSphereGeom subdivH subdivV).indexWrites,
        0 ≤ w.2 ∧ w.2 < (render_GenerateSphereGeom subdivH subdivV).numVerts) ∧
      (render_GenerateSphereGeom subdivH subdivV).vertWrites =
        vertexFloats 0 .top ++ vertexFloats 1 .bottom ++
          (List.range (max subdivH 4).toNat).flatMap (fun (m : Nat) =>
            (List.range (max subdivV 2 - 2).toNat).flatMap (fun (n : Nat) =>
              vertexFloats (2 + (m : Int) * (max subdivV 2 - 2) + (n : Int))
                (.ring (m : Int) (n : Int)))) ∧
      ∀ m : Nat, (m : Int) < max subdivH 4 →
        (6 * (max subdivV 2 - 2) * (m : Int) + 1, 2 + (m : Int) * (max subdivV 2 - 2)) ∈
            (render_GenerateSphereGeom subdivH subdivV).indexWrites ∧
          (6 * (max subdivV 2 - 2) * (m : Int) + 2,
              2 + (((m : Int) + 1) % max subdivH 4) * (max subdivV 2 - 2)) ∈
            (render_GenerateSphereGeom subdivH subdivV).indexWrites ∧
          ∀ c : Nat, c < 6 →
            (6 * (2 + (m : Int) * (max subdivV 2 - 2)) + (c : Int), VertSource.ring (m : Int) 0) ∈
                (render_GenerateSphereGeom subdivH subdivV).vertWrites ∧
              (6 * (2 + (((m : Int) + 1) % max subdivH 4) * (max subdivV 2 - 2)) + (c : Int),
                  VertSource.ring (((m : Int) + 1) % max subdivH 4) 0) ∈
                (render_GenerateSphereGeom subdivH subdivV).vertWrites := by
  obtain ⟨K, hK⟩ : ∃ K : Nat, max subdivV 2 - 2 = (K : Int) :=
    ⟨(max subdivV 2 - 2).toNat, by omega⟩
  obtain ⟨M, hM⟩ : ∃ M : Nat, max subdivH 4 = (M : Int) := ⟨(max subdivH 4).toNat, by omega⟩
  have hK1 : 1 ≤ K := by omega
  have hKn : (max subdivV 2 - 2).toNat = K := by omega
  have hMn : (max subdivH 4).toNat = M := by omega
  rw [hK, hM] at hN
  obtain ⟨g1, g2, g3, g4, g5, g6⟩ := sphere_run_grid subdivH subdivV K M hK hM hK1 hN
  have hverts : ∀ (i : Nat), i < M → ∀ c : Nat, c < 6 →
      (6 * (2 + (i : Int) * (K : Int)) + (c : Int), VertSource.ring (i : Int) 0) ∈
        (render_GenerateSphereGeom subdivH subdivV).vertWrites := by
    intro i hi c hc
    rw [g3]
    simp only [List.mem_append, List.mem_flatMap, List.mem_range, vertexFloats, List.mem_map]
    right
    exact ⟨i, hi, 0, by omega, c, hc, by simp⟩
  refine ⟨?_, ?_, ?_, ?_⟩
  · rw [g4, SphereRun.indicesSize, g2]
    congr 2
    have : (0 : Int) ≤ (K : Int) * (M : Int) := by positivity
    have e : (3 * (2 * ((K : Int) * (M : Int)))) = ((6 * K * M : Nat) : Int) := by
      push_cast; ring
    rw [e]
    rfl
  · intro w hw
    have hv : w.2 ∈ (render_GenerateSphereGeom subdivH subdivV).indexValues :=
      List.mem_map_of_mem Prod.snd hw
    rw [g5, List.mem_map] at hv
    obtain ⟨g, hg, hgw⟩ := hv
    rw [← hgw, g1]
    exact index_bounds K M g (corners_valid K M _ (gridTriangles_valid K M hK1) g hg)
  · rw [g3, hKn, hMn, hK]
  · intro m hm
    have hmM : m < M := by omega
    obtain ⟨c1, c2⟩ := g6 m hmM
    rw [hK, hM]
    rw [hK] at c1 c2
    refine ⟨c1, c2, ?_⟩
    intro c hc
    refine ⟨hverts m hmM c hc, ?_⟩
    rw [succColumn_emod M m hmM]
    exact hverts (succColumn M m) (succColumn_lt M m hmM) c hc

/-- The run at subdivH = 5, subdivV = 5 is an instance. -/
theorem sphere_indices_and_columns_witness :
    (3 : Int) ≤ 5 ∧ 2 + (max (5 : Int) 2 - 2) * max (5 : Int) 4 ≤ 65536 ∧
      ((render_GenerateSphereGeom 5 5).indexWrites.map Prod.fst =
          (List.range (render_GenerateSphereGeom 5 5).indicesSize.toNat).map
            (fun (j : Nat) => (j : Int)) ∧
        (∀ w ∈ (render_GenerateSphereGeom 5 5).indexWrites,
          0 ≤ w.2 ∧ w.2 < (render_GenerateSphereGeom 5 5).numVerts) ∧
        (render_GenerateSphereGeom 5 5).vertWrites =
          vertexFloats 0 .top ++ vertexFloats 1 .bottom ++
            (List.range (max (5 : Int) 4).toNat).flatMap (fun (m : Nat) =>
              (List.range (max (5 : Int) 2 - 2).toNat).flatMap (fun (n : Nat) =>
                vertexFloats (2 + (m : Int) * (max (5 : Int) 2 - 2) + (n : Int))
                  (.ring (m : Int) (n : Int)))) ∧
        ∀ m : Nat, (m : Int) < max (5 : Int) 4 →
          (6 * (max (5 : Int) 2 - 2) * (m : Int) + 1, 2 + (m : Int) * (max (5 : Int) 2 - 2)) ∈
              (render_GenerateSphereGeom 5 5).indexWrites ∧
            (6 * (max (5 : Int) 2 - 2) * (m : Int) + 2,
                2 + (((m : Int) + 1) % max (5 : Int) 4) * (max (5 : Int) 2 - 2)) ∈
              (render_GenerateSphereGeom 5 5).indexWrites ∧
            ∀ c : Nat, c < 6 →
              (6 * (2 + (m : Int) * (max (5 : Int) 2 - 2)) + (c : Int),
                  VertSource.ring (m : Int) 0) ∈ (render_GenerateSphereGeom 5 5).vertWrites ∧
                (6 * (2 + (((m : Int) + 1) % max (5 : Int) 4) * (max (5 : Int) 2 - 2)) + (c : Int),
                    VertSource.ring (((m : Int) + 1) % max (5 : Int) 4) 0) ∈
                  (render_GenerateSphereGeom 5 5).vertWrites) :=
  ⟨by decide, by decide, sphere_indices_and_columns 5 5 (by decide) (by decide)⟩

/-! ## Theorems: the sphere mesh is a closed surface -/

theorem succColumn_ne (M m : Nat) (hM : 2 ≤ M) : succColumn M m ≠ m := by
  unfold succColumn
  split_ifs <;> omega

theorem succColumn_succ_ne (M m : Nat) (hM : 3 ≤ M) :
    succColumn M (succColumn M m) ≠ m := by
  unfold succColumn
  split_ifs <;> omega

theorem predColumn_succ (M m : Nat) (hM : 2 ≤ M) :
    predColumn M (succColumn M m) = m := by
  unfold succColumn predColumn
  by_cases h0 : m + 1 = M
  · rw [if_pos h0, if_pos rfl]
    omega
  · rw [if_neg h0, if_neg (by omega)]
    omega

theorem succColumn_pred (M m : Nat) (hm : m < M) : succColumn M (predColumn M m) = m := by
  unfold succColumn predColumn
  by_cases h0 : m = 0
  · rw [if_pos h0, if_pos (by omega)]
    exact h0.symm
  · rw [if_neg h0, if_neg (by omega)]
    omega

theorem predColumn_lt (M m : Nat) (hm : m < M) : predColumn M m < M := by
  unfold predColumn
  split_ifs <;> omega

theorem stripEdges_eq (K M m : Nat) :
    stripEdges K M m =
      triangleEdges (GridVertex.top, GridVertex.ring m 0, GridVertex.ring (succColumn M m) 0) ++
        (List.range (K - 1)).flatMap (quadEdges M m) ++
        triangleEdges (GridVertex.ring m (K - 1), GridVertex.bottom,
          GridVertex.ring (succColumn M m) (K - 1)) := by
  simp only [stripEdges, stripTriangles, List.flatMap_append, List.flatMap_cons,
    List.flatMap_nil, List.append_nil, List.flatMap_assoc]
  rfl

theorem gridEdges_eq (K M : Nat) : gridEdges K M = (List.range M).flatMap (stripEdges K M) := by
  simp only [gridEdges, gridTriangles, List.flatMap_assoc]
  rfl

theorem mem_quadEdges (M m n : Nat) (e : GridVertex × GridVertex) :
    e ∈ quadEdges M m n ↔
      e = (.ring m n, .ring m (n + 1)) ∨ e = (.ring m (n + 1), .ring (succColumn M m) n) ∨
      e = (.ring (succColumn M m) n, .ring m n) ∨
      e = (.ring (succColumn M m) n, .ring m (n + 1)) ∨
      e = (.ring m (n + 1), .ring (succColumn M m) (n + 1)) ∨
      e = (.ring (succColumn M m) (n + 1), .ring (succColumn M m) n) := by
  simp only [quadEdges, quadTriangles, triangleEdges, List.flatMap_cons, List.flatMap_nil,
    List.append_nil, List.cons_append, List.nil_append, List.mem_cons, List.not_mem_nil, or_false]

theorem mem_stripEdges (K M m : Nat) (e : GridVertex × GridVertex) :
    e ∈ stripEdges K M m ↔
      (e = (.top, .ring m 0) ∨ e = (.ring m 0, .ring (succColumn M m) 0) ∨
        e = (.ring (succColumn M m) 0, .top)) ∨
      (∃ n, n < K - 1 ∧ e ∈ quadEdges M m n) ∨
      (e = (.ring m (K - 1), .bottom) ∨ e = (.bottom, .ring (succColumn M m) (K - 1)) ∨
        e = (.ring (succColumn M m) (K - 1), .ring m (K - 1))) := by
  rw [stripEdges_eq]
  simp only [triangleEdges, List.mem_append, List.mem_cons, List.not_mem_nil, or_false,
    List.mem_flatMap, List.mem_range, or_assoc]

theorem mem_gridEdges (K M : Nat) (e : GridVertex × GridVertex) :
    e ∈ gridEdges K M ↔ ∃ m, m < M ∧ e ∈ stripEdges K M m := by
  rw [gridEdges_eq]
  simp only [List.mem_flatMap, List.mem_range]

theorem edgeHome_strip (K M m : Nat) (hM : 3 ≤ M) (e : GridVertex × GridVertex)
    (he : e ∈ stripEdges K M m) : edgeHome M e.1 e.2 = m := by
  have h1 := succColumn_ne M m (by omega)
  have h2 := succColumn_succ_ne M m hM
  have h3 := predColumn_succ M m (by omega)
  rw [mem_stripEdges] at he
  rcases he with (rfl | rfl | rfl) | ⟨n, _, hq⟩ | (rfl | rfl | rfl)
  · rfl
  · simp [edgeHome, h1]
  · simp [edgeHome, h3]
  · rw [mem_quadEdges] at hq
    rcases hq with rfl | rfl | rfl | rfl | rfl | rfl
    · simp [edgeHome]
    · simp [edgeHome, h1]
    · simp [edgeHome, h1.symm, h2.symm]
    · simp [edgeHome, h1.symm, h2.symm]
    · simp [edgeHome, h1]
    · simp only [edgeHome, if_true]
      rw [if_neg (by omega), h3]
  · rfl
  · simp [edgeHome, h3]
  · simp [edgeHome, h1.symm, h2.symm]

theorem edgeLevel_top (K M m : Nat) (e : GridVertex × GridVertex)
    (he : e ∈ triangleEdges
      (GridVertex.top, GridVertex.ring m 0, GridVertex.ring (succColumn M m) 0)) :
    edgeLevel K M e.1 e.2 = 0 := by
  simp only [triangleEdges, List.mem_cons, List.not_mem_nil, or_false] at he
  rcases he with rfl | rfl | rfl
  · rfl
  · simp [edgeLevel]
  · rfl

theorem edgeLevel_quad (K M m n : Nat) (hM : 3 ≤ M) (e : GridVertex × GridVertex)
    (he : e ∈ quadEdges M m n) : edgeLevel K M e.1 e.2 = n + 1 := by
  have h2 := succColumn_succ_ne M m hM
  rw [mem_quadEdges] at he
  rcases he with rfl | rfl | rfl | rfl | rfl | rfl
  · simp [edgeLevel]
  · simp [edgeLevel]
  · simp [edgeLevel, h2.symm]
  · simp [edgeLevel]
  · simp [edgeLevel]
  · simp [edgeLevel]

theorem edgeLevel_bottom (K M m : Nat) (hK : 1 ≤ K) (hM : 3 ≤ M)
    (e : GridVertex × GridVertex)
    (he : e ∈ triangleEdges
      (GridVertex.ring m (K - 1), GridVertex.bottom, GridVertex.ring (succColumn M m) (K - 1))) :
    edgeLevel K M e.1 e.2 = K := by
  have h2 := succColumn_succ_ne M m hM
  simp only [triangleEdges, List.mem_cons, List.not_mem_nil, or_false] at he
  rcases he with rfl | rfl | rfl
  · rfl
  · rfl
  · simp [edgeLevel, h2.symm]
    omega

theorem quadEdges_nodup (M m n : Nat) (hM : 2 ≤ M) : (quadEdges M m n).Nodup := by
  have h1 := succColumn_ne M m hM
  simp only [quadEdges, quadTriangles, triangleEdges, List.flatMap_cons, List.flatMap_nil,
    List.append_nil, List.cons_append, List.nil_append]
  simp [h1, h1.symm]

theorem topEdges_nodup (M m : Nat) (hM : 2 ≤ M) :
    (triangleEdges
      (GridVertex.top, GridVertex.ring m 0, GridVertex.ring (succColumn M m) 0)).Nodup := by
  have h1 := succColumn_ne M m hM
  simp [triangleEdges, h1, h1.symm]

theorem bottomEdges_nodup (K M m : Nat) (hM : 2 ≤ M) :
    (triangleEdges (GridVertex.ring m (K - 1), GridVertex.bottom,
      GridVertex.ring (succColumn M m) (K - 1))).Nodup := by
  have h1 := succColumn_ne M m hM
  simp [triangleEdges, h1, h1.symm]

theorem stripEdges_nodup (K M m : Nat) (hK : 1 ≤ K) (hM : 3 ≤ M) :
    (stripEdges K M m).Nodup := by
  rw [stripEdges_eq, List.nodup_append, List.nodup_append]
  refine ⟨⟨topEdges_nodup M m (by omega), ?_, ?_⟩, bottomEdges_nodup K M m (by omega), ?_⟩
  · rw [List.nodup_flatMap]
    refine ⟨fun n _ => quadEdges_nodup M m n (by omega), ?_⟩
    apply (List.nodup_range (K - 1)).pairwise_of_forall_ne
    intro a _ b _ hab e ha hb
    have la := edgeLevel_quad K M m a hM e ha
    have lb := edgeLevel_quad K M m b hM e hb
    omega
  · intro e ha hb
    rw [List.mem_flatMap] at hb
    obtain ⟨n, _, hb⟩ := hb
    have la := edgeLevel_top K M m e ha
    have lb := edgeLevel_quad K M m n hM e hb
    omega
  · intro e ha hb
    have lb := edgeLevel_bottom K M m hK hM e hb
    rw [List.mem_append, List.mem_flatMap] at ha
    rcases ha with ha | ⟨n, hn, ha⟩
    · have la := edgeLevel_top K M m e ha
      omega
    · have la := edgeLevel_quad K M m n hM e ha
      rw [List.mem_range] at hn
      omega

theorem gridEdges_nodup (K M : Nat) (hK : 1 ≤ K) (hM : 3 ≤ M) : (gridEdges K M).Nodup := by
  rw [gridEdges_eq, List.nodup_flatMap]
  refine ⟨fun m _ => stripEdges_nodup K M m hK hM, ?_⟩
  apply (List.nodup_range M).pairwise_of_forall_ne
  intro a _ b _ hab e hea heb
  have la := edgeHome_strip K M a hM e hea
  have lb := edgeHome_strip K M b hM e heb
  omega

theorem mem_gridEdges_top (K M m : Nat) (hm : m < M) :
    (GridVertex.top, GridVertex.ring m 0) ∈ gridEdges K M := by
  rw [mem_gridEdges]
  refine ⟨m, hm, ?_⟩
  rw [mem_stripEdges]
  exact Or.inl (Or.inl rfl)

theorem mem_gridEdges_to_top (K M m : Nat) (hm : m < M) :
    (GridVertex.ring m 0, GridVertex.top) ∈ gridEdges K M := by
  rw [mem_gridEdges]
  refine ⟨predColumn M m, predColumn_lt M m hm, ?_⟩
  rw [mem_stripEdges, succColumn_pred M m hm]
  exact Or.inl (Or.inr (Or.inr rfl))

theorem mem_gridEdges_to_bottom (K M m : Nat) (hm : m < M) :
    (GridVertex.ring m (K - 1), GridVertex.bottom) ∈ gridEdges K M := by
  rw [mem_gridEdges]
  refine ⟨m, hm, ?_⟩
  rw [mem_stripEdges]
  exact Or.inr (Or.inr (Or.inl rfl))

theorem mem_gridEdges_bottom (K M m : Nat) (hm : m < M) :
    (GridVertex.bottom, GridVertex.ring m (K - 1)) ∈ gridEdges K M := by
  rw [mem_gridEdges]
  refine ⟨predColumn M m, predColumn_lt M m hm, ?_⟩
  rw [mem_stripEdges, succColumn_pred M m hm]
  exact Or.inr (Or.inr (Or.inr (Or.inl rfl)))

theorem mem_gridEdges_down (K M m n : Nat) (hm : m < M) (hn : n < K - 1) :
    (GridVertex.ring m n, GridVertex.ring m (n + 1)) ∈ gridEdges K M := by
  rw [mem_gridEdges]
  refine ⟨m, hm, ?_⟩
  rw [mem_stripEdges]
  refine Or.inr (Or.inl ⟨n, hn, ?_⟩)
  rw [mem_quadEdges]
  exact Or.inl rfl

theorem mem_gridEdges_up (K M m n : Nat) (hm : m < M) (hn : n < K - 1) :
    (GridVertex.ring m (n + 1), GridVertex.ring m n) ∈ gridEdges K M := by
  rw [mem_gridEdges]
  refine ⟨predColumn M m, predColumn_lt M m hm, ?_⟩
  rw [mem_stripEdges]
  refine Or.inr (Or.inl ⟨n, hn, ?_⟩)
  rw [mem_quadEdges, succColumn_pred M m hm]
  exact Or.inr (Or.inr (Or.inr (Or.inr (Or.inr rfl))))

theorem mem_gridEdges_forward (K M m n : Nat) (hm : m < M) (hn : n < K) :
    (GridVertex.ring m n, GridVertex.ring (succColumn M m) n) ∈ gridEdges K M := by
  rw [mem_gridEdges]
  refine ⟨m, hm, ?_⟩
  rw [mem_stripEdges]
  cases n with
  | zero => exact Or.inl (Or.inr (Or.inl rfl))
  | succ k =>
    refine Or.inr (Or.inl ⟨k, by omega, ?_⟩)
    rw [mem_quadEdges]
    exact Or.inr (Or.inr (Or.inr (Or.inr (Or.inl rfl))))

theorem mem_gridEdges_backward (K M m n : Nat) (hm : m < M) (hn : n < K) :
    (GridVertex.ring (succColumn M m) n, GridVertex.ring m n) ∈ gridEdges K M := by
  rw [mem_gridEdges]
  refine ⟨m, hm, ?_⟩
  rw [mem_stripEdges]
  by_cases h : n = K - 1
  · subst h
    exact Or.inr (Or.inr (Or.inr (Or.inr rfl)))
  · refine Or.inr (Or.inl ⟨n, by omega, ?_⟩)
    rw [mem_quadEdges]
    exact Or.inr (Or.inr (Or.inl rfl))

theorem mem_gridEdges_diagonal (K M m n : Nat) (hm : m < M) (hn : n < K - 1) :
    (GridVertex.ring m (n + 1), GridVertex.ring (succColumn M m) n) ∈ gridEdges K M := by
  rw [mem_gridEdges]
  refine ⟨m, hm, ?_⟩
  rw [mem_stripEdges]
  refine Or.inr (Or.inl ⟨n, hn, ?_⟩)
  rw [mem_quadEdges]
  exact Or.inr (Or.inl rfl)

theorem mem_gridEdges_diagonal_back (K M m n : Nat) (hm : m < M) (hn : n < K - 1) :
    (GridVertex.ring (succColumn M m) n, GridVertex.ring m (n + 1)) ∈ gridEdges K M := by
  rw [mem_gridEdges]
  refine ⟨m, hm, ?_⟩
  rw [mem_stripEdges]
  refine Or.inr (Or.inl ⟨n, hn, ?_⟩)
  rw [mem_quadEdges]
  exact Or.inr (Or.inr (Or.inr (Or.inl rfl)))

theorem gridEdges_swap (K M : Nat) (hK : 1 ≤ K) (e : GridVertex × GridVertex)
    (he : e ∈ gridEdges K M) : e.swap ∈ gridEdges K M := by
  rw [mem_gridEdges] at he
  obtain ⟨m, hm, he⟩ := he
  have hs := succColumn_lt M m hm
  rw [mem_stripEdges] at he
  rcases he with (rfl | rfl | rfl) | ⟨n, hn, hq⟩ | (rfl | rfl | rfl)
  · exact mem_gridEdges_to_top K M m hm
  · exact mem_gridEdges_backward K M m 0 hm (by omega)
  · exact mem_gridEdges_top K M _ hs
  · rw [mem_quadEdges] at hq
    rcases hq with rfl | rfl | rfl | rfl | rfl | rfl
    · exact mem_gridEdges_up K M m n hm hn
    · exact mem_gridEdges_diagonal_back K M m n hm hn
    · exact mem_gridEdges_forward K M m n hm (by omega)
    · exact mem_gridEdges_diagonal K M m n hm hn
    · exact mem_gridEdges_backward K M m (n + 1) hm (by omega)
    · exact mem_gridEdges_down K M _ n hs hn
  · exact mem_gridEdges_bottom K M m hm
  · exact mem_gridEdges_to_bottom K M _ hs
  · exact mem_gridEdges_forward K M m (K - 1) hm (by omega)

theorem triples_corners_map {α β : Type} (f : α → β) (ts : List (α × α × α)) :
    triples ((corners ts).map f) = ts.map (mapTriangle f) := by
  induction ts with
  | nil => rfl
  | cons t ts ih =>
    have e : (corners (t :: ts)).map f =
        f t.1 :: f t.2.1 :: f t.2.2 :: (corners ts).map f := by
      simp [corners]
    rw [e, triples, ih]
    rfl

theorem edges_mapTriangle {α β : Type} (f : α → β) (ts : List (α × α × α)) :
    (ts.map (mapTriangle f)).flatMap triangleEdges =
      (ts.flatMap triangleEdges).map (Prod.map f f) := by
  induction ts with
  | nil => rfl
  | cons t ts ih =>
    simp only [List.map_cons, List.flatMap_cons, List.map_append, ih]
    rfl

theorem index_injective (K M : Nat) (u v : GridVertex) (hu : u.valid K M) (hv : v.valid K M)
    (h : u.index K = v.index K) : u = v := by
  cases u with
  | top =>
    cases v with
    | top => rfl
    | bottom => simp [GridVertex.index] at h
    | ring m n =>
      have : (0 : Int) ≤ (m : Int) * (K : Int) := by positivity
      simp only [GridVertex.index] at h
      omega
  | bottom =>
    cases v with
    | top => simp [GridVertex.index] at h
    | bottom => rfl
    | ring m n =>
      have : (0 : Int) ≤ (m : Int) * (K : Int) := by positivity
      simp only [GridVertex.index] at h
      omega
  | ring a n =>
    cases v with
    | top =>
      have : (0 : Int) ≤ (a : Int) * (K : Int) := by positivity
      simp only [GridVertex.index] at h
      omega
    | bottom =>
      have : (0 : Int) ≤ (a : Int) * (K : Int) := by positivity
      simp only [GridVertex.index] at h
      omega
    | ring b k =>
      obtain ⟨_, hn⟩ := hu
      obtain ⟨_, hk⟩ := hv
      simp only [GridVertex.index] at h
      have hnat : n + a * K = k + b * K := by
        have : ((n + a * K : Nat) : Int) = ((k + b * K : Nat) : Int) := by
          push_cast
          omega
        exact_mod_cast this
      have hKpos : 0 < K := by omega
      have e1 : (n + a * K) / K = a := by
        rw [Nat.add_mul_div_right _ _ hKpos, Nat.div_eq_of_lt hn, Nat.zero_add]
      have e2 : (k + b * K) / K = b := by
        rw [Nat.add_mul_div_right _ _ hKpos, Nat.div_eq_of_lt hk, Nat.zero_add]
      have hab : a = b := by rw [← e1, ← e2, hnat]
      subst hab
      have hnk : n = k := by omega
      rw [hnk]

theorem edge_in_one_triangle {α : Type} (ts : List (α × α × α))
    (hnd : (ts.flatMap triangleEdges).Nodup) (e : α × α) (p : α × α × α → Bool)
    (hp : ∀ u, p u = true ↔ e ∈ triangleEdges u) (he : e ∈ ts.flatMap triangleEdges) :
    ts.countP p = 1 := by
  induction ts with
  | nil => simp at he
  | cons t ts ih =>
    rw [List.flatMap_cons, List.nodup_append] at hnd
    obtain ⟨_, hnd2, hdis⟩ := hnd
    rw [List.flatMap_cons, List.mem_append] at he
    rw [List.countP_cons]
    by_cases ht : e ∈ triangleEdges t
    · have h0 : ts.countP p = 0 := by
        rw [List.countP_eq_zero]
        intro u hu hpu
        exact hdis ht (List.mem_flatMap.mpr ⟨u, hu, (hp u).mp hpu⟩)
      rw [h0, if_pos ((hp t).mpr ht)]
    · have hin : e ∈ ts.flatMap triangleEdges := by
        rcases he with he | he
        · exact absurd he ht
        · exact he
      rw [ih hnd2 hin, if_neg (fun h => ht ((hp t).mp h))]

theorem gridEdges_valid (K M : Nat) (hK : 1 ≤ K) (e : GridVertex × GridVertex)
    (he : e ∈ gridEdges K M) : e.1.valid K M ∧ e.2.valid K M := by
  simp only [gridEdges, List.mem_flatMap] at he
  obtain ⟨t, ht, he⟩ := he
  obtain ⟨v1, v2, v3⟩ := gridTriangles_valid K M hK t ht
  simp only [triangleEdges, List.mem_cons, List.not_mem_nil, or_false] at he
  rcases he with rfl | rfl | rfl
  · exact ⟨v1, v2⟩
  · exact ⟨v2, v3⟩
  · exact ⟨v3, v1⟩

theorem gridTriangles_distinct (K M : Nat) (hM : 2 ≤ M) :
    ∀ t ∈ gridTriangles K M, t.1 ≠ t.2.1 ∧ t.2.1 ≠ t.2.2 ∧ t.2.2 ≠ t.1 := by
  intro t ht
  simp only [gridTriangles, List.mem_flatMap, List.mem_range] at ht
  obtain ⟨m, _, ht⟩ := ht
  have h1 := succColumn_ne M m hM
  simp only [stripTriangles, List.mem_append, List.mem_singleton, List.mem_flatMap,
    List.mem_range, quadTriangles, List.mem_cons, List.not_mem_nil, or_false] at ht
  rcases ht with (rfl | ⟨n, _, rfl | rfl⟩) | rfl
  · simp [h1.symm]
  · simp [h1.symm]
    exact h1
  · simp [h1.symm]
  · simp
    exact h1

theorem gridTriangles_length (K M : Nat) (hK : 1 ≤ K) :
    (gridTriangles K M).length = 2 * K * M := by
  have hquads : ∀ (m n : Nat),
      ((List.range n).flatMap (quadTriangles M m)).length = 2 * n := by
    intro m n
    induction n with
    | zero => rfl
    | succ n ih =>
      rw [List.range_succ n, List.flatMap_append, List.length_append, ih]
      simp only [List.flatMap_cons, List.flatMap_nil, List.append_nil, quadTriangles,
        List.length_cons, List.length_nil]
      omega
  have hstrip : ∀ m, (stripTriangles K M m).length = 2 * K := by
    intro m
    simp only [stripTriangles, List.length_append, hquads, List.length_cons, List.length_nil]
    omega
  have hall : ∀ (n : Nat), ((List.range n).flatMap (stripTriangles K M)).length = 2 * K * n := by
    intro n
    induction n with
    | zero => rfl
    | succ n ih =>
      rw [List.range_succ n, List.flatMap_append, List.length_append, ih]
      simp only [List.flatMap_cons, List.flatMap_nil, List.append_nil, hstrip]
      ring
  exact hall M

theorem sphere_triangles_grid (subdivH subdivV : Int) (K M : Nat)
    (hK : max subdivV 2 - 2 = (K : Int)) (hM : max subdivH 4 = (M : Int)) (hK1 : 1 ≤ K)
    (hN : 2 + (K : Int) * (M : Int) ≤ 65536) :
    (render_GenerateSphereGeom subdivH subdivV).triangles =
      (gridTriangles K M).map (mapTriangle (GridVertex.index K)) := by
  obtain ⟨_, _, _, _, g5, _⟩ := sphere_run_grid subdivH subdivV K M hK hM hK1 hN
  rw [SphereRun.triangles, g5, triples_corners_map]

theorem indexed_edges_nodup (K M : Nat) (hK : 1 ≤ K) (hM : 3 ≤ M) :
    (((gridTriangles K M).map (mapTriangle (GridVertex.index K))).flatMap
      triangleEdges).Nodup := by
  rw [edges_mapTriangle]
  refine List.Nodup.map_on ?_ (gridEdges_nodup K M hK hM)
  intro x hx y hy hxy
  obtain ⟨x1, x2⟩ := gridEdges_valid K M hK x hx
  obtain ⟨y1, y2⟩ := gridEdges_valid K M hK y hy
  have e1 : x.1.index K = y.1.index K := congrArg Prod.fst hxy
  have e2 : x.2.index K = y.2.index K := congrArg Prod.snd hxy
  exact Prod.ext (index_injective K M _ _ x1 y1 e1) (index_injective K M _ _ x2 y2 e2)

theorem indexed_edges_swap (K M : Nat) (hK : 1 ≤ K) (e : Int × Int)
    (he : e ∈ ((gridTriangles K M).map (mapTriangle (GridVertex.index K))).flatMap
      triangleEdges) :
    e.swap ∈ ((gridTriangles K M).map (mapTriangle (GridVertex.index K))).flatMap
      triangleEdges := by
  rw [edges_mapTriangle, List.mem_map] at he ⊢
  obtain ⟨g, hg, rfl⟩ := he
  exact ⟨g.swap, gridEdges_swap K M hK g hg, rfl⟩

/-- C15: from three rings on and with at most 65536 vertices, the indices stored by
`render_GenerateSphereGeom` (slot after slot, in order), read three at a time, are `numFaces`
triangles of a closed, consistently oriented surface: no triangle has a vertex index twice, and
every directed edge of a triangle is an edge of exactly one triangle of the list, as is the
reverse edge. -/
theorem sphere_surface_closed (subdivH subdivV : Int) (h3 : 3 ≤ subdivV)
    (hN : 2 + (max subdivV 2 - 2) * max subdivH 4 ≤ 65536) :
    (render_GenerateSphereGeom subdivH subdivV).indexWrites.map Prod.fst =
        (List.range (render_GenerateSphereGeom subdivH subdivV).indicesSize.toNat).map
          (fun (j : Nat) => (j : Int)) ∧
      ((render_GenerateSphereGeom subdivH subdivV).triangles.length : Int) =
        (render_GenerateSphereGeom subdivH subdivV).numFaces ∧
      (∀ t ∈ (render_GenerateSphereGeom subdivH subdivV).triangles,
        t.1 ≠ t.2.1 ∧ t.2.1 ≠ t.2.2 ∧ t.2.2 ≠ t.1) ∧
      ∀ t ∈ (render_GenerateSphereGeom subdivH subdivV).triangles, ∀ e ∈ triangleEdges t,
        (render_GenerateSphereGeom subdivH subdivV).triangles.countP
            (fun u => decide (e ∈ triangleEdges u)) = 1 ∧
          (render_GenerateSphereGeom subdivH subdivV).triangles.countP
            (fun u => decide (e.swap ∈ triangleEdges u)) = 1 := by
  obtain ⟨K, hK⟩ : ∃ K : Nat, max subdivV 2 - 2 = (K : Int) :=
    ⟨(max subdivV 2 - 2).toNat, by omega⟩
  obtain ⟨M, hM⟩ : ∃ M : Nat, max subdivH 4 = (M : Int) := ⟨(max subdivH 4).toNat, by omega⟩
  have hK1 : 1 ≤ K := by omega
  have hM3 : 3 ≤ M := by omega
  rw [hK, hM] at hN
  obtain ⟨_, g2, _, g4, _, _⟩ := sphere_run_grid subdivH subdivV K M hK hM hK1 hN
  have hT := sphere_triangles_grid subdivH subdivV K M hK hM hK1 hN
  have hnd := indexed_edges_nodup K M hK1 hM3
  rw [hT]
  refine ⟨?_, ?_, ?_, ?_⟩
  · rw [g4, SphereRun.indicesSize, g2]
    congr 2
    have e : (3 * (2 * ((K : Int) * (M : Int)))) = ((6 * K * M : Nat) : Int) := by
      push_cast; ring
    rw [e]
    rfl
  · rw [List.length_map, gridTriangles_length K M hK1, g2]
    push_cast
    ring
  · intro t ht
    rw [List.mem_map] at ht
    obtain ⟨g, hg, rfl⟩ := ht
    obtain ⟨v1, v2, v3⟩ := gridTriangles_valid K M hK1 g hg
    obtain ⟨d1, d2, d3⟩ := gridTriangles_distinct K M (by omega) g hg
    exact ⟨fun h => d1 (index_injective K M _ _ v1 v2 h),
      fun h => d2 (index_injective K M _ _ v2 v3 h),
      fun h => d3 (index_injective K M _ _ v3 v1 h)⟩
  · intro t ht e he
    have hmem : e ∈ ((gridTriangles K M).map (mapTriangle (GridVertex.index K))).flatMap
        triangleEdges := List.mem_flatMap.mpr ⟨t, ht, he⟩
    exact ⟨edge_in_one_triangle _ hnd e _ (fun u => by simp) hmem,
      edge_in_one_triangle _ hnd e.swap _ (fun u => by simp)
        (indexed_edges_swap K M hK1 e hmem)⟩

/-- The run at subdivH = 4, subdivV = 3 is an instance. -/
theorem sphere_surface_closed_witness :
    (3 : Int) ≤ 3 ∧ 2 + (max (3 : Int) 2 - 2) * max (4 : Int) 4 ≤ 65536 ∧
      ((render_GenerateSphereGeom 4 3).indexWrites.map Prod.fst =
          (List.range (render_GenerateSphereGeom 4 3).indicesSize.toNat).map
            (fun (j : Nat) => (j : Int)) ∧
        ((render_GenerateSphereGeom 4 3).triangles.length : Int) =
          (render_GenerateSphereGeom 4 3).numFaces ∧
        (∀ t ∈ (render_GenerateSphereGeom 4 3).triangles,
          t.1 ≠ t.2.1 ∧ t.2.1 ≠ t.2.2 ∧ t.2.2 ≠ t.1) ∧
        ∀ t ∈ (render_GenerateSphereGeom 4 3).triangles, ∀ e ∈ triangleEdges t,
          (render_GenerateSphereGeom 4 3).triangles.countP
              (fun u => decide (e ∈ triangleEdges u)) = 1 ∧
            (render_GenerateSphereGeom 4 3).triangles.countP
              (fun u => decide (e.swap ∈ triangleEdges u)) = 1) :=
  ⟨by decide, by decide, sphere_surface_closed 4 3 (by decide) (by decide)⟩

end Hypertexture
